import Mathlib

/-!
# bench-utils: hierarchical profiler and repetition tester

A shallow embedding of `src/profile.cpp` and `src/repetition_tester.cpp`.

* `u64` values are natural numbers; every arithmetic operation of the source is
  written with its reduction modulo `2 ^ 64` (`wadd`, `wsub`, `wmul`).
* `read_cpu_timer()` and `get_os_page_faults()` are inputs: each call site takes the
  value that was read as an argument.
* The anchor table `global_profiler.anchors[MAX_ANCHORS]` is a map from
  `Fin MAX_ANCHORS`, so an index is in bounds by its type.
* A `const char*` is an `Option String` (`none` is `nullptr`).
-/

namespace BenchUtils

/-! ## `types.h`: `u64` arithmetic -/

/-- The `u64` sum `a + b`. -/
def wadd (a b : Nat) : Nat := (a + b) % 2 ^ 64

/-- The `u64` difference `a - b`. -/
def wsub (a b : Nat) : Nat := (a + (2 ^ 64 - b % 2 ^ 64)) % 2 ^ 64

/-- The `u64` product `a * b`. -/
def wmul (a b : Nat) : Nat := (a * b) % 2 ^ 64

/-- The constant `UINT64_MAX`. -/
def UINT64_MAX : Nat := 2 ^ 64 - 1

/-! ## `profile.cpp`: data model -/

/-- The capacity `MAX_ANCHORS` of the anchor table. -/
abbrev MAX_ANCHORS : Nat := 4096

/-- An index into `global_profiler.anchors`. -/
abbrev AnchorIndex : Type := Fin MAX_ANCHORS

/-- The anchor with index 0, the root: the value of the zero-initialised
`global_parent_profiler`. -/
def rootAnchor : AnchorIndex := ⟨0, by decide⟩

/-- The record `struct ProfileAnchor`. -/
structure ProfileAnchor where
  tsc_elapsed_exclusive : Nat
  tsc_elapsed_inclusive : Nat
  num_hits : Nat
  bytes_processed : Nat
  label : Option String
deriving DecidableEq, Repr

/-- The record `struct Profiler` (the `PROFILE` variant). -/
structure Profiler where
  anchors : AnchorIndex → ProfileAnchor
  start_tsc : Nat
  end_tsc : Nat

/-- The two globals of `profile.cpp`: `global_profiler` and `global_parent_profiler`. -/
structure ProfilerState where
  global_profiler : Profiler
  global_parent_profiler : AnchorIndex

/-- The record `struct ProfileBlock`: one open region. -/
structure ProfileBlock where
  label : Option String
  start_tsc : Nat
  old_tsc_inclusive : Nat
  anchor_index : AnchorIndex
  parent_index : AnchorIndex
  bytes_processed : Nat
deriving DecidableEq, Repr

/-- A zero-initialised `ProfileAnchor`. -/
def ProfileAnchor.zero : ProfileAnchor :=
  { tsc_elapsed_exclusive := 0, tsc_elapsed_inclusive := 0, num_hits := 0,
    bytes_processed := 0, label := none }

/-- The profiler globals as static storage leaves them: all zero. -/
def ProfilerState.zero : ProfilerState :=
  { global_profiler := { anchors := fun _ => ProfileAnchor.zero, start_tsc := 0, end_tsc := 0 },
    global_parent_profiler := rootAnchor }

/-- The anchor `global_profiler.anchors[i]`. -/
def ProfilerState.anchor (s : ProfilerState) (i : AnchorIndex) : ProfileAnchor :=
  s.global_profiler.anchors i

/-- Store `a` at `global_profiler.anchors[i]`. -/
def ProfilerState.setAnchor (s : ProfilerState) (i : AnchorIndex) (a : ProfileAnchor) :
    ProfilerState :=
  { s with global_profiler :=
      { s.global_profiler with anchors := Function.update s.global_profiler.anchors i a } }

/-! ## `profile.cpp`: the constructor and the destructor of `ProfileBlock` -/

/-- The constructor `ProfileBlock::ProfileBlock(name, index, bytes)` (lines 40-52);
`now` is the value `read_cpu_timer()` returns on line 51. -/
def ProfileBlock_ctor (name : Option String) (index : AnchorIndex) (bytes : Nat)
    (now : Nat) (s : ProfilerState) : ProfileBlock × ProfilerState :=
  let parent_index := s.global_parent_profiler
  let anchor_index := index
  let label := name
  let bytes_processed := bytes
  let self := s.anchor index
  let old_tsc_inclusive := self.tsc_elapsed_inclusive
  let s1 := { s with global_parent_profiler := anchor_index }
  let start_tsc := now
  ({ label := label, start_tsc := start_tsc, old_tsc_inclusive := old_tsc_inclusive,
     anchor_index := anchor_index, parent_index := parent_index,
     bytes_processed := bytes_processed }, s1)

/-- The destructor `ProfileBlock::~ProfileBlock()` (lines 54-68); `now` is the value
`read_cpu_timer()` returns on line 55. The writes through `parent` and `anchor` happen in
the order of the source, so that they compose when both point at the same anchor. -/
def ProfileBlock_dtor (b : ProfileBlock) (now : Nat) (s : ProfilerState) : ProfilerState :=
  let elapsed := wsub now b.start_tsc
  let s1 := { s with global_parent_profiler := b.parent_index }
  -- parent->tsc_elapsed_exclusive -= elapsed;
  let parent := s1.anchor b.parent_index
  let s2 := s1.setAnchor b.parent_index
    { parent with tsc_elapsed_exclusive := wsub parent.tsc_elapsed_exclusive elapsed }
  -- anchor->tsc_elapsed_exclusive += elapsed;
  let anchor := s2.anchor b.anchor_index
  let s3 := s2.setAnchor b.anchor_index
    { anchor with tsc_elapsed_exclusive := wadd anchor.tsc_elapsed_exclusive elapsed }
  -- anchor->tsc_elapsed_inclusive = old_tsc_inclusive + elapsed;
  let s4 := s3.setAnchor b.anchor_index
    { s3.anchor b.anchor_index with tsc_elapsed_inclusive := wadd b.old_tsc_inclusive elapsed }
  -- anchor->bytes_processed += bytes_processed;
  let s5 := s4.setAnchor b.anchor_index
    { s4.anchor b.anchor_index with
      bytes_processed := wadd (s4.anchor b.anchor_index).bytes_processed b.bytes_processed }
  -- ++anchor->num_hits;
  let s6 := s5.setAnchor b.anchor_index
    { s5.anchor b.anchor_index with num_hits := wadd (s5.anchor b.anchor_index).num_hits 1 }
  -- anchor->label = label;
  s6.setAnchor b.anchor_index { s6.anchor b.anchor_index with label := b.label }

/-! ## Traces of region begin/end calls

The scoped objects of the source live in the frames of the measured program, so the blocks
that are open at some instant form a stack: a `ProfileBlock` is pushed by its constructor
and the destructor that runs next is the one of the innermost open block. -/

/-- One call of the profiler: the expansion of `PROFILE_BANDWIDTH(name, bytes)` with
anchor index `index`, or the end of the scope of the innermost open block. `now` is the
timer reading of that call. -/
inductive ProfileEvent where
  | enter (name : Option String) (index : AnchorIndex) (bytes : Nat) (now : Nat)
  | leave (now : Nat)
deriving DecidableEq, Repr

/-- The timer reading of an event. -/
def ProfileEvent.now : ProfileEvent → Nat
  | .enter _ _ _ now => now
  | .leave now => now

/-- The profiler globals together with the blocks that are open, innermost first. -/
structure ProfileRun where
  state : ProfilerState
  open_blocks : List ProfileBlock

/-- The start of a program: zeroed globals, no open block. -/
def ProfileRun.init : ProfileRun := { state := ProfilerState.zero, open_blocks := [] }

/-- Perform one event. Leaving with no open block is not a properly nested trace. -/
def ProfileRun.step (m : ProfileRun) : ProfileEvent → Option ProfileRun
  | .enter name index bytes now =>
    let r := ProfileBlock_ctor name index bytes now m.state
    some { state := r.2, open_blocks := r.1 :: m.open_blocks }
  | .leave now =>
    match m.open_blocks with
    | [] => none
    | b :: rest => some { state := ProfileBlock_dtor b now m.state, open_blocks := rest }

/-- Perform the events of a trace in order. -/
def ProfileRun.run : List ProfileEvent → ProfileRun → Option ProfileRun
  | [], m => some m
  | e :: es, m =>
    match m.step e with
    | none => none
    | some m1 => ProfileRun.run es m1

/-- The effect of one event on the list of open regions: entering pushes the anchor index,
leaving pops. -/
def openStep (stk : List AnchorIndex) (e : ProfileEvent) : List AnchorIndex :=
  match e with
  | .enter _ index _ _ => index :: stk
  | .leave _ => stk.tail

/-- The anchor indices of the regions a trace leaves open, innermost first: read off the
events alone. -/
def openRegions (tr : List ProfileEvent) : List AnchorIndex :=
  tr.foldl openStep []

/-- The most recently entered, not yet exited region of a trace; the root when none is
open. -/
def innermostOpen (tr : List ProfileEvent) : AnchorIndex :=
  (openRegions tr).headD rootAnchor

/-! ## Region forests: the activations of a properly nested trace -/

/-- A sequence of closed regions: `node name index bytes t0 t1 inner next` is one
activation of anchor `index`, entered at reading `t0` and left at reading `t1`, with the
regions `inner` opened directly inside it, followed by its later siblings `next`. -/
inductive Regions where
  | nil
  | node (name : Option String) (index : AnchorIndex) (bytes t0 t1 : Nat)
      (inner next : Regions)
deriving DecidableEq, Repr

/-- The trace of a region forest. -/
def Regions.events : Regions → List ProfileEvent
  | .nil => []
  | .node name index bytes t0 t1 inner next =>
    ProfileEvent.enter name index bytes t0 :: (inner.events ++ ProfileEvent.leave t1 :: next.events)

/-- The effect of a region forest on the globals: construct, run the inner regions,
destroy, continue with the siblings. -/
def Regions.exec : Regions → ProfilerState → ProfilerState
  | .nil, s => s
  | .node name index bytes t0 t1 inner next, s =>
    let r := ProfileBlock_ctor name index bytes t0 s
    next.exec (ProfileBlock_dtor r.1 t1 (inner.exec r.2))

/-- The elapsed cycles of an activation entered at reading `t0` and left at reading `t1`,
as line 55 computes them. -/
def elapsedCycles (t0 t1 : Nat) : Nat := wsub t1 t0

/-- The sum of the elapsed cycles of the top-level regions of a forest. -/
def Regions.topElapsed : Regions → Nat
  | .nil => 0
  | .node _ _ _ t0 t1 _ next => elapsedCycles t0 t1 + next.topElapsed

/-- The sum, over all activations of anchor `a`, of the elapsed cycles of the activation
minus the elapsed cycles of the regions opened directly inside it. -/
def Regions.exclusiveOf (a : AnchorIndex) : Regions → Nat
  | .nil => 0
  | .node _ index _ t0 t1 inner next =>
    (if index = a then elapsedCycles t0 t1 - inner.topElapsed else 0)
      + (inner.exclusiveOf a + next.exclusiveOf a)

/-- The sum of the elapsed cycles of all activations of anchor `a`. -/
def Regions.elapsedOf (a : AnchorIndex) : Regions → Nat
  | .nil => 0
  | .node _ index _ t0 t1 inner next =>
    (if index = a then elapsedCycles t0 t1 else 0) + (inner.elapsedOf a + next.elapsedOf a)

/-- The sum of the elapsed cycles of the outermost activations of anchor `a`: those not
opened, at any depth, inside another activation of `a`. -/
def Regions.outerElapsedOf (a : AnchorIndex) : Regions → Nat
  | .nil => 0
  | .node _ index _ t0 t1 inner next =>
    (if index = a then elapsedCycles t0 t1 else inner.outerElapsedOf a) + next.outerElapsedOf a

/-- The sum of the elapsed cycles of the regions opened while the innermost open region is
`p`; `cur` is the innermost open region around the forest. -/
def Regions.childElapsedOf (p : AnchorIndex) (cur : AnchorIndex) : Regions → Nat
  | .nil => 0
  | .node _ index _ t0 t1 inner next =>
    (if cur = p then elapsedCycles t0 t1 else 0)
      + (inner.childElapsedOf p index + next.childElapsedOf p cur)

/-- The anchors opened as a child of `p`, each listed once; `cur` is the innermost open
region around the forest. -/
def Regions.childAnchors (p : AnchorIndex) (cur : AnchorIndex) : Regions → List AnchorIndex
  | .nil => []
  | .node _ index _ _ _ inner next =>
    ((if cur = p then [index] else [])
      ++ (inner.childAnchors p index ++ next.childAnchors p cur)).dedup

/-- Anchor `a` is opened, at some depth, inside an activation of `a`; `inside` says whether
the forest itself lies inside one. -/
def Regions.reenters (a : AnchorIndex) (inside : Bool) : Regions → Bool
  | .nil => false
  | .node _ index _ _ _ inner next =>
    (decide (index = a) && inside)
      || inner.reenters a (inside || decide (index = a))
      || next.reenters a inside

/-- The timer readings of a forest in the order they are taken. -/
def Regions.readings (f : Regions) : List Nat := f.events.map ProfileEvent.now

/-- A chain of direct self-recursion of anchor `a`: one activation per entry of `acts`
(label, bytes, entry reading, exit reading), the head outermost, each opened directly inside
the previous one and nothing else nested. -/
def selfRecursion (a : AnchorIndex) : List (Option String × Nat × Nat × Nat) → Regions
  | [] => .nil
  | (name, bytes, t0, t1) :: acts => .node name a bytes t0 t1 (selfRecursion a acts) .nil

/-- The events that close the regions still open and run further closed regions at each
level on the way out. -/
def closingEvents : List (Nat × Regions) → List ProfileEvent
  | [] => []
  | (t, g) :: rest => ProfileEvent.leave t :: (g.events ++ closingEvents rest)

/-- Each open block remembers as its parent the anchor of the block opened just before
it, the outermost one the root. -/
def linked : List ProfileBlock → Prop
  | [] => True
  | b :: rest => b.parent_index = (rest.map ProfileBlock.anchor_index).headD rootAnchor
      ∧ linked rest

/-- The register holds the anchor of the innermost open block and the open blocks are
linked. -/
def ProfileRun.consistent (m : ProfileRun) : Prop :=
  m.state.global_parent_profiler = (m.open_blocks.map ProfileBlock.anchor_index).headD rootAnchor
    ∧ linked m.open_blocks

/-! ## `repetition_tester.cpp`: data model -/

/-- The record `struct RepetitionTesterTestConfig`. -/
structure RepetitionTesterTestConfig where
  max_seconds_to_run : Nat
  repetition_count : Nat
  print_new_minimums : Bool
  cache_params : Bool
deriving DecidableEq, Repr

/-- The function `RepetitionTesterTestConfig_default` (lines 39-46). -/
def RepetitionTesterTestConfig_default : RepetitionTesterTestConfig :=
  { max_seconds_to_run := 10, repetition_count := 1, print_new_minimums := true,
    cache_params := true }

/-- The record `struct RepetitionTesterTestValue`: the array `acc[TestValue_Count]`, one
field per constant of `enum TestValue`. -/
structure RepetitionTesterTestValue where
  TestCount : Nat
  MemPageFaults : Nat
  CpuElapsed : Nat
  BytesProcessed : Nat
deriving DecidableEq, Repr

/-- The record `struct RepetitionTesterTestContext`. -/
structure RepetitionTesterTestContext where
  iteration_value : RepetitionTesterTestValue
  start_time : Nat
  error_happened : Bool
deriving DecidableEq, Repr

/-- The record `struct RepetitionTesterTestResults`. -/
structure RepetitionTesterTestResults where
  total : RepetitionTesterTestValue
  min : RepetitionTesterTestValue
  max : RepetitionTesterTestValue
deriving DecidableEq, Repr

/-- The fields of `struct RepetitionTester` that the convergence loop and the timing calls
read or write. -/
structure RepetitionTester where
  cpu_frequency : Nat
  context : RepetitionTesterTestContext
  results : RepetitionTesterTestResults
deriving DecidableEq, Repr

/-- A metric vector with every accumulator equal to `x`. -/
def RepetitionTesterTestValue.fill (x : Nat) : RepetitionTesterTestValue :=
  { TestCount := x, MemPageFaults := x, CpuElapsed := x, BytesProcessed := x }

/-- The component-wise `u64` sum of two metric vectors: the loop of lines 263-265. -/
def RepetitionTesterTestValue.add (a b : RepetitionTesterTestValue) :
    RepetitionTesterTestValue :=
  { TestCount := wadd a.TestCount b.TestCount,
    MemPageFaults := wadd a.MemPageFaults b.MemPageFaults,
    CpuElapsed := wadd a.CpuElapsed b.CpuElapsed,
    BytesProcessed := wadd a.BytesProcessed b.BytesProcessed }

/-! ## `repetition_tester.cpp`: the calls a test function makes -/

/-- The function `RepetitionTester_begin_time` (lines 182-186); `tsc` and `faults` are the
values `read_cpu_timer()` and `get_os_page_faults()` return. -/
def RepetitionTester_begin_time (tester : RepetitionTester) (tsc faults : Nat) :
    RepetitionTester :=
  { tester with context := { tester.context with iteration_value :=
      { tester.context.iteration_value with
        CpuElapsed := wsub tester.context.iteration_value.CpuElapsed tsc,
        MemPageFaults := wsub tester.context.iteration_value.MemPageFaults faults } } }

/-- The function `RepetitionTester_end_time` (lines 188-192). -/
def RepetitionTester_end_time (tester : RepetitionTester) (tsc faults : Nat) :
    RepetitionTester :=
  { tester with context := { tester.context with iteration_value :=
      { tester.context.iteration_value with
        CpuElapsed := wadd tester.context.iteration_value.CpuElapsed tsc,
        MemPageFaults := wadd tester.context.iteration_value.MemPageFaults faults } } }

/-- The function `RepetitionTester_bytes_processed` (lines 194-197). -/
def RepetitionTester_bytes_processed (tester : RepetitionTester) (bytes_processed : Nat) :
    RepetitionTester :=
  { tester with context := { tester.context with iteration_value :=
      { tester.context.iteration_value with
        BytesProcessed := wadd tester.context.iteration_value.BytesProcessed bytes_processed } } }

/-- The function `RepetitionTester_error` (lines 199-205): it sets the error flag (and
prints the message). -/
def RepetitionTester_error (tester : RepetitionTester) (_message : String) : RepetitionTester :=
  { tester with context := { tester.context with error_happened := true } }

/-- One call a test function makes on the tester it is given, with the values the platform
returns to that call. -/
inductive TestCall where
  | begin_time (tsc faults : Nat)
  | end_time (tsc faults : Nat)
  | bytes_processed (bytes : Nat)
  | error (message : String)
  | get_params
deriving DecidableEq, Repr

/-- Perform one call of a test function on the context. A call of
`RepetitionTester_get_params_for_test` touches only the parameter cache, which is no part
of these fields. -/
def TestCall.apply (tester : RepetitionTester) : TestCall → RepetitionTester
  | .begin_time tsc faults => RepetitionTester_begin_time tester tsc faults
  | .end_time tsc faults => RepetitionTester_end_time tester tsc faults
  | .bytes_processed bytes => RepetitionTester_bytes_processed tester bytes
  | .error message => RepetitionTester_error tester message
  | .get_params => tester

/-- One invocation `test->test(tester)` (line 248): the calls it makes, in order. -/
def runTest (calls : List TestCall) (tester : RepetitionTester) : RepetitionTester :=
  calls.foldl TestCall.apply tester

/-! ## `repetition_tester.cpp`: the convergence loop of `RepetitionTester_run` -/

/-- What one pass through the body of `for (;;)` (lines 244-285) ends with: the next pass,
the `break` of line 283, or a `goto next_test_loop` (lines 254 and 259). -/
inductive LoopControl where
  | next_iteration
  | break_loop
  | goto_next_test_loop
deriving DecidableEq, Repr

/-- What one iteration takes from outside: the reading `current_time` of line 246 and the
calls the test function makes. -/
structure IterationInput where
  current_time : Nat
  calls : List TestCall
deriving DecidableEq, Repr

/-- Lines 224-228 and 242: the context and the results are zeroed, every accumulator of
`min` is set to `UINT64_MAX`, and `start_time` is set to a timer reading. -/
def beginRepetition (now : Nat) (tester : RepetitionTester) : RepetitionTester :=
  { tester with
    context := { iteration_value := RepetitionTesterTestValue.fill 0, start_time := now,
                 error_happened := false },
    results := { total := RepetitionTesterTestValue.fill 0,
                 min := RepetitionTesterTestValue.fill UINT64_MAX,
                 max := RepetitionTesterTestValue.fill 0 } }

/-- Lines 245-248: `iteration_value` is zeroed, the timer is read and the test function is
invoked. -/
def invokeTest (input : IterationInput) (tester : RepetitionTester) : RepetitionTester :=
  -- context->iteration_value = {};
  let t1 : RepetitionTester :=
    { tester with context :=
        { tester.context with iteration_value := RepetitionTesterTestValue.fill 0 } }
  -- test->test(tester);
  runTest input.calls t1

/-- Lines 250-284: what the body of the convergence loop does once the test function has
returned; `current_time` is the reading of line 246. -/
def afterTest (config : RepetitionTesterTestConfig) (current_time : Nat)
    (t2 : RepetitionTester) : LoopControl × RepetitionTester :=
  let it_value := t2.context.iteration_value
  if t2.context.error_happened then
    (LoopControl.goto_next_test_loop, RepetitionTester_error t2 "Aborting due to error")
  else if it_value.CpuElapsed = 0 then
    (LoopControl.goto_next_test_loop, t2)
  else
    let it_value := { it_value with TestCount := 1 }
    let t3 : RepetitionTester :=
      { t2 with results := { t2.results with total := t2.results.total.add it_value } }
    let t4 : RepetitionTester :=
      if t3.results.max.CpuElapsed < it_value.CpuElapsed then
        { t3 with results := { t3.results with max := it_value } }
      else t3
    let t5 : RepetitionTester :=
      if t4.results.min.CpuElapsed > it_value.CpuElapsed then
        { t4 with results := { t4.results with min := it_value },
                  context := { t4.context with start_time := current_time } }
      else t4
    if wsub current_time t5.context.start_time
        > wmul config.max_seconds_to_run t5.cpu_frequency then
      (LoopControl.break_loop, t5)
    else
      (LoopControl.next_iteration, t5)

/-- The body of the convergence loop, lines 245-284. -/
def loopIteration (config : RepetitionTesterTestConfig) (input : IterationInput)
    (tester : RepetitionTester) : LoopControl × RepetitionTester :=
  afterTest config input.current_time (invokeTest input tester)

/-- The loop `for (;;)` of lines 244-285, started at iteration `k`, for at most `fuel`
iterations; `inputs k` is what iteration `k` takes from outside. The result is how the loop
was left, the tester then, and the number of iterations started. -/
def convergenceLoop (config : RepetitionTesterTestConfig) (inputs : Nat → IterationInput) :
    Nat → Nat → RepetitionTester → Option (LoopControl × RepetitionTester × Nat)
  | 0, _, _ => none
  | fuel + 1, k, tester =>
    match loopIteration config (inputs k) tester with
    | (LoopControl.next_iteration, t1) => convergenceLoop config inputs fuel (k + 1) t1
    | (c, t1) => some (c, t1, k + 1)

/-- A tester with every field zero. -/
def RepetitionTester.blank : RepetitionTester :=
  { cpu_frequency := 0,
    context := { iteration_value := RepetitionTesterTestValue.fill 0, start_time := 0,
                 error_happened := false },
    results := { total := RepetitionTesterTestValue.fill 0,
                 min := RepetitionTesterTestValue.fill 0,
                 max := RepetitionTesterTestValue.fill 0 } }

/-- The metric vector an invocation of the test function leaves in the zeroed
`iteration_value`. -/
def iterationValue (calls : List TestCall) : RepetitionTesterTestValue :=
  (runTest calls RepetitionTester.blank).context.iteration_value

/-- The invocation of the test function calls `RepetitionTester_error`. -/
def reportsError (calls : List TestCall) : Bool :=
  (runTest calls RepetitionTester.blank).context.error_happened

/-- The sum of the elapsed cycles the first `n` iterations measure. -/
def elapsedSum (inputs : Nat → IterationInput) : Nat → Nat
  | 0 => 0
  | n + 1 => elapsedSum inputs n + (iterationValue (inputs n).calls).CpuElapsed

/-- The state of the results after `k` iterations of a repetition were folded: no error is
flagged, `total` holds the iteration count and the elapsed sum modulo `2^64`, and the
elapsed cycles of `min` and `max` bound the average from below and above. -/
def Folded (inputs : Nat → IterationInput) (k : Nat) (t : RepetitionTester) : Prop :=
  t.context.error_happened = false
    ∧ t.results.total.TestCount = k % 2 ^ 64
    ∧ t.results.total.CpuElapsed = elapsedSum inputs k % 2 ^ 64
    ∧ t.results.min.CpuElapsed * k ≤ elapsedSum inputs k
    ∧ elapsedSum inputs k ≤ t.results.max.CpuElapsed * k
    ∧ k ≤ elapsedSum inputs k

/-! ## Calls of the profiler with arbitrary markers -/

/-- One call of the profiler that need not respect nesting: a region is begun, or a region
is ended with any marker whatsoever. -/
inductive ProfileCall where
  | begin_region (name : Option String) (index : AnchorIndex) (bytes : Nat) (now : Nat)
  | end_region (marker : ProfileBlock) (now : Nat)
deriving DecidableEq, Repr

/-- Perform one call on the profiler globals. -/
def ProfileCall.apply (s : ProfilerState) : ProfileCall → ProfilerState
  | .begin_region name index bytes now => (ProfileBlock_ctor name index bytes now s).2
  | .end_region marker now => ProfileBlock_dtor marker now s

/-- Perform a sequence of calls in order. -/
def applyCalls (calls : List ProfileCall) (s : ProfilerState) : ProfilerState :=
  calls.foldl ProfileCall.apply s

/-- The sum of the exclusive totals of all anchors, the root included. -/
def exclusiveSum (s : ProfilerState) : Nat :=
  ∑ i : AnchorIndex, (s.anchor i).tsc_elapsed_exclusive

/-- The sum of the exclusive totals of all anchors but the root. -/
def otherExclusiveSum (s : ProfilerState) : Nat :=
  ∑ i in Finset.univ.erase rootAnchor, (s.anchor i).tsc_elapsed_exclusive

/-! ## `profile.cpp`: the report of `print_performance_anchors` -/

/-- One line of the report. The numbers the source formats as `f64` are kept as the `u64`
operands they are computed from: `with_children` holds the inclusive total when the
percentage with children is printed, `throughput` holds the bytes processed and the
inclusive total when the throughput is printed. `index` is the anchor the line is about. -/
structure ReportRow where
  index : AnchorIndex
  label : Option String
  num_hits : Nat
  tsc_elapsed_exclusive : Nat
  with_children : Option Nat
  throughput : Option (Nat × Nat)
deriving DecidableEq, Repr

/-- The line lines 76-99 print for an anchor. -/
def reportRow (s : ProfilerState) (i : AnchorIndex) : ReportRow :=
  let anchor := s.anchor i
  { index := i,
    label := anchor.label,
    num_hits := anchor.num_hits,
    tsc_elapsed_exclusive := anchor.tsc_elapsed_exclusive,
    with_children :=
      if anchor.tsc_elapsed_inclusive ≠ anchor.tsc_elapsed_exclusive
      then some anchor.tsc_elapsed_inclusive else none,
    throughput :=
      if anchor.bytes_processed ≠ 0
      then some (anchor.bytes_processed, anchor.tsc_elapsed_inclusive) else none }

/-- The body of the loop of `print_performance_anchors` for index `i` (lines 73-100). -/
def reportLines (s : ProfilerState) (i : Nat) : List ReportRow :=
  if h : i < MAX_ANCHORS then
    if (s.anchor ⟨i, h⟩).tsc_elapsed_exclusive ≠ 0 then [reportRow s ⟨i, h⟩] else []
  else []

/-- The loop `for (size_t i = ...; i != MAX_ANCHORS; ++i)` with `remaining` indices to go
from `i`. -/
def reportLoop (s : ProfilerState) : Nat → Nat → List ReportRow
  | 0, _ => []
  | remaining + 1, i => reportLines s i ++ reportLoop s remaining (i + 1)

/-- The function `print_performance_anchors` (lines 71-102): the loop starts at index 1. -/
def print_performance_anchors (s : ProfilerState) : List ReportRow :=
  reportLoop s (MAX_ANCHORS - 1) 1

/-- The call is neither a timing update nor an error report. -/
def TestCall.isQuiet : TestCall → Bool
  | .begin_time _ _ => false
  | .end_time _ _ => false
  | .bytes_processed _ => true
  | .error _ => false
  | .get_params => true

/-! ## `repetition_tester.cpp`: benchmarks and the engine

A function pointer is `none` when it is `nullptr` and otherwise the behaviour of the
function it points to. The engine's own timer readings come from a `Platform`. What the
engine does to the outside (calls of generators, printers and test functions, and what it
prints) is recorded in order in `trace`. -/

/-- An opaque parameter handle `void*`; `none` is `nullptr`. -/
abbrev Params : Type := Option Nat

/-- A test function `RepetitionTesterTestFn`: the calls it makes on the tester when it is
invoked in iteration `k` of repetition `r`. -/
abbrev RepetitionTesterTestFn : Type := Nat → Nat → List TestCall

/-- A parameter generator `RepetitionTesterTestGenParamsFn`: what its `n`-th invocation for a
benchmark returns (`argc` and `args` are the same at every invocation). -/
abbrev RepetitionTesterTestGenParamsFn : Type := Nat → Params

/-- A configuration supplier `RepetitionTesterTestConfigFn`. -/
abbrev RepetitionTesterTestConfigFn : Type := Unit → RepetitionTesterTestConfig

/-- A parameter printer `RepetitionTesterTestParamsPrintFn`: the text it prints. -/
abbrev RepetitionTesterTestParamsPrintFn : Type := Params → String

/-- The function `RepetitionTester_gen_empty_params` (lines 18-22). -/
def RepetitionTester_gen_empty_params : RepetitionTesterTestGenParamsFn := fun _ => none

/-- The record `struct RepetitionTesterTest`. -/
structure RepetitionTesterTest where
  name : Option String
  test : Option RepetitionTesterTestFn
  gen_params : Option RepetitionTesterTestGenParamsFn
  get_test_config : Option RepetitionTesterTestConfigFn
  print_params : Option RepetitionTesterTestParamsPrintFn

/-- What the engine does to the outside. -/
inductive EngineEvent where
  /-- The generator of benchmark `test` was invoked and returned `result`. -/
  | gen_params (test : Nat) (result : Params)
  /-- `RepetitionTester_error` printed `message` for benchmark `test` (line 204). -/
  | error (test : Nat) (message : String)
  /-- The header of a repetition was printed (lines 230-235). -/
  | banner (test : Nat) (repetition : Nat)
  /-- The parameter printer of benchmark `test` was invoked (line 238). -/
  | print_params (test : Nat) (params : Params)
  /-- The test function of benchmark `test` was invoked (line 248). -/
  | test (test : Nat) (repetition : Nat) (iteration : Nat)
  /-- The warning of line 258 was printed. -/
  | skipped (test : Nat)
  /-- The summary `print_results` was printed (line 287). -/
  | results (test : Nat) (repetition : Nat)
deriving DecidableEq, Repr

/-- The readings of `read_cpu_timer()` the engine itself takes: on line 242 for repetition
`r` of benchmark `i`, and on line 246 for iteration `k` of that repetition. -/
structure Platform where
  start_reading : Nat → Nat → Nat
  iteration_reading : Nat → Nat → Nat → Nat

/-- The record `struct RepetitionTester` in full: `tester` holds `cpu_frequency`, `context`
and `results`; `tests` is the array `tests[num_tests]`; `test_params_cache` is the array of
cache slots; `trace` records what the engine did to the outside so far. -/
structure Engine where
  tester : RepetitionTester
  tests : List RepetitionTesterTest
  current_test : Nat
  test_params_cache : Nat → Params
  trace : List EngineEvent

/-- The number of invocations of the generator of benchmark `i` in a trace. -/
def genCount (i : Nat) (trace : List EngineEvent) : Nat :=
  trace.countP fun ev =>
    match ev with
    | .gen_params j _ => decide (j = i)
    | _ => false

/-- Lines 101-107: the defaults `RepetitionTester_initialize` fills in for one benchmark. -/
def initializeTest (test : RepetitionTesterTest) : RepetitionTesterTest :=
  let test1 :=
    match test.gen_params with
    | none => { test with gen_params := some RepetitionTester_gen_empty_params }
    | some _ => test
  match test1.get_test_config with
  | none => { test1 with get_test_config := some fun _ => RepetitionTesterTestConfig_default }
  | some _ => test1

/-- The function `RepetitionTester_initialize` (lines 92-118); `cpu_frequency` is what
`get_cpu_frequency()` returns. A failed `assert` gives `none`. -/
def RepetitionTester_initialize (tester : Engine) (cpu_frequency : Nat)
    (tests : List RepetitionTesterTest) : Option Engine :=
  if tests.length = 0 then none
  else if tests.all (fun test => test.name.isSome && test.test.isSome) then
    some { tester with
      tester := { tester.tester with cpu_frequency := cpu_frequency },
      tests := tests.map initializeTest,
      current_test := 0,
      test_params_cache := fun _ => none }
  else none

/-- The function `RepetitionTester_get_current_test` (lines 84-86). -/
def RepetitionTester_get_current_test (tester : Engine) : Option RepetitionTesterTest :=
  tester.tests[tester.current_test]?

/-- The function `RepetitionTester_get_current_config` (lines 88-90); a call through a null
pointer gives `none`. -/
def RepetitionTester_get_current_config (tester : Engine) : Option RepetitionTesterTestConfig :=
  match RepetitionTester_get_current_test tester with
  | none => none
  | some test =>
    match test.get_test_config with
    | none => none
    | some get_test_config => some (get_test_config ())

/-- One invocation of the generator `gen_params` of the current benchmark: the result, and
the engine with the invocation recorded. -/
def invokeGenerator (gen_params : RepetitionTesterTestGenParamsFn) (tester : Engine) :
    Params × Engine :=
  let result := gen_params (genCount tester.current_test tester.trace)
  (result, { tester with
    trace := tester.trace ++ [EngineEvent.gen_params tester.current_test result] })

/-- The function `RepetitionTester_get_params_for_test_internal` (lines 120-135). -/
def RepetitionTester_get_params_for_test_internal (tester : Engine) (use_cached : Bool) :
    Option (Params × Engine) :=
  match RepetitionTester_get_current_test tester with
  | none => none
  | some current_test =>
    match current_test.gen_params with
    | none => none
    | some gen_params =>
      if use_cached then
        let params := tester.test_params_cache tester.current_test
        let tester1 :=
          if params = none then
            let r := invokeGenerator gen_params tester
            { r.2 with test_params_cache :=
                Function.update r.2.test_params_cache tester.current_test r.1 }
          else tester
        some (tester1.test_params_cache tester1.current_test, tester1)
      else
        some (invokeGenerator gen_params tester)

/-- The function `RepetitionTester_get_params_for_test` (lines 137-140). -/
def RepetitionTester_get_params_for_test (tester : Engine) : Option (Params × Engine) :=
  match RepetitionTester_get_current_config tester with
  | none => none
  | some config => RepetitionTester_get_params_for_test_internal tester config.cache_params

/-- The function `RepetitionTester_error` (lines 199-205) with the line it prints. -/
def Engine.error (tester : Engine) (message : String) : Engine :=
  { tester with
    tester := RepetitionTester_error tester.tester message,
    trace := tester.trace ++ [EngineEvent.error tester.current_test message] }

/-- Perform one call of a test function on the engine. -/
def TestCall.perform (tester : Engine) : TestCall → Option Engine
  | .get_params =>
    match RepetitionTester_get_params_for_test tester with
    | none => none
    | some r => some r.2
  | .error message => some (tester.error message)
  | call => some { tester with tester := call.apply tester.tester }

/-- One invocation `test->test(tester)` (line 248) on the engine. -/
def performCalls : List TestCall → Engine → Option Engine
  | [], tester => some tester
  | call :: calls, tester =>
    match call.perform tester with
    | none => none
    | some tester1 => performCalls calls tester1

/-- The body of the convergence loop (lines 245-284) on the engine, in iteration `k` of
repetition `r`, for the test function `test`. -/
def Engine.iteration (platform : Platform) (config : RepetitionTesterTestConfig)
    (test : RepetitionTesterTestFn) (r k : Nat) (tester : Engine) :
    Option (LoopControl × Engine) :=
  -- context->iteration_value = {};
  let e1 : Engine :=
    { tester with tester := { tester.tester with context :=
        { tester.tester.context with iteration_value := RepetitionTesterTestValue.fill 0 } } }
  let current_time := platform.iteration_reading tester.current_test r k
  -- test->test(tester);
  let e2 : Engine :=
    { e1 with trace := e1.trace ++ [EngineEvent.test tester.current_test r k] }
  match performCalls (test r k) e2 with
  | none => none
  | some e3 =>
    let out := afterTest config current_time e3.tester
    let e4 : Engine := { e3 with tester := out.2 }
    match out.1 with
    | LoopControl.goto_next_test_loop =>
      if out.2.context.error_happened then
        some (out.1, { e4 with trace := e4.trace
          ++ [EngineEvent.error e4.current_test "Aborting due to error"] })
      else
        some (out.1, { e4 with trace := e4.trace ++ [EngineEvent.skipped e4.current_test] })
    | _ => some (out.1, e4)

/-- The loop `for (;;)` of lines 244-285 on the engine, from iteration `k`, for at most
`fuel` iterations. -/
def Engine.convergenceLoop (platform : Platform) (config : RepetitionTesterTestConfig)
    (test : RepetitionTesterTestFn) (r : Nat) : Nat → Nat → Engine → Option (LoopControl × Engine)
  | 0, _, _ => none
  | fuel + 1, k, tester =>
    match Engine.iteration platform config test r k tester with
    | none => none
    | some (LoopControl.next_iteration, e1) =>
      Engine.convergenceLoop platform config test r fuel (k + 1) e1
    | some (c, e1) => some (c, e1)

/-- The message of line 220. -/
def printerWithoutParams : String :=
  "A printing method for parameters was provided but parameters cannot be generated"

/-- How the body of the repetition loop is left: at its end or by the `continue` of line
221, or by a `goto next_test_loop`. -/
inductive RepetitionControl where
  | next_repetition
  | next_test_loop
deriving DecidableEq, Repr

/-- Lines 224-242 on the engine: context and results are reset, the header is printed, the
printer, if there is one, is invoked on `params`, and `start_time` is read. -/
def Engine.beginRepetition (platform : Platform) (test : RepetitionTesterTest) (params : Params)
    (r : Nat) (e1 : Engine) : Engine :=
  { e1 with
    tester := BenchUtils.beginRepetition (platform.start_reading e1.current_test r) e1.tester,
    trace := e1.trace ++ [EngineEvent.banner e1.current_test r]
      ++ (match test.print_params with
          | none => []
          | some _ => [EngineEvent.print_params e1.current_test params]) }

/-- The body of the repetition loop (lines 216-288) for repetition `r` of the current
benchmark; every convergence loop gets at most `fuel` iterations. -/
def Engine.repetition (platform : Platform) (fuel : Nat) (config : RepetitionTesterTestConfig)
    (r : Nat) (tester : Engine) : Option (RepetitionControl × Engine) :=
  match RepetitionTester_get_current_test tester with
  | none => none
  | some test =>
    match RepetitionTester_get_params_for_test_internal tester config.cache_params with
    | none => none
    | some (params, e1) =>
      if test.print_params.isSome && params.isNone then
        some (RepetitionControl.next_repetition, e1.error printerWithoutParams)
      else
        let e2 := Engine.beginRepetition platform test params r e1
        match test.test with
        | none => none
        | some test_fn =>
          match Engine.convergenceLoop platform config test_fn r fuel 0 e2 with
          | none => none
          | some (LoopControl.break_loop, e3) =>
            some (RepetitionControl.next_repetition,
              { e3 with trace := e3.trace ++ [EngineEvent.results e3.current_test r] })
          | some (_, e3) => some (RepetitionControl.next_test_loop, e3)

/-- The repetition loop of lines 215-289 with `remaining` repetitions to go from
repetition `r`; the label `next_test_loop` stands behind this loop. -/
def Engine.repetitions (platform : Platform) (fuel : Nat) (config : RepetitionTesterTestConfig) :
    Nat → Nat → Engine → Option Engine
  | 0, _, tester => some tester
  | remaining + 1, r, tester =>
    match Engine.repetition platform fuel config r tester with
    | none => none
    | some (RepetitionControl.next_repetition, e1) =>
      Engine.repetitions platform fuel config remaining (r + 1) e1
    | some (RepetitionControl.next_test_loop, e1) => some e1

/-- The body of the loop over the benchmarks (lines 212-290) for benchmark `i`. -/
def Engine.benchmark (platform : Platform) (fuel : Nat) (i : Nat) (tester : Engine) :
    Option Engine :=
  let e1 : Engine := { tester with current_test := i }
  match RepetitionTester_get_current_config e1 with
  | none => none
  | some config => Engine.repetitions platform fuel config config.repetition_count 0 e1

/-- The loop over the benchmarks of lines 211-291 with `remaining` benchmarks to go from
benchmark `i`. -/
def Engine.benchmarks (platform : Platform) (fuel : Nat) : Nat → Nat → Engine → Option Engine
  | 0, _, tester => some tester
  | remaining + 1, i, tester =>
    match Engine.benchmark platform fuel i tester with
    | none => none
    | some e1 => Engine.benchmarks platform fuel remaining (i + 1) e1

/-- The function `RepetitionTester_run` (lines 207-292); `none` when a convergence loop
needs more than `fuel` iterations or a null function pointer is called. -/
def RepetitionTester_run (platform : Platform) (fuel : Nat) (tester : Engine) : Option Engine :=
  Engine.benchmarks platform fuel tester.tests.length 0 tester

/-- The zero-initialised `RepetitionTester tester = {}` of `REPETITION_TESTER_RUN_TESTS`. -/
def Engine.zero : Engine :=
  { tester := RepetitionTester.blank, tests := [], current_test := 0,
    test_params_cache := fun _ => none, trace := [] }

/-- Between two states of the engine nothing changed for benchmark `i`: its cache slot, the
number of invocations of its generator, and the registered benchmarks are the same. -/
def Keep (i : Nat) (e e1 : Engine) : Prop :=
  e1.test_params_cache i = e.test_params_cache i
    ∧ genCount i e1.trace = genCount i e.trace
    ∧ e1.tests = e.tests

/-- Benchmark `i` needs its generator no more: whenever it is the current benchmark its
slot holds a handle and its configuration has caching enabled. -/
def Settled (i : Nat) (e : Engine) : Prop :=
  e.current_test = i →
    (∃ h : Nat, e.test_params_cache i = some h)
      ∧ ∀ config, RepetitionTester_get_current_config e = some config →
          config.cache_params = true

/-- The number of times a test function looks its parameters up in one invocation. -/
def lookupCount (calls : List TestCall) : Nat :=
  calls.count TestCall.get_params

/-! ## Examples -/

/-- Anchor 1 from 0 to 10, inside it anchor 2 from 2 to 8, inside that anchor 3 from 3 to 5;
then anchor 2 again, at top level, from 12 to 15. -/
def exampleNested : Regions :=
  .node (some "outer") 1 0 0 10
    (.node (some "middle") 2 64 2 8 (.node (some "leaf") 3 0 3 5 .nil .nil) .nil)
    (.node (some "middle") 2 64 12 15 .nil .nil)

/-- Anchor 1 from 0 to 10 that opens itself again from 1 to 3. -/
def exampleRecursion : Regions :=
  .node (some "f") 1 0 0 10 (.node (some "f") 1 0 1 3 .nil .nil) .nil

/-- Anchor 1 from 0 to 10, inside it anchor 2 from 2 to 8, inside that anchor 3 from 3 to
5. -/
def exampleThreeLevels : Regions :=
  .node (some "outer") 1 0 0 10
    (.node (some "middle") 2 0 2 8 (.node (some "leaf") 3 0 3 5 .nil .nil) .nil) .nil

/-- An example tester at the start of a repetition: frequency 1000, `start_time` 80. -/
def exampleTester : RepetitionTester :=
  beginRepetition 80 { RepetitionTester.blank with cpu_frequency := 1000 }

/-- An example iteration: started at reading 90, it times the cycles from 100 to 150 with
two page faults and reports 1024 bytes. -/
def exampleIteration : IterationInput :=
  { current_time := 90,
    calls := [TestCall.begin_time 100 7, TestCall.end_time 150 9,
      TestCall.bytes_processed 1024] }

/-- Example inputs: iteration `k` starts at reading `100 + 7 * k` and measures 50 cycles
when `k` is even, 51 when it is odd. -/
def exampleInputs (k : Nat) : IterationInput :=
  { current_time := 100 + 7 * k,
    calls := [TestCall.begin_time 1000 0, TestCall.end_time (1050 + k % 2) 0] }

/-- An example configuration: one second, one repetition. -/
def exampleConfig : RepetitionTesterTestConfig :=
  { max_seconds_to_run := 1, repetition_count := 1, print_new_minimums := false,
    cache_params := true }

/-- An example tester before a repetition: frequency 10, everything else zero. -/
def exampleBlank : RepetitionTester :=
  { RepetitionTester.blank with cpu_frequency := 10 }

/-- The tester `exampleBlank` after the repetition over `exampleInputs`. -/
def exampleFinal : RepetitionTester :=
  { cpu_frequency := 10,
    context := { iteration_value := { TestCount := 0, MemPageFaults := 0, CpuElapsed := 50,
                                      BytesProcessed := 0 },
                 start_time := 100, error_happened := false },
    results := { total := { TestCount := 3, MemPageFaults := 0, CpuElapsed := 151,
                            BytesProcessed := 0 },
                 min := { TestCount := 1, MemPageFaults := 0, CpuElapsed := 50,
                          BytesProcessed := 0 },
                 max := { TestCount := 1, MemPageFaults := 0, CpuElapsed := 51,
                          BytesProcessed := 0 } } }

/-- A configuration whose search time is the largest `u64`. -/
def longestConfig : RepetitionTesterTestConfig :=
  { max_seconds_to_run := UINT64_MAX, repetition_count := 1, print_new_minimums := false,
    cache_params := true }

/-- A tester whose counter frequency is one tick per second. -/
def oneHertz : RepetitionTester :=
  { RepetitionTester.blank with cpu_frequency := 1 }

/-- Inputs of a steady benchmark: iteration `k` starts when the counter, which wraps at
`2^64`, has made `k` ticks, and measures 5 cycles without reporting an error. -/
def steadyInputs (k : Nat) : IterationInput :=
  { current_time := k % 2 ^ 64,
    calls := [TestCall.begin_time 0 0, TestCall.end_time 5 0] }

/-- An iteration whose test function only reports 4096 processed bytes and looks its
parameters up. -/
def quietIteration : IterationInput :=
  { current_time := 90, calls := [TestCall.get_params, TestCall.bytes_processed 4096] }

/-- The timer readings of the example runs: repetition `r` starts at `1000 * r`, its
iteration `k` at `1000 * r + 100 + k`. -/
def examplePlatform : Platform :=
  { start_reading := fun _ r => 1000 * r,
    iteration_reading := fun _ r k => 1000 * r + 100 + k }

/-- A configuration with two repetitions that gives up at once; caching is enabled. -/
def twiceConfig : RepetitionTesterTestConfig :=
  { max_seconds_to_run := 0, repetition_count := 2, print_new_minimums := false,
    cache_params := true }

/-- One repetition that gives up at once; caching is disabled. -/
def uncachedConfig : RepetitionTesterTestConfig :=
  { max_seconds_to_run := 0, repetition_count := 1, print_new_minimums := false,
    cache_params := false }

/-- A benchmark registered with a name and a test function only; the test function times 5
cycles in every iteration. -/
def plainTest : RepetitionTesterTest :=
  { name := some "plain",
    test := some fun _ _ => [TestCall.begin_time 0 0, TestCall.end_time 5 0],
    gen_params := none, get_test_config := none, print_params := none }

/-- The benchmark `plainTest` with two repetitions. -/
def steadyTest : RepetitionTesterTest :=
  { plainTest with name := some "steady", get_test_config := some fun _ => twiceConfig }

/-- The benchmark `plainTest` with caching disabled. -/
def uncachedTest : RepetitionTesterTest :=
  { plainTest with name := some "uncached", get_test_config := some fun _ => uncachedConfig }

/-- A benchmark with two repetitions whose test function reports an error. -/
def failingTest : RepetitionTesterTest :=
  { name := some "failing", test := some fun _ _ => [TestCall.error "boom"],
    gen_params := none, get_test_config := some fun _ => twiceConfig, print_params := none }

/-- The benchmark `steadyTest` with a parameter printer and no generator. -/
def printingTest : RepetitionTesterTest :=
  { steadyTest with name := some "printing", print_params := some fun _ => "params" }

/-- The benchmark `steadyTest` with a generator that returns handle 7, whose test function
also looks the parameters up in every iteration. -/
def cachedTest : RepetitionTesterTest :=
  { name := some "cached",
    test := some fun _ _ =>
      [TestCall.get_params, TestCall.begin_time 0 0, TestCall.end_time 5 0],
    gen_params := some fun _ => some 7,
    get_test_config := some fun _ => twiceConfig, print_params := none }

/-- The engine after `REPETITION_TESTER_RUN_TESTS` has initialised it with `tests` at a
counter frequency of 10. -/
def exampleEngine (tests : List RepetitionTesterTest) : Engine :=
  { tester := exampleBlank, tests := tests.map initializeTest, current_test := 0,
    test_params_cache := fun _ => none, trace := [] }

/-- The engine with `failingTest` and `steadyTest` after the parameter lookup of
repetition 0 of benchmark 0. -/
def failingLookup : Engine :=
  { exampleEngine [failingTest, steadyTest] with
    test_params_cache := Function.update (fun _ => none) 0 none,
    trace := [EngineEvent.gen_params 0 none] }

/-- The engine with `failingTest` and `steadyTest` after the first iteration of repetition
0 of benchmark 0 reported its error. -/
def failingEnd : Engine :=
  { failingLookup with
    tester := { beginRepetition 0 exampleBlank with
      context := { (beginRepetition 0 exampleBlank).context with error_happened := true } },
    trace := [EngineEvent.gen_params 0 none, EngineEvent.banner 0 0, EngineEvent.test 0 0 0,
      EngineEvent.error 0 "boom", EngineEvent.error 0 "Aborting due to error"] }

/-! # Theorems -/

/-! ## `u64` arithmetic -/

theorem wadd_lt (a b : Nat) : wadd a b < 2 ^ 64 :=
  Nat.mod_lt _ (by norm_num)

theorem wsub_lt (a b : Nat) : wsub a b < 2 ^ 64 :=
  Nat.mod_lt _ (by norm_num)

theorem cast_wadd (a b : Nat) : ((wadd a b : Nat) : ZMod (2 ^ 64)) = (a : ZMod (2 ^ 64)) + b := by
  unfold wadd
  rw [ZMod.natCast_mod]
  push_cast
  rfl

theorem cast_wsub (a b : Nat) : ((wsub a b : Nat) : ZMod (2 ^ 64)) = (a : ZMod (2 ^ 64)) - b := by
  unfold wsub
  rw [ZMod.natCast_mod]
  have h : b % 2 ^ 64 ≤ 2 ^ 64 := (Nat.mod_lt _ (by norm_num)).le
  rw [Nat.cast_add, Nat.cast_sub h, ZMod.natCast_mod, ZMod.natCast_self]
  ring

theorem eq_of_cast_eq (a b : Nat) (ha : a < 2 ^ 64) (hb : b < 2 ^ 64)
    (h : (a : ZMod (2 ^ 64)) = b) : a = b := by
  have h1 := (ZMod.natCast_eq_natCast_iff' a b (2 ^ 64)).1 h
  rwa [Nat.mod_eq_of_lt ha, Nat.mod_eq_of_lt hb] at h1

theorem eq_mod_of_cast_eq (a b : Nat) (ha : a < 2 ^ 64)
    (h : (a : ZMod (2 ^ 64)) = b) : a = b % 2 ^ 64 := by
  have h1 := (ZMod.natCast_eq_natCast_iff' a b (2 ^ 64)).1 h
  rwa [Nat.mod_eq_of_lt ha] at h1

theorem wsub_eq_sub (a b : Nat) (h : b ≤ a) (ha : a < 2 ^ 64) : wsub a b = a - b := by
  unfold wsub
  omega

theorem wadd_wsub_cancel (x e : Nat) : wadd (wsub x e) e = x % 2 ^ 64 := by
  unfold wadd wsub
  omega

/-! ## The anchor table -/

@[simp]
theorem anchor_setAnchor_same (s : ProfilerState) (i : AnchorIndex) (a : ProfileAnchor) :
    (s.setAnchor i a).anchor i = a := by
  simp [ProfilerState.setAnchor, ProfilerState.anchor]

@[simp]
theorem anchor_setAnchor_ne (s : ProfilerState) (i j : AnchorIndex) (a : ProfileAnchor)
    (h : j ≠ i) : (s.setAnchor i a).anchor j = s.anchor j := by
  simp [ProfilerState.setAnchor, ProfilerState.anchor, Function.update_noteq h]

@[simp]
theorem register_setAnchor (s : ProfilerState) (i : AnchorIndex) (a : ProfileAnchor) :
    (s.setAnchor i a).global_parent_profiler = s.global_parent_profiler := rfl

@[simp]
theorem anchor_with_register (s : ProfilerState) (p i : AnchorIndex) :
    ({ s with global_parent_profiler := p } : ProfilerState).anchor i = s.anchor i := rfl

/-! ## The destructor, anchor by anchor -/

theorem dtor_register (b : ProfileBlock) (now : Nat) (s : ProfilerState) :
    (ProfileBlock_dtor b now s).global_parent_profiler = b.parent_index := rfl

theorem dtor_anchor_self (b : ProfileBlock) (now : Nat) (s : ProfilerState) :
    (ProfileBlock_dtor b now s).anchor b.anchor_index =
      { tsc_elapsed_exclusive :=
          wadd (if b.parent_index = b.anchor_index
            then wsub (s.anchor b.anchor_index).tsc_elapsed_exclusive (wsub now b.start_tsc)
            else (s.anchor b.anchor_index).tsc_elapsed_exclusive) (wsub now b.start_tsc),
        tsc_elapsed_inclusive := wadd b.old_tsc_inclusive (wsub now b.start_tsc),
        num_hits := wadd (s.anchor b.anchor_index).num_hits 1,
        bytes_processed := wadd (s.anchor b.anchor_index).bytes_processed b.bytes_processed,
        label := b.label } := by
  by_cases h : b.parent_index = b.anchor_index
  · simp [ProfileBlock_dtor, h]
  · have h1 : b.anchor_index ≠ b.parent_index := fun e => h e.symm
    simp [ProfileBlock_dtor, h, h1]

theorem dtor_anchor_parent (b : ProfileBlock) (now : Nat) (s : ProfilerState)
    (h : b.parent_index ≠ b.anchor_index) :
    (ProfileBlock_dtor b now s).anchor b.parent_index =
      { s.anchor b.parent_index with
        tsc_elapsed_exclusive :=
          wsub (s.anchor b.parent_index).tsc_elapsed_exclusive (wsub now b.start_tsc) } := by
  simp [ProfileBlock_dtor, h]

theorem dtor_anchor_other (b : ProfileBlock) (now : Nat) (s : ProfilerState) (i : AnchorIndex)
    (h1 : i ≠ b.anchor_index) (h2 : i ≠ b.parent_index) :
    (ProfileBlock_dtor b now s).anchor i = s.anchor i := by
  simp [ProfileBlock_dtor, h1, h2]

/-- C5: `end_region`, the destructor of `ProfileBlock`. For every state, every marker `m` and
every timer reading `t1`, with `elapsed = (t1 - m.start_tsc) mod 2^64`: the current-parent
register becomes `m.parent_index`; the anchor of `m` gets inclusive total
`m.old_tsc_inclusive + elapsed`, its bytes grow by `m.bytes_processed`, its hits by one, its
label becomes `m.label` and its exclusive total grows by `elapsed`; the exclusive total of
the parent anchor shrinks by `elapsed` (so when parent and anchor coincide the exclusive
total keeps its value, reduced modulo `2^64`); every other anchor, every other field and the
two time stamps of the profiler are unchanged. All sums and differences are modulo `2^64`. -/
theorem end_region_effect (s : ProfilerState) (m : ProfileBlock) (t1 : Nat) :
    (ProfileBlock_dtor m t1 s).global_parent_profiler = m.parent_index
    ∧ (ProfileBlock_dtor m t1 s).global_profiler.start_tsc = s.global_profiler.start_tsc
    ∧ (ProfileBlock_dtor m t1 s).global_profiler.end_tsc = s.global_profiler.end_tsc
    ∧ ∀ i : AnchorIndex, (ProfileBlock_dtor m t1 s).anchor i =
        if i = m.anchor_index then
          { tsc_elapsed_exclusive :=
              if m.parent_index = m.anchor_index
              then (s.anchor i).tsc_elapsed_exclusive % 2 ^ 64
              else wadd (s.anchor i).tsc_elapsed_exclusive (wsub t1 m.start_tsc),
            tsc_elapsed_inclusive := wadd m.old_tsc_inclusive (wsub t1 m.start_tsc),
            num_hits := wadd (s.anchor i).num_hits 1,
            bytes_processed := wadd (s.anchor i).bytes_processed m.bytes_processed,
            label := m.label }
        else if i = m.parent_index then
          { s.anchor i with
            tsc_elapsed_exclusive :=
              wsub (s.anchor i).tsc_elapsed_exclusive (wsub t1 m.start_tsc) }
        else s.anchor i := by
  refine ⟨rfl, rfl, rfl, fun i => ?_⟩
  by_cases hi : i = m.anchor_index
  · subst hi
    rw [if_pos rfl, dtor_anchor_self]
    by_cases hp : m.parent_index = m.anchor_index
    · simp only [if_pos hp, wadd_wsub_cancel]
    · simp only [if_neg hp]
  · rw [if_neg hi]
    by_cases hp : i = m.parent_index
    · subst hp
      rw [if_pos rfl, dtor_anchor_parent m t1 s hi]
    · rw [if_neg hp, dtor_anchor_other m t1 s i hi hp]

/-- C6: `begin_region`, the constructor of `ProfileBlock`, with anchor index `index`, label
`name` and byte count `bytes`: the marker it builds has the register value before the call
as its parent, the current inclusive total of the anchor as its snapshot, `index`, `name`
and `bytes` as given and the timer reading as its start; the register becomes `index`, and
the whole profiler record (the anchor table with all totals, hits, bytes and labels, and the
two time stamps) is unchanged. -/
theorem begin_region_effect (s : ProfilerState) (name : Option String) (index : AnchorIndex)
    (bytes now : Nat) :
    (ProfileBlock_ctor name index bytes now s).1 =
        { label := name, start_tsc := now,
          old_tsc_inclusive := (s.anchor index).tsc_elapsed_inclusive,
          anchor_index := index, parent_index := s.global_parent_profiler,
          bytes_processed := bytes }
    ∧ (ProfileBlock_ctor name index bytes now s).2.global_parent_profiler = index
    ∧ (ProfileBlock_ctor name index bytes now s).2.global_profiler = s.global_profiler :=
  ⟨rfl, rfl, rfl⟩

/-! ## Running a trace -/

theorem run_append (xs ys : List ProfileEvent) (m : ProfileRun) :
    ProfileRun.run (xs ++ ys) m =
      match ProfileRun.run xs m with
      | none => none
      | some m1 => ProfileRun.run ys m1 := by
  induction xs generalizing m with
  | nil => rfl
  | cons e es ih =>
    simp only [List.cons_append, ProfileRun.run]
    cases h : m.step e with
    | none => rfl
    | some m1 => exact ih m1

theorem run_events (f : Regions) (es : List ProfileEvent) (m : ProfileRun) :
    ProfileRun.run (f.events ++ es) m =
      ProfileRun.run es { state := f.exec m.state, open_blocks := m.open_blocks } := by
  induction f generalizing es m with
  | nil => rfl
  | node name index bytes t0 t1 inner next ih_inner ih_next =>
    have hev : (Regions.node name index bytes t0 t1 inner next).events ++ es =
        ProfileEvent.enter name index bytes t0 ::
          (inner.events ++ ProfileEvent.leave t1 :: (next.events ++ es)) := by
      simp [Regions.events]
    rw [hev]
    show ProfileRun.run (inner.events ++ ProfileEvent.leave t1 :: (next.events ++ es)) _ = _
    rw [ih_inner]
    show ProfileRun.run (next.events ++ es) _ = _
    rw [ih_next]
    rfl

theorem run_events_nil (f : Regions) (m : ProfileRun) :
    ProfileRun.run f.events m =
      some { state := f.exec m.state, open_blocks := m.open_blocks } := by
  have h := run_events f [] m
  rwa [List.append_nil] at h

/-- Every trace that runs without leaving an unopened region and ends with all regions
closed consists of a region forest followed, for each block that was open at the start, by
its closing event and a further forest. -/
theorem run_decompose (tr : List ProfileEvent) :
    ∀ m m1 : ProfileRun, ProfileRun.run tr m = some m1 → m1.open_blocks = [] →
      ∃ (g : Regions) (rest : List (Nat × Regions)),
        rest.length = m.open_blocks.length ∧ tr = g.events ++ closingEvents rest := by
  induction tr with
  | nil =>
    intro m m1 h hm
    simp only [ProfileRun.run, Option.some.injEq] at h
    subst h
    exact ⟨.nil, [], by simp [hm], rfl⟩
  | cons e es ih =>
    intro m m1 h hm
    cases e with
    | enter name index bytes now =>
      obtain ⟨g, rest, hlen, hes⟩ := ih _ m1 h hm
      cases rest with
      | nil => simp at hlen
      | cons p rest1 =>
        obtain ⟨t, g1⟩ := p
        refine ⟨.node name index bytes now t g g1, rest1, ?_, ?_⟩
        · simpa using hlen
        · simp [Regions.events, closingEvents, hes]
    | leave now =>
      cases hb : m.open_blocks with
      | nil => simp [ProfileRun.run, ProfileRun.step, hb] at h
      | cons b bs =>
        have h1 : ProfileRun.run es
            { state := ProfileBlock_dtor b now m.state, open_blocks := bs } = some m1 := by
          simpa [ProfileRun.run, ProfileRun.step, hb] using h
        obtain ⟨g, rest, hlen, hes⟩ := ih _ m1 h1 hm
        refine ⟨.nil, (now, g) :: rest, ?_, ?_⟩
        · simpa using hlen
        · simp [Regions.events, closingEvents, hes]

/-- A properly nested trace that starts and ends with no open region is the trace of a
region forest, and its final state is the effect of that forest. -/
theorem nested_trace_regions (tr : List ProfileEvent) (m : ProfileRun)
    (h : ProfileRun.run tr ProfileRun.init = some m) (hm : m.open_blocks = []) :
    ∃ f : Regions, tr = f.events ∧ m.state = f.exec ProfilerState.zero := by
  obtain ⟨g, rest, hlen, htr⟩ := run_decompose tr _ m h hm
  have hrest : rest = [] := by
    cases rest with
    | nil => rfl
    | cons p q => simp [ProfileRun.init] at hlen
  subst hrest
  simp only [closingEvents, List.append_nil] at htr
  refine ⟨g, htr, ?_⟩
  rw [htr, run_events_nil] at h
  simp only [Option.some.injEq] at h
  rw [← h]
  rfl

/-- The trace of a region forest, followed by events that do not begin with an entry,
determines the forest. -/
theorem events_append_inj (f : Regions) :
    ∀ (g : Regions) (xs ys : List ProfileEvent),
      (∀ name index bytes now rest, xs ≠ ProfileEvent.enter name index bytes now :: rest) →
      (∀ name index bytes now rest, ys ≠ ProfileEvent.enter name index bytes now :: rest) →
      f.events ++ xs = g.events ++ ys → f = g ∧ xs = ys := by
  induction f with
  | nil =>
    intro g xs ys hx hy h
    cases g with
    | nil => exact ⟨rfl, h⟩
    | node name index bytes t0 t1 inner next =>
      exact absurd h (hx name index bytes t0 _)
  | node name index bytes t0 t1 inner next ih_inner ih_next =>
    intro g xs ys hx hy h
    cases g with
    | nil => exact absurd h.symm (hy name index bytes t0 _)
    | node name1 index1 bytes1 t2 t3 inner1 next1 =>
      simp only [Regions.events, List.cons_append, List.append_assoc, List.cons.injEq,
        ProfileEvent.enter.injEq] at h
      obtain ⟨⟨rfl, rfl, rfl, rfl⟩, h2⟩ := h
      obtain ⟨rfl, h3⟩ := ih_inner inner1 _ _ (by simp) (by simp) h2
      simp only [List.cons.injEq, ProfileEvent.leave.injEq] at h3
      obtain ⟨rfl, h4⟩ := h3
      obtain ⟨rfl, h5⟩ := ih_next next1 xs ys hx hy h4
      exact ⟨rfl, h5⟩

/-- A trace is the trace of at most one region forest. -/
theorem events_injective (f g : Regions) (h : f.events = g.events) : f = g := by
  have h1 : f.events ++ [] = g.events ++ [] := by rw [h]
  exact (events_append_inj f g [] [] (by simp) (by simp) h1).1

/-! ## The effect of a region forest -/

theorem exec_register (f : Regions) (s : ProfilerState) :
    (f.exec s).global_parent_profiler = s.global_parent_profiler := by
  induction f generalizing s with
  | nil => rfl
  | node name index bytes t0 t1 inner next _ ih_next =>
    simp only [Regions.exec]
    rw [ih_next, dtor_register]
    rfl

theorem dtor_exclusive_cast (b : ProfileBlock) (now : Nat) (s : ProfilerState)
    (a : AnchorIndex) :
    (((ProfileBlock_dtor b now s).anchor a).tsc_elapsed_exclusive : ZMod (2 ^ 64)) =
      (s.anchor a).tsc_elapsed_exclusive
        + ((if b.anchor_index = a then wsub now b.start_tsc else 0 : Nat) : ZMod (2 ^ 64))
        - ((if b.parent_index = a then wsub now b.start_tsc else 0 : Nat) : ZMod (2 ^ 64)) := by
  by_cases ha : a = b.anchor_index
  · subst ha
    rw [dtor_anchor_self]
    by_cases hp : b.parent_index = b.anchor_index
    · simp only [hp, if_true, cast_wadd, cast_wsub]
      ring
    · simp only [if_neg hp, if_true, cast_wadd, Nat.cast_zero]
      ring
  · have ha1 : ¬ b.anchor_index = a := fun e => ha e.symm
    by_cases hp : a = b.parent_index
    · subst hp
      rw [dtor_anchor_parent b now s ha]
      simp only [if_neg ha1, if_true, cast_wsub, Nat.cast_zero]
      ring
    · have hp1 : ¬ b.parent_index = a := fun e => hp e.symm
      rw [dtor_anchor_other b now s a ha hp]
      simp only [if_neg ha1, if_neg hp1, Nat.cast_zero]
      ring

theorem exec_exclusive_cast (f : Regions) (s : ProfilerState) (a : AnchorIndex) :
    (((f.exec s).anchor a).tsc_elapsed_exclusive : ZMod (2 ^ 64)) =
      (s.anchor a).tsc_elapsed_exclusive + (f.elapsedOf a : ZMod (2 ^ 64))
        - (f.childElapsedOf a s.global_parent_profiler : ZMod (2 ^ 64)) := by
  induction f generalizing s with
  | nil => simp [Regions.exec, Regions.elapsedOf, Regions.childElapsedOf]
  | node name index bytes t0 t1 inner next ih_inner ih_next =>
    simp only [Regions.exec, Regions.elapsedOf, Regions.childElapsedOf]
    rw [ih_next, dtor_exclusive_cast, ih_inner, dtor_register]
    simp only [ProfileBlock_ctor, anchor_with_register, elapsedCycles]
    push_cast
    ring

theorem dtor_inclusive (b : ProfileBlock) (now : Nat) (s : ProfilerState) (a : AnchorIndex) :
    ((ProfileBlock_dtor b now s).anchor a).tsc_elapsed_inclusive =
      if a = b.anchor_index then wadd b.old_tsc_inclusive (wsub now b.start_tsc)
      else (s.anchor a).tsc_elapsed_inclusive := by
  by_cases ha : a = b.anchor_index
  · subst ha
    rw [dtor_anchor_self, if_pos rfl]
  · rw [if_neg ha]
    by_cases hp : a = b.parent_index
    · subst hp
      rw [dtor_anchor_parent b now s ha]
    · rw [dtor_anchor_other b now s a ha hp]

theorem exec_inclusive_cast (f : Regions) (s : ProfilerState) (a : AnchorIndex) :
    (((f.exec s).anchor a).tsc_elapsed_inclusive : ZMod (2 ^ 64)) =
      (s.anchor a).tsc_elapsed_inclusive + (f.outerElapsedOf a : ZMod (2 ^ 64)) := by
  induction f generalizing s with
  | nil => simp [Regions.exec, Regions.outerElapsedOf]
  | node name index bytes t0 t1 inner next ih_inner ih_next =>
    simp only [Regions.exec, Regions.outerElapsedOf]
    rw [ih_next, dtor_inclusive]
    by_cases ha : index = a
    · subst ha
      simp only [ProfileBlock_ctor, if_true, cast_wadd, elapsedCycles]
      push_cast
      ring
    · have ha1 : ¬ a = index := fun e => ha e.symm
      simp only [ProfileBlock_ctor, if_neg ha, if_neg ha1]
      rw [ih_inner]
      simp only [anchor_with_register]
      push_cast
      ring

theorem dtor_exclusive_lt (b : ProfileBlock) (now : Nat) (s : ProfilerState) (a : AnchorIndex)
    (h : (s.anchor a).tsc_elapsed_exclusive < 2 ^ 64) :
    ((ProfileBlock_dtor b now s).anchor a).tsc_elapsed_exclusive < 2 ^ 64 := by
  by_cases ha : a = b.anchor_index
  · subst ha
    rw [dtor_anchor_self]
    exact wadd_lt _ _
  · by_cases hp : a = b.parent_index
    · subst hp
      rw [dtor_anchor_parent b now s ha]
      exact wsub_lt _ _
    · rw [dtor_anchor_other b now s a ha hp]
      exact h

theorem exec_exclusive_lt (f : Regions) (s : ProfilerState) (a : AnchorIndex)
    (h : (s.anchor a).tsc_elapsed_exclusive < 2 ^ 64) :
    ((f.exec s).anchor a).tsc_elapsed_exclusive < 2 ^ 64 := by
  induction f generalizing s with
  | nil => exact h
  | node name index bytes t0 t1 inner next ih_inner ih_next =>
    simp only [Regions.exec]
    exact ih_next _ (dtor_exclusive_lt _ _ _ _ (ih_inner _ h))

theorem exec_inclusive_lt (f : Regions) (s : ProfilerState) (a : AnchorIndex)
    (h : (s.anchor a).tsc_elapsed_inclusive < 2 ^ 64) :
    ((f.exec s).anchor a).tsc_elapsed_inclusive < 2 ^ 64 := by
  induction f generalizing s with
  | nil => exact h
  | node name index bytes t0 t1 inner next ih_inner ih_next =>
    simp only [Regions.exec]
    apply ih_next
    rw [dtor_inclusive]
    split
    · exact wadd_lt _ _
    · exact ih_inner _ h

/-! ## Non-decreasing timer readings -/

theorem readings_node (name : Option String) (index : AnchorIndex) (bytes t0 t1 : Nat)
    (inner next : Regions) :
    (Regions.node name index bytes t0 t1 inner next).readings =
      t0 :: (inner.readings ++ t1 :: next.readings) := by
  simp [Regions.readings, Regions.events, ProfileEvent.now]

/-- With non-decreasing `u64` readings between `lo` and `hi`: the top-level regions of a
forest take at most `hi - lo` cycles, the exclusive sum of an anchor is at most that, and
the exclusive sum is the elapsed sum of the anchor minus the elapsed sum of its children. -/
theorem timed_totals (a : AnchorIndex) (f : Regions) :
    ∀ lo hi : Nat, f.readings.Pairwise (· ≤ ·) → (∀ t ∈ f.readings, lo ≤ t ∧ t ≤ hi) →
      hi < 2 ^ 64 →
      f.topElapsed ≤ hi - lo ∧ f.exclusiveOf a ≤ f.topElapsed ∧
        ∀ cur : AnchorIndex, f.exclusiveOf a + f.childElapsedOf a cur =
          f.elapsedOf a + (if cur = a then f.topElapsed else 0) := by
  induction f with
  | nil =>
    intro lo hi _ _ _
    simp [Regions.topElapsed, Regions.exclusiveOf, Regions.childElapsedOf, Regions.elapsedOf]
  | node name index bytes t0 t1 inner next ih_inner ih_next =>
    intro lo hi hpw hb hhi
    rw [readings_node] at hpw hb
    rw [List.pairwise_cons, List.pairwise_append, List.pairwise_cons] at hpw
    obtain ⟨h0, hin, ⟨h1, hnx⟩, hcross⟩ := hpw
    have h01 : t0 ≤ t1 := h0 t1 (by simp)
    have hlo : lo ≤ t0 := (hb t0 (by simp)).1
    have hhi1 : t1 ≤ hi := (hb t1 (by simp)).2
    have ht1 : t1 < 2 ^ 64 := lt_of_le_of_lt hhi1 hhi
    obtain ⟨hi1, hi2, hi3⟩ := ih_inner t0 t1 hin
      (fun t ht => ⟨h0 t (by simp [ht]), hcross t ht t1 (by simp)⟩) ht1
    obtain ⟨hn1, hn2, hn3⟩ := ih_next t1 hi hnx
      (fun t ht => ⟨h1 t ht, (hb t (by simp [ht])).2⟩) hhi
    have he : elapsedCycles t0 t1 = t1 - t0 := wsub_eq_sub t1 t0 h01 ht1
    simp only [Regions.topElapsed, Regions.exclusiveOf, Regions.childElapsedOf,
      Regions.elapsedOf, he]
    refine ⟨by omega, ?_, ?_⟩
    · split <;> omega
    · intro cur
      have e1 := hi3 index
      have e2 := hn3 cur
      by_cases hc : cur = a <;> by_cases hx : index = a <;>
        simp only [hc, hx, if_true, if_false] at e1 e2 ⊢ <;> omega

/-! ## Totals after a properly nested trace -/

theorem zero_anchor (i : AnchorIndex) : ProfilerState.zero.anchor i = ProfileAnchor.zero := rfl

/-- C1: for every properly nested trace of region begin/end calls with non-decreasing `u64`
timer readings, run from the zero-initialised profiler and ending with every region closed,
the trace is the trace of a region forest `f`, and the exclusive total of every non-root
anchor `a` is exactly the sum, over all activations of `a` in `f`, of the elapsed cycles of
the activation minus the elapsed cycles of the regions opened directly inside it. -/
theorem exclusive_total_of_nested_trace (tr : List ProfileEvent) (m : ProfileRun)
    (a : AnchorIndex) (h : ProfileRun.run tr ProfileRun.init = some m)
    (hm : m.open_blocks = []) (hmono : (tr.map ProfileEvent.now).Pairwise (· ≤ ·))
    (hu64 : ∀ e ∈ tr, e.now < 2 ^ 64) (ha : a ≠ rootAnchor) :
    ∃ f : Regions, tr = f.events ∧
      (m.state.anchor a).tsc_elapsed_exclusive = f.exclusiveOf a := by
  obtain ⟨f, htr, hst⟩ := nested_trace_regions tr m h hm
  refine ⟨f, htr, ?_⟩
  have hpw : f.readings.Pairwise (· ≤ ·) := by
    rw [Regions.readings, ← htr]
    exact hmono
  have hb : ∀ t ∈ f.readings, 0 ≤ t ∧ t ≤ 2 ^ 64 - 1 := by
    intro t ht
    rw [Regions.readings, ← htr, List.mem_map] at ht
    obtain ⟨e, he, rfl⟩ := ht
    have := hu64 e he
    omega
  obtain ⟨h1, h2, h3⟩ := timed_totals a f 0 (2 ^ 64 - 1) hpw hb (by norm_num)
  have h4 := h3 rootAnchor
  rw [if_neg (fun e => ha e.symm), Nat.add_zero] at h4
  have hc := exec_exclusive_cast f ProfilerState.zero a
  have hreg : ProfilerState.zero.global_parent_profiler = rootAnchor := rfl
  rw [hreg] at hc
  rw [hst]
  apply eq_of_cast_eq
  · exact exec_exclusive_lt f _ a (by rw [zero_anchor]; simp [ProfileAnchor.zero])
  · omega
  · rw [hc, ← h4, zero_anchor]
    show ((ProfileAnchor.zero.tsc_elapsed_exclusive : Nat) : ZMod (2 ^ 64)) + _ - _ = _
    simp only [ProfileAnchor.zero]
    push_cast
    ring

/-- C1 at the trace of `exampleNested`: anchor 2 ends with exclusive total `(6 - 2) + 3`. -/
theorem exclusive_total_of_nested_trace_witness :
    ∃ f : Regions, exampleNested.events = f.events ∧
      ((exampleNested.exec ProfilerState.zero).anchor 2).tsc_elapsed_exclusive =
        f.exclusiveOf 2 :=
  exclusive_total_of_nested_trace exampleNested.events
    { state := exampleNested.exec ProfilerState.zero, open_blocks := [] } 2
    rfl rfl (by decide) (by decide) (by decide)

theorem exec_zero_inclusive (f : Regions) (a : AnchorIndex) :
    ((f.exec ProfilerState.zero).anchor a).tsc_elapsed_inclusive =
      f.outerElapsedOf a % 2 ^ 64 := by
  apply eq_mod_of_cast_eq
  · exact exec_inclusive_lt f _ a (by rw [zero_anchor]; simp [ProfileAnchor.zero])
  · rw [exec_inclusive_cast, zero_anchor]
    simp [ProfileAnchor.zero]

theorem exec_zero_exclusive_add (f : Regions) (a : AnchorIndex) :
    wadd ((f.exec ProfilerState.zero).anchor a).tsc_elapsed_exclusive
        (f.childElapsedOf a rootAnchor) = f.elapsedOf a % 2 ^ 64 := by
  apply eq_mod_of_cast_eq
  · exact wadd_lt _ _
  · have hc := exec_exclusive_cast f ProfilerState.zero a
    have hreg : ProfilerState.zero.global_parent_profiler = rootAnchor := rfl
    rw [hreg, zero_anchor] at hc
    rw [cast_wadd, hc]
    simp [ProfileAnchor.zero]

theorem elapsedOf_eq_zero (a : AnchorIndex) (f : Regions) :
    ∀ inside : Bool, inside = true → f.reenters a inside = false → f.elapsedOf a = 0 := by
  induction f with
  | nil => intro _ _ _; rfl
  | node name index bytes t0 t1 inner next ih_inner ih_next =>
    intro inside hin h
    subst hin
    simp only [Regions.reenters, Bool.and_true, Bool.true_or, Bool.or_eq_false_iff,
      decide_eq_false_iff_not] at h
    obtain ⟨⟨h1, h2⟩, h3⟩ := h
    simp only [Regions.elapsedOf, if_neg h1, ih_inner true rfl h2, ih_next true rfl h3]

theorem outerElapsedOf_eq_elapsedOf (a : AnchorIndex) (f : Regions) :
    f.reenters a false = false → f.outerElapsedOf a = f.elapsedOf a := by
  induction f with
  | nil => intro _; rfl
  | node name index bytes t0 t1 inner next ih_inner ih_next =>
    intro h
    simp only [Regions.reenters, Bool.and_false, Bool.false_or, Bool.or_eq_false_iff] at h
    obtain ⟨h2, h3⟩ := h
    simp only [Regions.outerElapsedOf, Regions.elapsedOf, ih_next h3]
    by_cases hx : index = a
    · simp only [hx, decide_True] at h2
      simp only [if_pos hx, elapsedOf_eq_zero a inner true rfl h2, Nat.zero_add]
    · simp only [hx, decide_False] at h2
      simp only [if_neg hx, ih_inner h2, Nat.zero_add]

/-- C2, as stated, fails on `exampleRecursion`: anchor 1 runs from 0 to 10 and opens itself
again from 1 to 3; the trace ends with every region closed and inclusive total 10, while the
elapsed cycles of the two activations sum to 12. -/
theorem inclusive_total_counterexample :
    (ProfileRun.run exampleRecursion.events ProfileRun.init).map
        (fun m => (m.open_blocks, (m.state.anchor 1).tsc_elapsed_inclusive)) = some ([], 10)
    ∧ exampleRecursion.elapsedOf 1 % 2 ^ 64 = 12 := by
  decide

/-- C2, amended: for every properly nested trace of region begin/end calls run from the
zero-initialised profiler and ending with every region closed, the trace is the trace of a
region forest `f`, and the inclusive total of every anchor `a` is, modulo `2^64`, the sum of
the elapsed cycles of the outermost activations of `a` (those not opened inside another
activation of `a`); when `a` is never opened inside itself this is the sum of the elapsed
cycles of all of its activations. -/
theorem inclusive_total_of_nested_trace (tr : List ProfileEvent) (m : ProfileRun)
    (a : AnchorIndex) (h : ProfileRun.run tr ProfileRun.init = some m)
    (hm : m.open_blocks = []) :
    ∃ f : Regions, tr = f.events ∧
      (m.state.anchor a).tsc_elapsed_inclusive = f.outerElapsedOf a % 2 ^ 64 ∧
      (f.reenters a false = false →
        (m.state.anchor a).tsc_elapsed_inclusive = f.elapsedOf a % 2 ^ 64) := by
  obtain ⟨f, htr, hst⟩ := nested_trace_regions tr m h hm
  refine ⟨f, htr, ?_, ?_⟩
  · rw [hst]
    exact exec_zero_inclusive f a
  · intro hre
    rw [hst, exec_zero_inclusive, outerElapsedOf_eq_elapsedOf a f hre]

/-- C2, amended, at the trace of `exampleNested` and its anchor 2. -/
theorem inclusive_total_of_nested_trace_witness :
    ∃ f : Regions, exampleNested.events = f.events ∧
      ((exampleNested.exec ProfilerState.zero).anchor 2).tsc_elapsed_inclusive =
        f.outerElapsedOf 2 % 2 ^ 64 ∧
      (f.reenters 2 false = false →
        ((exampleNested.exec ProfilerState.zero).anchor 2).tsc_elapsed_inclusive =
          f.elapsedOf 2 % 2 ^ 64) :=
  inclusive_total_of_nested_trace exampleNested.events
    { state := exampleNested.exec ProfilerState.zero, open_blocks := [] } 2 rfl rfl

/-- C3, as stated, fails on `exampleThreeLevels`: anchor 1 (0 to 10) contains anchor 2
(2 to 8), which contains anchor 3 (3 to 5). The only anchor opened as a child of anchor 1 is
anchor 2; the exclusive totals of anchors 1 and 2 sum to 8, the inclusive total of anchor 1
is 10. -/
theorem parent_children_counterexample :
    exampleThreeLevels.childAnchors 1 rootAnchor = [2]
    ∧ (ProfileRun.run exampleThreeLevels.events ProfileRun.init).map
        (fun m => (m.open_blocks,
          wadd (m.state.anchor 1).tsc_elapsed_exclusive
            ((exampleThreeLevels.childAnchors 1 rootAnchor).map
              (fun c => (m.state.anchor c).tsc_elapsed_exclusive)).sum,
          (m.state.anchor 1).tsc_elapsed_inclusive)) = some ([], 8, 10) := by
  decide

/-- C3, amended: for every properly nested trace of region begin/end calls run from the
zero-initialised profiler and ending with every region closed, the trace is the trace of a
region forest `f`, and for every anchor `p`: the exclusive total of `p` plus the elapsed
cycles of every region that was opened while `p` was the innermost open region equals,
modulo `2^64`, the sum of the elapsed cycles of the activations of `p`; when `p` is never
opened inside itself, that is the inclusive total of `p`. -/
theorem parent_children_balance (tr : List ProfileEvent) (m : ProfileRun)
    (p : AnchorIndex) (h : ProfileRun.run tr ProfileRun.init = some m)
    (hm : m.open_blocks = []) :
    ∃ f : Regions, tr = f.events ∧
      wadd (m.state.anchor p).tsc_elapsed_exclusive (f.childElapsedOf p rootAnchor) =
        f.elapsedOf p % 2 ^ 64 ∧
      (f.reenters p false = false →
        wadd (m.state.anchor p).tsc_elapsed_exclusive (f.childElapsedOf p rootAnchor) =
          (m.state.anchor p).tsc_elapsed_inclusive) := by
  obtain ⟨f, htr, hst⟩ := nested_trace_regions tr m h hm
  refine ⟨f, htr, ?_, ?_⟩
  · rw [hst]
    exact exec_zero_exclusive_add f p
  · intro hre
    rw [hst, exec_zero_exclusive_add, exec_zero_inclusive, outerElapsedOf_eq_elapsedOf p f hre]

/-- C3, amended, at the trace of `exampleThreeLevels`. -/
theorem parent_children_balance_witness :
    ∃ f : Regions, exampleThreeLevels.events = f.events ∧
      wadd ((exampleThreeLevels.exec ProfilerState.zero).anchor 1).tsc_elapsed_exclusive
          (f.childElapsedOf 1 rootAnchor) = f.elapsedOf 1 % 2 ^ 64 ∧
      (f.reenters 1 false = false →
        wadd ((exampleThreeLevels.exec ProfilerState.zero).anchor 1).tsc_elapsed_exclusive
            (f.childElapsedOf 1 rootAnchor) =
          ((exampleThreeLevels.exec ProfilerState.zero).anchor 1).tsc_elapsed_inclusive) :=
  parent_children_balance exampleThreeLevels.events
    { state := exampleThreeLevels.exec ProfilerState.zero, open_blocks := [] } 1 rfl rfl

/-! ## The current-parent register -/

theorem step_consistent (m m1 : ProfileRun) (e : ProfileEvent) (h : m.step e = some m1)
    (hc : m.consistent) :
    m1.consistent ∧ m1.open_blocks.map ProfileBlock.anchor_index =
      openStep (m.open_blocks.map ProfileBlock.anchor_index) e := by
  obtain ⟨hreg, hl⟩ := hc
  cases e with
  | enter name index bytes now =>
    simp only [ProfileRun.step, Option.some.injEq] at h
    subst h
    refine ⟨⟨rfl, ?_, hl⟩, rfl⟩
    exact hreg
  | leave now =>
    cases hb : m.open_blocks with
    | nil => simp [ProfileRun.step, hb] at h
    | cons b bs =>
      simp only [ProfileRun.step, hb, Option.some.injEq] at h
      subst h
      rw [hb] at hl
      refine ⟨⟨?_, hl.2⟩, rfl⟩
      show (ProfileBlock_dtor b now m.state).global_parent_profiler = _
      rw [dtor_register]
      exact hl.1

theorem run_consistent (tr : List ProfileEvent) :
    ∀ m m1 : ProfileRun, ProfileRun.run tr m = some m1 → m.consistent →
      m1.consistent ∧ m1.open_blocks.map ProfileBlock.anchor_index =
        tr.foldl openStep (m.open_blocks.map ProfileBlock.anchor_index) := by
  induction tr with
  | nil =>
    intro m m1 h hc
    simp only [ProfileRun.run, Option.some.injEq] at h
    subst h
    exact ⟨hc, rfl⟩
  | cons e es ih =>
    intro m m1 h hc
    cases hs : m.step e with
    | none => simp [ProfileRun.run, hs] at h
    | some m2 =>
      simp only [ProfileRun.run, hs] at h
      obtain ⟨hc2, hst2⟩ := step_consistent m m2 e hs hc
      obtain ⟨hc1, hst1⟩ := ih m2 m1 h hc2
      refine ⟨hc1, ?_⟩
      rw [hst1, hst2]
      rfl

theorem openRegions_eq_foldl (tr : List ProfileEvent) : openRegions tr = tr.foldl openStep [] :=
  rfl

/-- C7: for every properly nested trace of region begin/end calls run with the register at
0 (the zero-initialised profiler), after every initial segment `pre` of the trace the run is
defined, the anchors of the blocks that are open are the regions `pre` entered and did not
exit, and the register equals the anchor index of the most recently entered, not yet exited
region; it is 0, the root, when no region is open. -/
theorem register_is_innermost_open (pre suf : List ProfileEvent) (mf : ProfileRun)
    (h : ProfileRun.run (pre ++ suf) ProfileRun.init = some mf) :
    ∃ m : ProfileRun, ProfileRun.run pre ProfileRun.init = some m
      ∧ m.open_blocks.map ProfileBlock.anchor_index = openRegions pre
      ∧ m.state.global_parent_profiler = innermostOpen pre
      ∧ (openRegions pre = [] → m.state.global_parent_profiler = rootAnchor) := by
  rw [run_append] at h
  cases hp : ProfileRun.run pre ProfileRun.init with
  | none => simp [hp] at h
  | some m =>
    have hinit : ProfileRun.init.consistent := ⟨rfl, trivial⟩
    obtain ⟨⟨hreg, _⟩, hst⟩ := run_consistent pre _ m hp hinit
    have hopen : m.open_blocks.map ProfileBlock.anchor_index = openRegions pre := by
      rw [hst, openRegions_eq_foldl]
      rfl
    refine ⟨m, rfl, hopen, ?_, ?_⟩
    · rw [hreg, hopen]
      rfl
    · intro hnil
      rw [hreg, hopen, hnil]
      rfl

/-- C7 at `exampleNested`, after its first three events: anchors 1, 2 and 3 are open. -/
theorem register_is_innermost_open_witness :
    ∃ m : ProfileRun,
      ProfileRun.run (exampleNested.events.take 3) ProfileRun.init = some m
      ∧ m.open_blocks.map ProfileBlock.anchor_index = openRegions (exampleNested.events.take 3)
      ∧ m.state.global_parent_profiler = innermostOpen (exampleNested.events.take 3)
      ∧ (openRegions (exampleNested.events.take 3) = [] →
          m.state.global_parent_profiler = rootAnchor) :=
  register_is_innermost_open (exampleNested.events.take 3) (exampleNested.events.drop 3)
    { state := exampleNested.exec ProfilerState.zero, open_blocks := [] } rfl

/-! ## Direct self-recursion -/

theorem selfRecursion_exec_cons (a : AnchorIndex) (name : Option String) (bytes t0 t1 : Nat)
    (acts : List (Option String × Nat × Nat × Nat)) (s : ProfilerState) :
    (selfRecursion a ((name, bytes, t0, t1) :: acts)).exec s =
      ProfileBlock_dtor (ProfileBlock_ctor name a bytes t0 s).1 t1
        ((selfRecursion a acts).exec (ProfileBlock_ctor name a bytes t0 s).2) := rfl

/-- Inside an activation of `a`, a chain of self-recursion leaves the exclusive total of `a`
as it was, adds one hit per activation and adds the bytes of every activation. -/
theorem selfRecursion_inner (a : AnchorIndex) (acts : List (Option String × Nat × Nat × Nat)) :
    ∀ s : ProfilerState, s.global_parent_profiler = a →
      ((((selfRecursion a acts).exec s).anchor a).tsc_elapsed_exclusive : ZMod (2 ^ 64)) =
          (s.anchor a).tsc_elapsed_exclusive
      ∧ ((((selfRecursion a acts).exec s).anchor a).num_hits : ZMod (2 ^ 64)) =
          (s.anchor a).num_hits + (acts.length : ZMod (2 ^ 64))
      ∧ ((((selfRecursion a acts).exec s).anchor a).bytes_processed : ZMod (2 ^ 64)) =
          (s.anchor a).bytes_processed + (((acts.map (fun x => x.2.1)).sum : Nat) : ZMod (2 ^ 64)) := by
  induction acts with
  | nil =>
    intro s _
    simp [selfRecursion, Regions.exec]
  | cons act acts ih =>
    intro s hs
    obtain ⟨name, bytes, t0, t1⟩ := act
    obtain ⟨h1, h2, h3⟩ := ih (ProfileBlock_ctor name a bytes t0 s).2 rfl
    have hself := dtor_anchor_self (ProfileBlock_ctor name a bytes t0 s).1 t1
      ((selfRecursion a acts).exec (ProfileBlock_ctor name a bytes t0 s).2)
    have hidx : (ProfileBlock_ctor name a bytes t0 s).1.anchor_index = a := rfl
    have hpar : (ProfileBlock_ctor name a bytes t0 s).1.parent_index = a := hs
    rw [hidx, hpar] at hself
    rw [selfRecursion_exec_cons, hself]
    simp only [if_true, cast_wadd, cast_wsub, h1, h2, h3, List.map_cons, List.sum_cons,
      List.length_cons]
    have hanchor : (ProfileBlock_ctor name a bytes t0 s).2.anchor a = s.anchor a := rfl
    have hbytes : (ProfileBlock_ctor name a bytes t0 s).1.bytes_processed = bytes := rfl
    rw [hanchor, hbytes]
    push_cast
    refine ⟨by ring, by ring, by ring⟩

/-- C4: recursive use of one anchor follows the snapshot rule. Anchor `a` is opened
`n = acts.length + 1` times in direct self-recursion, the outermost activation (label `name`,
`bytes` bytes, entered at `t0`) while some other anchor or the root is the innermost open
region, then all `n` are closed innermost first, the outermost at `t1`. The run is defined
and leaves the blocks that were open before as they were; the inclusive total of `a` ends at
its value before the outermost activation plus the elapsed cycles of the outermost
activation; its exclusive total grows by exactly those cycles, its hit count by `n` and its
byte counter by the bytes of the `n` activations (all modulo `2^64`). -/
theorem self_recursion_totals (a : AnchorIndex) (s : ProfilerState) (stk : List ProfileBlock)
    (name : Option String) (bytes t0 t1 : Nat) (acts : List (Option String × Nat × Nat × Nat))
    (hp : s.global_parent_profiler ≠ a) :
    ∃ s1 : ProfilerState,
      ProfileRun.run (selfRecursion a ((name, bytes, t0, t1) :: acts)).events
          { state := s, open_blocks := stk } = some { state := s1, open_blocks := stk }
      ∧ (s1.anchor a).tsc_elapsed_inclusive =
          wadd (s.anchor a).tsc_elapsed_inclusive (elapsedCycles t0 t1)
      ∧ (s1.anchor a).tsc_elapsed_exclusive =
          wadd (s.anchor a).tsc_elapsed_exclusive (elapsedCycles t0 t1)
      ∧ (s1.anchor a).num_hits = ((s.anchor a).num_hits + (acts.length + 1)) % 2 ^ 64
      ∧ (s1.anchor a).bytes_processed =
          ((s.anchor a).bytes_processed + (bytes + (acts.map (fun x => x.2.1)).sum)) % 2 ^ 64 := by
  refine ⟨_, run_events_nil _ _, ?_⟩
  obtain ⟨h1, h2, h3⟩ := selfRecursion_inner a acts (ProfileBlock_ctor name a bytes t0 s).2 rfl
  have hself := dtor_anchor_self (ProfileBlock_ctor name a bytes t0 s).1 t1
    ((selfRecursion a acts).exec (ProfileBlock_ctor name a bytes t0 s).2)
  have hidx : (ProfileBlock_ctor name a bytes t0 s).1.anchor_index = a := rfl
  have hpar : (ProfileBlock_ctor name a bytes t0 s).1.parent_index = s.global_parent_profiler :=
    rfl
  have hanchor : (ProfileBlock_ctor name a bytes t0 s).2.anchor a = s.anchor a := rfl
  rw [hidx, hpar, if_neg hp] at hself
  rw [hanchor] at h1 h2 h3
  show (((selfRecursion a ((name, bytes, t0, t1) :: acts)).exec s).anchor a).tsc_elapsed_inclusive
      = _ ∧ _
  rw [selfRecursion_exec_cons, hself]
  refine ⟨rfl, ?_, ?_, ?_⟩
  · apply eq_of_cast_eq _ _ (wadd_lt _ _) (wadd_lt _ _)
    simp only [cast_wadd, h1, elapsedCycles]
    rfl
  · apply eq_mod_of_cast_eq _ _ (wadd_lt _ _)
    simp only [cast_wadd, h2]
    push_cast
    ring
  · apply eq_mod_of_cast_eq _ _ (wadd_lt _ _)
    simp only [cast_wadd, h3]
    have hbytes : (ProfileBlock_ctor name a bytes t0 s).1.bytes_processed = bytes := rfl
    rw [hbytes]
    push_cast
    ring

/-- C4 with three activations of anchor 1 from the zero-initialised profiler. -/
theorem self_recursion_totals_witness :
    ∃ s1 : ProfilerState,
      ProfileRun.run (selfRecursion 1 [(some "f", 8, 0, 10), (some "f", 4, 1, 9),
          (some "f", 2, 2, 5)]).events
          { state := ProfilerState.zero, open_blocks := [] } =
            some { state := s1, open_blocks := [] }
      ∧ (s1.anchor 1).tsc_elapsed_inclusive =
          wadd (ProfilerState.zero.anchor 1).tsc_elapsed_inclusive (elapsedCycles 0 10)
      ∧ (s1.anchor 1).tsc_elapsed_exclusive =
          wadd (ProfilerState.zero.anchor 1).tsc_elapsed_exclusive (elapsedCycles 0 10)
      ∧ (s1.anchor 1).num_hits = ((ProfilerState.zero.anchor 1).num_hits + (2 + 1)) % 2 ^ 64
      ∧ (s1.anchor 1).bytes_processed =
          ((ProfilerState.zero.anchor 1).bytes_processed + (8 + (4 + (2 + 0)))) % 2 ^ 64 :=
  self_recursion_totals 1 ProfilerState.zero [] (some "f") 8 0 10
    [(some "f", 4, 1, 9), (some "f", 2, 2, 5)] (by decide)

/-! ## The calls of a test function -/

theorem apply_frame (c : TestCall) (t : RepetitionTester) :
    (c.apply t).cpu_frequency = t.cpu_frequency ∧ (c.apply t).results = t.results
      ∧ (c.apply t).context.start_time = t.context.start_time := by
  cases c <;> exact ⟨rfl, rfl, rfl⟩

theorem apply_value_congr (c : TestCall) (t u : RepetitionTester)
    (h : t.context.iteration_value = u.context.iteration_value) :
    (c.apply t).context.iteration_value = (c.apply u).context.iteration_value := by
  cases c <;>
    simp [TestCall.apply, RepetitionTester_begin_time, RepetitionTester_end_time,
      RepetitionTester_bytes_processed, RepetitionTester_error, h]

theorem apply_error_congr (c : TestCall) (t u : RepetitionTester)
    (h : t.context.error_happened = u.context.error_happened) :
    (c.apply t).context.error_happened = (c.apply u).context.error_happened := by
  cases c <;>
    simp [TestCall.apply, RepetitionTester_begin_time, RepetitionTester_end_time,
      RepetitionTester_bytes_processed, RepetitionTester_error, h]

theorem apply_error_true (c : TestCall) (t : RepetitionTester)
    (h : t.context.error_happened = true) : (c.apply t).context.error_happened = true := by
  cases c <;>
    simp [TestCall.apply, RepetitionTester_begin_time, RepetitionTester_end_time,
      RepetitionTester_bytes_processed, RepetitionTester_error, h]

theorem runTest_frame (calls : List TestCall) :
    ∀ t : RepetitionTester,
      (runTest calls t).cpu_frequency = t.cpu_frequency ∧ (runTest calls t).results = t.results
        ∧ (runTest calls t).context.start_time = t.context.start_time := by
  induction calls with
  | nil => intro t; exact ⟨rfl, rfl, rfl⟩
  | cons c cs ih =>
    intro t
    obtain ⟨h1, h2, h3⟩ := ih (c.apply t)
    obtain ⟨g1, g2, g3⟩ := apply_frame c t
    exact ⟨h1.trans g1, h2.trans g2, h3.trans g3⟩

theorem runTest_value_congr (calls : List TestCall) :
    ∀ t u : RepetitionTester, t.context.iteration_value = u.context.iteration_value →
      (runTest calls t).context.iteration_value = (runTest calls u).context.iteration_value := by
  induction calls with
  | nil => intro t u h; exact h
  | cons c cs ih => intro t u h; exact ih _ _ (apply_value_congr c t u h)

theorem runTest_error_congr (calls : List TestCall) :
    ∀ t u : RepetitionTester, t.context.error_happened = u.context.error_happened →
      (runTest calls t).context.error_happened = (runTest calls u).context.error_happened := by
  induction calls with
  | nil => intro t u h; exact h
  | cons c cs ih => intro t u h; exact ih _ _ (apply_error_congr c t u h)

theorem runTest_error_true (calls : List TestCall) :
    ∀ t : RepetitionTester, t.context.error_happened = true →
      (runTest calls t).context.error_happened = true := by
  induction calls with
  | nil => intro t h; exact h
  | cons c cs ih => intro t h; exact ih _ (apply_error_true c t h)

/-- An invocation of the test function on a tester whose `iteration_value` was zeroed and
whose error flag is clear: what it leaves behind. -/
theorem runTest_zeroed (calls : List TestCall) (t : RepetitionTester)
    (herr : t.context.error_happened = false) :
    runTest calls
        { t with context :=
          { t.context with iteration_value := RepetitionTesterTestValue.fill 0 } } =
      { cpu_frequency := t.cpu_frequency,
        context := { iteration_value := iterationValue calls,
                     start_time := t.context.start_time,
                     error_happened := reportsError calls },
        results := t.results } := by
  obtain ⟨h1, h2, h3⟩ := runTest_frame calls
    { t with context := { t.context with iteration_value := RepetitionTesterTestValue.fill 0 } }
  have h4 := runTest_value_congr calls
    { t with context := { t.context with iteration_value := RepetitionTesterTestValue.fill 0 } }
    RepetitionTester.blank rfl
  have h5 := runTest_error_congr calls
    { t with context := { t.context with iteration_value := RepetitionTesterTestValue.fill 0 } }
    RepetitionTester.blank herr
  cases hr : runTest calls
    { t with context :=
      { t.context with iteration_value := RepetitionTesterTestValue.fill 0 } } with
  | mk cpu ctx res =>
    rw [hr] at h1 h2 h3 h4 h5
    cases ctx with
    | mk iv st er =>
      simp only at h1 h2 h3 h4 h5
      subst h1 h2 h3
      rw [h4, h5]
      rfl

theorem invokeTest_eq (input : IterationInput) (t : RepetitionTester)
    (herr : t.context.error_happened = false) :
    invokeTest input t =
      { cpu_frequency := t.cpu_frequency,
        context := { iteration_value := iterationValue input.calls,
                     start_time := t.context.start_time,
                     error_happened := reportsError input.calls },
        results := t.results } :=
  runTest_zeroed input.calls t herr

/-! ## One iteration of the convergence loop -/

/-- An iteration that reports no error and measures nonzero elapsed cycles, in closed
form. -/
theorem loopIteration_fold (config : RepetitionTesterTestConfig) (input : IterationInput)
    (t : RepetitionTester) (herr : t.context.error_happened = false)
    (hne : reportsError input.calls = false)
    (hnz : (iterationValue input.calls).CpuElapsed ≠ 0) :
    loopIteration config input t =
      (if wmul config.max_seconds_to_run t.cpu_frequency <
            wsub input.current_time
              (if (iterationValue input.calls).CpuElapsed < t.results.min.CpuElapsed
                then input.current_time else t.context.start_time)
        then LoopControl.break_loop else LoopControl.next_iteration,
       { cpu_frequency := t.cpu_frequency,
         context :=
           { iteration_value := iterationValue input.calls,
             start_time :=
               if (iterationValue input.calls).CpuElapsed < t.results.min.CpuElapsed
               then input.current_time else t.context.start_time,
             error_happened := false },
         results :=
           { total := t.results.total.add { iterationValue input.calls with TestCount := 1 },
             min :=
               if (iterationValue input.calls).CpuElapsed < t.results.min.CpuElapsed
               then { iterationValue input.calls with TestCount := 1 } else t.results.min,
             max :=
               if t.results.max.CpuElapsed < (iterationValue input.calls).CpuElapsed
               then { iterationValue input.calls with TestCount := 1 }
               else t.results.max } }) := by
  unfold loopIteration afterTest
  simp only [invokeTest_eq input t herr, hne, hnz, if_false, Bool.false_eq_true]
  by_cases hmax : t.results.max.CpuElapsed < (iterationValue input.calls).CpuElapsed <;>
    by_cases hmin : (iterationValue input.calls).CpuElapsed < t.results.min.CpuElapsed <;>
    simp only [hmax, hmin, gt_iff_lt, if_true, if_false] <;>
    split <;> rfl

/-- C8: the update of step 3 of the convergence loop. For every tester state and every
iteration after whose test invocation (`invokeTest`) the error flag is clear and the
iteration vector has nonzero elapsed cycles, with `v` that vector with its iteration count
forced to 1: `total` becomes the component-wise `u64` sum of `total` and `v`, so its
iteration count grows by exactly 1; `max` becomes `v` if `v` has more elapsed cycles than
`max` and stays otherwise; `min` becomes `v` if `v` has strictly fewer elapsed cycles than
`min` and stays otherwise; and `start_time`, the time of the last improvement, becomes the
reading taken at the start of this iteration exactly when `min` is replaced, and stays
otherwise. -/
theorem convergence_update (config : RepetitionTesterTestConfig) (input : IterationInput)
    (t : RepetitionTester)
    (herr : (invokeTest input t).context.error_happened = false)
    (hnz : (invokeTest input t).context.iteration_value.CpuElapsed ≠ 0) :
    (loopIteration config input t).2.results.total =
        t.results.total.add { (invokeTest input t).context.iteration_value with TestCount := 1 }
    ∧ (loopIteration config input t).2.results.total.TestCount =
        wadd t.results.total.TestCount 1
    ∧ (loopIteration config input t).2.results.max =
        (if t.results.max.CpuElapsed < (invokeTest input t).context.iteration_value.CpuElapsed
          then { (invokeTest input t).context.iteration_value with TestCount := 1 }
          else t.results.max)
    ∧ (loopIteration config input t).2.results.min =
        (if (invokeTest input t).context.iteration_value.CpuElapsed < t.results.min.CpuElapsed
          then { (invokeTest input t).context.iteration_value with TestCount := 1 }
          else t.results.min)
    ∧ (loopIteration config input t).2.context.start_time =
        (if (invokeTest input t).context.iteration_value.CpuElapsed < t.results.min.CpuElapsed
          then input.current_time
          else t.context.start_time) := by
  have hclear : t.context.error_happened = false := by
    cases hc : t.context.error_happened with
    | false => rfl
    | true =>
      have := runTest_error_true input.calls { t with context := { t.context with
        iteration_value := RepetitionTesterTestValue.fill 0 } } hc
      rw [invokeTest, this] at herr
      cases herr
  rw [invokeTest_eq input t hclear] at herr hnz ⊢
  simp only at herr hnz
  rw [loopIteration_fold config input t hclear herr hnz]
  exact ⟨rfl, rfl, rfl, rfl, rfl⟩

/-- C8 at `exampleIteration` on `exampleTester`: elapsed 50 is below the initial minimum
and above the initial maximum. -/
theorem convergence_update_witness :
    (loopIteration RepetitionTesterTestConfig_default exampleIteration exampleTester).2.results
        = { total := { TestCount := 1, MemPageFaults := 2, CpuElapsed := 50,
                       BytesProcessed := 1024 },
            min := { TestCount := 1, MemPageFaults := 2, CpuElapsed := 50,
                     BytesProcessed := 1024 },
            max := { TestCount := 1, MemPageFaults := 2, CpuElapsed := 50,
                     BytesProcessed := 1024 } }
    ∧ (loopIteration RepetitionTesterTestConfig_default exampleIteration
        exampleTester).2.context.start_time = 90
    ∧ (loopIteration RepetitionTesterTestConfig_default exampleIteration
        exampleTester).2.results.total.TestCount = wadd exampleTester.results.total.TestCount 1 :=
  ⟨by decide, by decide,
    (convergence_update RepetitionTesterTestConfig_default exampleIteration exampleTester
      (by decide) (by decide)).2.1⟩

/-! ## The convergence loop -/

/-- An iteration that does not end in `goto next_test_loop` reported no error and measured
nonzero elapsed cycles. -/
theorem loopIteration_not_goto (config : RepetitionTesterTestConfig) (input : IterationInput)
    (t : RepetitionTester) (herr : t.context.error_happened = false)
    (h : (loopIteration config input t).1 ≠ LoopControl.goto_next_test_loop) :
    reportsError input.calls = false ∧ (iterationValue input.calls).CpuElapsed ≠ 0 := by
  unfold loopIteration afterTest at h
  simp only [invokeTest_eq input t herr] at h
  cases hr : reportsError input.calls with
  | true => simp [hr] at h
  | false =>
    refine ⟨rfl, fun hz => ?_⟩
    simp [hr, hz] at h

theorem folded_begin (inputs : Nat → IterationInput) (now : Nat) (t : RepetitionTester) :
    Folded inputs 0 (beginRepetition now t) := by
  refine ⟨rfl, rfl, rfl, ?_, ?_, ?_⟩ <;> simp [elapsedSum]

theorem folded_step (config : RepetitionTesterTestConfig) (inputs : Nat → IterationInput)
    (k : Nat) (t : RepetitionTester) (hf : Folded inputs k t)
    (h : (loopIteration config (inputs k) t).1 ≠ LoopControl.goto_next_test_loop) :
    Folded inputs (k + 1) (loopIteration config (inputs k) t).2 := by
  obtain ⟨herr, hcount, htotal, hmin, hmax, hk⟩ := hf
  obtain ⟨hne, hnz⟩ := loopIteration_not_goto config (inputs k) t herr h
  rw [loopIteration_fold config (inputs k) t herr hne hnz]
  have hpos : 1 ≤ (iterationValue (inputs k).calls).CpuElapsed := Nat.one_le_iff_ne_zero.2 hnz
  refine ⟨rfl, ?_, ?_, ?_, ?_, ?_⟩
  · show wadd t.results.total.TestCount 1 = (k + 1) % 2 ^ 64
    rw [hcount]
    unfold wadd
    omega
  · show wadd t.results.total.CpuElapsed (iterationValue (inputs k).calls).CpuElapsed = _
    rw [htotal]
    unfold wadd
    simp only [elapsedSum]
    omega
  · simp only [elapsedSum]
    by_cases hlt : (iterationValue (inputs k).calls).CpuElapsed < t.results.min.CpuElapsed
    · simp only [if_pos hlt]
      have : (iterationValue (inputs k).calls).CpuElapsed * k ≤ t.results.min.CpuElapsed * k :=
        Nat.mul_le_mul_right k hlt.le
      rw [Nat.mul_succ]
      omega
    · simp only [if_neg hlt]
      rw [Nat.mul_succ]
      omega
  · simp only [elapsedSum]
    by_cases hlt : t.results.max.CpuElapsed < (iterationValue (inputs k).calls).CpuElapsed
    · simp only [if_pos hlt]
      have : t.results.max.CpuElapsed * k ≤ (iterationValue (inputs k).calls).CpuElapsed * k :=
        Nat.mul_le_mul_right k hlt.le
      rw [Nat.mul_succ]
      omega
    · simp only [if_neg hlt]
      rw [Nat.mul_succ]
      omega
  · simp only [elapsedSum]
    omega

/-- A loop that is left through the `break` of line 283 folded every iteration it
started. -/
theorem convergenceLoop_folded (config : RepetitionTesterTestConfig)
    (inputs : Nat → IterationInput) (fuel : Nat) :
    ∀ (k : Nat) (t t1 : RepetitionTester) (n : Nat), Folded inputs k t →
      convergenceLoop config inputs fuel k t = some (LoopControl.break_loop, t1, n) →
      Folded inputs n t1 ∧ k < n := by
  induction fuel with
  | zero =>
    intro k t t1 n _ h
    simp [convergenceLoop] at h
  | succ fuel ih =>
    intro k t t1 n hf h
    unfold convergenceLoop at h
    cases hc : loopIteration config (inputs k) t with
    | mk c t2 =>
      have hstep := folded_step config inputs k t hf
      rw [hc] at h hstep
      cases c with
      | next_iteration =>
        simp only at h
        obtain ⟨h1, h2⟩ := ih (k + 1) t2 t1 n (hstep (by simp)) h
        exact ⟨h1, by omega⟩
      | break_loop =>
        simp only [Option.some.injEq, Prod.mk.injEq, true_and] at h
        obtain ⟨h1, h2⟩ := h
        subst h1 h2
        exact ⟨hstep (by simp), by omega⟩
      | goto_next_test_loop =>
        simp at h

/-- C9: for any completed repetition, that is, a convergence loop started by
`beginRepetition` and left through its termination check after `n` iterations, with the
summed elapsed cycles below `2^64`: `n ≥ 1`, `total` holds the iteration count `n` and the
elapsed sum, `min.elapsed * n ≤ total.elapsed ≤ max.elapsed * n`, and so
`min.elapsed ≤ total.elapsed / total.iteration_count ≤ max.elapsed`. -/
theorem completed_repetition_bounds (config : RepetitionTesterTestConfig)
    (inputs : Nat → IterationInput) (fuel now : Nat) (t0 t : RepetitionTester) (n : Nat)
    (h : convergenceLoop config inputs fuel 0 (beginRepetition now t0) =
      some (LoopControl.break_loop, t, n))
    (hsum : elapsedSum inputs n < 2 ^ 64) :
    1 ≤ n
    ∧ t.results.total.TestCount = n
    ∧ t.results.total.CpuElapsed = elapsedSum inputs n
    ∧ t.results.min.CpuElapsed * n ≤ t.results.total.CpuElapsed
    ∧ t.results.total.CpuElapsed ≤ t.results.max.CpuElapsed * n
    ∧ t.results.min.CpuElapsed ≤ t.results.total.CpuElapsed / t.results.total.TestCount
    ∧ t.results.total.CpuElapsed / t.results.total.TestCount ≤ t.results.max.CpuElapsed := by
  obtain ⟨⟨_, hcount, htotal, hmin, hmax, hk⟩, hn⟩ :=
    convergenceLoop_folded config inputs fuel 0 _ t n (folded_begin inputs now t0) h
  have hc : t.results.total.TestCount = n := by
    rw [hcount]
    exact Nat.mod_eq_of_lt (by omega)
  have ht : t.results.total.CpuElapsed = elapsedSum inputs n := by
    rw [htotal]
    exact Nat.mod_eq_of_lt hsum
  have hpos : 0 < n := by omega
  refine ⟨hpos, hc, ht, ?_, ?_, ?_, ?_⟩
  · rw [ht]; exact hmin
  · rw [ht]; exact hmax
  · rw [hc, ht]
    exact (Nat.le_div_iff_mul_le hpos).2 hmin
  · rw [hc, ht]
    exact Nat.div_le_of_le_mul (by rw [Nat.mul_comm]; exact hmax)

/-- C9 at the repetition of `exampleBlank` over `exampleInputs`: three iterations of 50, 51
and 50 cycles, left through the termination check. -/
theorem completed_repetition_bounds_witness :
    convergenceLoop exampleConfig exampleInputs 10 0 (beginRepetition 95 exampleBlank) =
      some (LoopControl.break_loop, exampleFinal, 3)
    ∧ exampleFinal.results.min.CpuElapsed * 3 ≤ exampleFinal.results.total.CpuElapsed
    ∧ exampleFinal.results.total.CpuElapsed ≤ exampleFinal.results.max.CpuElapsed * 3
    ∧ exampleFinal.results.min.CpuElapsed ≤
        exampleFinal.results.total.CpuElapsed / exampleFinal.results.total.TestCount
    ∧ exampleFinal.results.total.CpuElapsed / exampleFinal.results.total.TestCount ≤
        exampleFinal.results.max.CpuElapsed :=
  ⟨by decide,
    (completed_repetition_bounds exampleConfig exampleInputs 10 95 exampleBlank exampleFinal 3
      (by decide) (by decide)).2.2.2⟩

/-! ## Termination of the convergence loop -/

theorem wsub_self (x : Nat) : wsub x x = 0 := by
  unfold wsub
  omega

theorem wsub_add_wsub (c s d : Nat) (h : wsub c s + wsub d c < 2 ^ 64) :
    wsub d s = wsub c s + wsub d c := by
  unfold wsub at h ⊢
  omega

theorem iterationValue_lt (calls : List TestCall) :
    ∀ t : RepetitionTester, t.context.iteration_value.CpuElapsed < 2 ^ 64 →
      (runTest calls t).context.iteration_value.CpuElapsed < 2 ^ 64 := by
  induction calls with
  | nil => intro t h; exact h
  | cons c cs ih =>
    intro t h
    apply ih
    cases c with
    | begin_time tsc faults => exact wsub_lt _ _
    | end_time tsc faults => exact wadd_lt _ _
    | bytes_processed bytes => exact h
    | error message => exact h
    | get_params => exact h

theorem convergenceLoop_succ_next (config : RepetitionTesterTestConfig)
    (inputs : Nat → IterationInput) (fuel k : Nat) (t : RepetitionTester)
    (h : (loopIteration config (inputs k) t).1 = LoopControl.next_iteration) :
    convergenceLoop config inputs (fuel + 1) k t =
      convergenceLoop config inputs fuel (k + 1) (loopIteration config (inputs k) t).2 := by
  rw [convergenceLoop]
  cases hc : loopIteration config (inputs k) t with
  | mk c t2 =>
    rw [hc] at h
    simp only at h
    subst h
    rfl

theorem convergenceLoop_succ_break (config : RepetitionTesterTestConfig)
    (inputs : Nat → IterationInput) (fuel k : Nat) (t : RepetitionTester)
    (h : (loopIteration config (inputs k) t).1 = LoopControl.break_loop) :
    convergenceLoop config inputs (fuel + 1) k t =
      some (LoopControl.break_loop, (loopIteration config (inputs k) t).2, k + 1) := by
  rw [convergenceLoop]
  cases hc : loopIteration config (inputs k) t with
  | mk c t2 =>
    rw [hc] at h
    simp only at h
    subst h
    rfl

/-- The loop leaves through its termination check, by induction on a bound `N` for
`min.elapsed * 2^64 + (2^64 - 1 - age)`, where `age` is the time since the last
improvement at the start of iteration `k`. -/
theorem convergenceLoop_breaks (config : RepetitionTesterTestConfig)
    (inputs : Nat → IterationInput) (freq : Nat)
    (hne : ∀ k, reportsError (inputs k).calls = false)
    (hnz : ∀ k, (iterationValue (inputs k).calls).CpuElapsed ≠ 0)
    (hadv : ∀ k, 1 ≤ wsub (inputs (k + 1)).current_time (inputs k).current_time
      ∧ wsub (inputs (k + 1)).current_time (inputs k).current_time
          + wmul config.max_seconds_to_run freq ≤ 2 ^ 64 - 1) (N : Nat) :
    ∀ (k : Nat) (t : RepetitionTester), t.context.error_happened = false →
      t.cpu_frequency = freq →
      t.results.min.CpuElapsed * 2 ^ 64
        + (2 ^ 64 - 1 - wsub (inputs k).current_time t.context.start_time) < N →
      ∃ (fuel : Nat) (t1 : RepetitionTester) (n : Nat),
        convergenceLoop config inputs fuel k t = some (LoopControl.break_loop, t1, n) := by
  induction N with
  | zero => intro k t _ _ h; omega
  | succ N ih =>
    intro k t herr hfreq hN
    have hfold := loopIteration_fold config (inputs k) t herr (hne k) (hnz k)
    have hctl := congrArg Prod.fst hfold
    have herr5 : (loopIteration config (inputs k) t).2.context.error_happened = false := by
      rw [hfold]
    have hfreq5 : (loopIteration config (inputs k) t).2.cpu_frequency = freq := by
      rw [hfold]
      exact hfreq
    have hmin5 : (loopIteration config (inputs k) t).2.results.min.CpuElapsed =
        if (iterationValue (inputs k).calls).CpuElapsed < t.results.min.CpuElapsed
        then (iterationValue (inputs k).calls).CpuElapsed else t.results.min.CpuElapsed := by
      rw [hfold]
      simp only
      split <;> rfl
    have hst5 : (loopIteration config (inputs k) t).2.context.start_time =
        if (iterationValue (inputs k).calls).CpuElapsed < t.results.min.CpuElapsed
        then (inputs k).current_time else t.context.start_time := by
      rw [hfold]
    simp only at hctl
    have hage : wsub (inputs k).current_time t.context.start_time < 2 ^ 64 := wsub_lt _ _
    obtain ⟨hadv1, hadv2⟩ := hadv k
    by_cases hmin : (iterationValue (inputs k).calls).CpuElapsed < t.results.min.CpuElapsed
    · -- a new minimum: the age is 0, the loop goes on with a smaller minimum
      rw [if_pos hmin] at hmin5 hst5
      simp only [if_pos hmin, wsub_self, Nat.not_lt_zero, if_false] at hctl
      have hlt := wsub_lt (inputs (k + 1)).current_time (inputs k).current_time
      obtain ⟨fuel, t1, n, hrun⟩ := ih (k + 1) (loopIteration config (inputs k) t).2 herr5
        hfreq5 (by
          rw [hmin5, hst5]
          have := Nat.mul_le_mul_right (2 ^ 64) (Nat.succ_le_of_lt hmin)
          rw [Nat.succ_mul] at this
          omega)
      exact ⟨fuel + 1, t1, n, by rw [convergenceLoop_succ_next _ _ _ _ _ hctl]; exact hrun⟩
    · rw [if_neg hmin] at hmin5 hst5
      simp only [if_neg hmin] at hctl
      by_cases hbreak : wmul config.max_seconds_to_run t.cpu_frequency
          < wsub (inputs k).current_time t.context.start_time
      · -- no new minimum and the age exceeds the threshold
        rw [if_pos hbreak] at hctl
        exact ⟨1, _, k + 1, convergenceLoop_succ_break _ _ _ _ _ hctl⟩
      · -- no new minimum: the age grows, and stays below `2^64`
        rw [if_neg hbreak] at hctl
        rw [hfreq] at hbreak
        have hsum := wsub_add_wsub (inputs k).current_time t.context.start_time
          (inputs (k + 1)).current_time (by omega)
        obtain ⟨fuel, t1, n, hrun⟩ := ih (k + 1) (loopIteration config (inputs k) t).2 herr5
          hfreq5 (by
            rw [hmin5, hst5]
            omega)
        exact ⟨fuel + 1, t1, n, by rw [convergenceLoop_succ_next _ _ _ _ _ hctl]; exact hrun⟩

theorem wsub_advance (a d : Nat) (hd : d < 2 ^ 64) : wsub (a + d) a = d := by
  unfold wsub
  omega

theorem steady_value (k : Nat) : (iterationValue (steadyInputs k).calls).CpuElapsed = 5 := rfl

theorem example_value (k : Nat) :
    (iterationValue (exampleInputs k).calls).CpuElapsed = wadd (wsub 0 1000) (1050 + k % 2) :=
  rfl

theorem example_nonzero (k : Nat) : (iterationValue (exampleInputs k).calls).CpuElapsed ≠ 0 := by
  rw [example_value]
  unfold wadd wsub
  omega

theorem example_time (k : Nat) : (exampleInputs k).current_time = 100 + 7 * k := rfl

theorem example_threshold :
    wmul exampleConfig.max_seconds_to_run exampleBlank.cpu_frequency = 10 := rfl

theorem example_advance (k : Nat) :
    1 ≤ wsub (exampleInputs (k + 1)).current_time (exampleInputs k).current_time
      ∧ wsub (exampleInputs (k + 1)).current_time (exampleInputs k).current_time
          + wmul exampleConfig.max_seconds_to_run exampleBlank.cpu_frequency ≤ 2 ^ 64 - 1 := by
  have h1 : (exampleInputs (k + 1)).current_time = (exampleInputs k).current_time + 7 := by
    rw [example_time, example_time]
    ring
  rw [h1, wsub_advance _ 7 (by norm_num), example_threshold]
  norm_num

/-- With the largest search time and a frequency of one tick per second the threshold is
`2^64 - 1`, which no `u64` age exceeds: the loop over `steadyInputs` runs on. -/
theorem convergenceLoop_longest (fuel : Nat) :
    ∀ (k : Nat) (t : RepetitionTester), t.context.error_happened = false →
      t.cpu_frequency = 1 → convergenceLoop longestConfig steadyInputs fuel k t = none := by
  induction fuel with
  | zero => intro k t _ _; rfl
  | succ fuel ih =>
    intro k t herr hfreq
    have hne : reportsError (steadyInputs k).calls = false := rfl
    have hnz : (iterationValue (steadyInputs k).calls).CpuElapsed ≠ 0 := by
      rw [steady_value]
      decide
    have hfold := loopIteration_fold longestConfig (steadyInputs k) t herr hne hnz
    have hctl := congrArg Prod.fst hfold
    have herr5 : (loopIteration longestConfig (steadyInputs k) t).2.context.error_happened
        = false := by rw [hfold]
    have hfreq5 : (loopIteration longestConfig (steadyInputs k) t).2.cpu_frequency = 1 := by
      rw [hfold]
      exact hfreq
    have hthr : wmul longestConfig.max_seconds_to_run t.cpu_frequency = 2 ^ 64 - 1 := by
      rw [hfreq]
      decide
    simp only [hthr] at hctl
    rw [if_neg (by
      have := wsub_lt (steadyInputs k).current_time
        (if (iterationValue (steadyInputs k).calls).CpuElapsed < t.results.min.CpuElapsed
          then (steadyInputs k).current_time else t.context.start_time)
      omega)] at hctl
    rw [convergenceLoop_succ_next _ _ _ _ _ hctl]
    exact ih (k + 1) _ herr5 hfreq5

/-- C10, as stated, fails for `longestConfig` (`max_seconds_to_run = UINT64_MAX > 0`) at one
tick per second over `steadyInputs`: no iteration reports an error, every iteration
measures 5 cycles, iteration `k` starts at tick `k` of a counter that wraps at `2^64`, and
the loop is not left within any number of iterations. -/
theorem convergence_loop_counterexample :
    0 < longestConfig.max_seconds_to_run
    ∧ (∀ k, reportsError (steadyInputs k).calls = false
        ∧ (iterationValue (steadyInputs k).calls).CpuElapsed = 5)
    ∧ (∀ k, (steadyInputs k).current_time = k % 2 ^ 64)
    ∧ ∀ fuel, convergenceLoop longestConfig steadyInputs fuel 0 (beginRepetition 0 oneHertz)
        = none :=
  ⟨by decide, fun k => ⟨rfl, steady_value k⟩, fun _ => rfl,
    fun fuel => convergenceLoop_longest fuel 0 _ rfl rfl⟩

/-- C10, amended: the convergence loop terminates. For every benchmark whose iterations
report no error and measure nonzero elapsed cycles, and a cycle counter that between the
starts of consecutive iterations advances by at least 1 and at most `2^64 - 1 - T` cycles
(modulo `2^64`), where `T = max_seconds_to_run * cpu_frequency` modulo `2^64`, the loop
started by `beginRepetition` is left through its termination check after finitely many
iterations. -/
theorem convergence_loop_terminates (config : RepetitionTesterTestConfig)
    (inputs : Nat → IterationInput) (now : Nat) (t0 : RepetitionTester)
    (hne : ∀ k, reportsError (inputs k).calls = false)
    (hnz : ∀ k, (iterationValue (inputs k).calls).CpuElapsed ≠ 0)
    (hadv : ∀ k, 1 ≤ wsub (inputs (k + 1)).current_time (inputs k).current_time
      ∧ wsub (inputs (k + 1)).current_time (inputs k).current_time
          + wmul config.max_seconds_to_run t0.cpu_frequency ≤ 2 ^ 64 - 1) :
    ∃ (fuel : Nat) (t : RepetitionTester) (n : Nat),
      convergenceLoop config inputs fuel 0 (beginRepetition now t0) =
        some (LoopControl.break_loop, t, n) :=
  convergenceLoop_breaks config inputs t0.cpu_frequency hne hnz hadv _ 0
    (beginRepetition now t0) rfl rfl (Nat.lt_succ_self _)

/-- C10, amended, at `exampleConfig` and `exampleInputs`: the counter advances by 7 cycles
per iteration and the threshold is 10. -/
theorem convergence_loop_terminates_witness :
    ∃ (fuel : Nat) (t : RepetitionTester) (n : Nat),
      convergenceLoop exampleConfig exampleInputs fuel 0 (beginRepetition 95 exampleBlank) =
        some (LoopControl.break_loop, t, n) :=
  convergence_loop_terminates exampleConfig exampleInputs 95 exampleBlank
    (fun _ => rfl) example_nonzero example_advance

/-! ## Conservation of exclusive time -/

theorem dtor_exclusiveSum (b : ProfileBlock) (now : Nat) (s : ProfilerState) :
    exclusiveSum (ProfileBlock_dtor b now s) % 2 ^ 64 = exclusiveSum s % 2 ^ 64 := by
  apply (ZMod.natCast_eq_natCast_iff' _ _ _).1
  unfold exclusiveSum
  rw [Nat.cast_sum, Nat.cast_sum]
  simp only [dtor_exclusive_cast]
  rw [Finset.sum_sub_distrib, Finset.sum_add_distrib]
  simp

theorem apply_exclusiveSum (c : ProfileCall) (s : ProfilerState) :
    exclusiveSum (c.apply s) % 2 ^ 64 = exclusiveSum s % 2 ^ 64 := by
  cases c with
  | begin_region name index bytes now => rfl
  | end_region marker now => exact dtor_exclusiveSum marker now s

theorem apply_exclusive_lt (c : ProfileCall) (s : ProfilerState) (a : AnchorIndex)
    (h : (s.anchor a).tsc_elapsed_exclusive < 2 ^ 64) :
    ((c.apply s).anchor a).tsc_elapsed_exclusive < 2 ^ 64 := by
  cases c with
  | begin_region name index bytes now => exact h
  | end_region marker now => exact dtor_exclusive_lt marker now s a h

theorem applyCalls_exclusiveSum (calls : List ProfileCall) :
    ∀ s : ProfilerState,
      exclusiveSum (applyCalls calls s) % 2 ^ 64 = exclusiveSum s % 2 ^ 64 := by
  induction calls with
  | nil => intro s; rfl
  | cons c cs ih =>
    intro s
    exact (ih (c.apply s)).trans (apply_exclusiveSum c s)

theorem applyCalls_exclusive_lt (calls : List ProfileCall) (a : AnchorIndex) :
    ∀ s : ProfilerState, (s.anchor a).tsc_elapsed_exclusive < 2 ^ 64 →
      ((applyCalls calls s).anchor a).tsc_elapsed_exclusive < 2 ^ 64 := by
  induction calls with
  | nil => intro s h; exact h
  | cons c cs ih =>
    intro s h
    exact ih (c.apply s) (apply_exclusive_lt c s a h)

theorem exclusiveSum_split (s : ProfilerState) :
    exclusiveSum s = (s.anchor rootAnchor).tsc_elapsed_exclusive + otherExclusiveSum s := by
  unfold exclusiveSum otherExclusiveSum
  exact (Finset.add_sum_erase Finset.univ
    (fun i => (s.anchor i).tsc_elapsed_exclusive) (Finset.mem_univ rootAnchor)).symm

theorem exclusiveSum_zero : exclusiveSum ProfilerState.zero = 0 := by
  unfold exclusiveSum
  simp [zero_anchor, ProfileAnchor.zero]

/-- C18: conservation of exclusive time. Every `end_region`, for any marker and any state,
leaves the sum modulo `2^64` of the exclusive totals of all anchors, the root included,
unchanged; hence after any sequence of begin/end calls on the zero-initialised table, with
any markers, that sum is 0 modulo `2^64`, and the exclusive total of the root anchor is
minus the sum of the exclusive totals of all other anchors, modulo `2^64`. -/
theorem exclusive_time_conserved :
    (∀ (s : ProfilerState) (marker : ProfileBlock) (now : Nat),
        exclusiveSum (ProfileBlock_dtor marker now s) % 2 ^ 64 = exclusiveSum s % 2 ^ 64)
    ∧ (∀ calls : List ProfileCall,
        exclusiveSum (applyCalls calls ProfilerState.zero) % 2 ^ 64 = 0)
    ∧ (∀ calls : List ProfileCall,
        ((applyCalls calls ProfilerState.zero).anchor rootAnchor).tsc_elapsed_exclusive =
          wsub 0 (otherExclusiveSum (applyCalls calls ProfilerState.zero))) := by
  have hsum : ∀ calls : List ProfileCall,
      exclusiveSum (applyCalls calls ProfilerState.zero) % 2 ^ 64 = 0 := by
    intro calls
    rw [applyCalls_exclusiveSum, exclusiveSum_zero]
    rfl
  refine ⟨fun s marker now => dtor_exclusiveSum marker now s, hsum, fun calls => ?_⟩
  have h1 := hsum calls
  rw [exclusiveSum_split] at h1
  have h2 := applyCalls_exclusive_lt calls rootAnchor ProfilerState.zero
    (by rw [zero_anchor]; simp [ProfileAnchor.zero])
  unfold wsub
  omega

/-! ## The report -/

theorem mem_reportLines (s : ProfilerState) (i : Nat) (row : ReportRow) :
    row ∈ reportLines s i ↔
      row.index.val = i ∧ (s.anchor row.index).tsc_elapsed_exclusive ≠ 0
        ∧ row = reportRow s row.index := by
  unfold reportLines
  by_cases h : i < MAX_ANCHORS
  · by_cases hx : (s.anchor ⟨i, h⟩).tsc_elapsed_exclusive = 0
    · simp only [dif_pos h, ne_eq, hx, not_true_eq_false, if_false, List.not_mem_nil,
        false_iff, not_and]
      intro hi hne
      have hidx : row.index = ⟨i, h⟩ := Fin.ext hi
      rw [hidx] at hne
      exact absurd hx hne
    · simp only [dif_pos h, ne_eq, hx, not_false_eq_true, if_true, List.mem_singleton]
      constructor
      · intro hrow
        subst hrow
        exact ⟨rfl, hx, rfl⟩
      · intro ⟨hi, _, hrow⟩
        have hidx : row.index = ⟨i, h⟩ := Fin.ext hi
        rw [hrow, hidx]
  · simp only [dif_neg h, List.not_mem_nil, false_iff, not_and]
    intro hi
    exact absurd (hi ▸ row.index.isLt) h

theorem mem_reportLoop (s : ProfilerState) (n : Nat) :
    ∀ (i : Nat) (row : ReportRow),
      row ∈ reportLoop s n i ↔
        (i ≤ row.index.val ∧ row.index.val < i + n)
          ∧ (s.anchor row.index).tsc_elapsed_exclusive ≠ 0 ∧ row = reportRow s row.index := by
  induction n with
  | zero =>
    intro i row
    simp only [reportLoop, List.not_mem_nil, false_iff]
    omega
  | succ n ih =>
    intro i row
    simp only [reportLoop, List.mem_append, mem_reportLines, ih]
    constructor
    · rintro (⟨h1, h2, h3⟩ | ⟨h1, h2, h3⟩)
      · exact ⟨by omega, h2, h3⟩
      · exact ⟨by omega, h2, h3⟩
    · rintro ⟨h1, h2, h3⟩
      by_cases hi : row.index.val = i
      · exact Or.inl ⟨hi, h2, h3⟩
      · exact Or.inr ⟨by omega, h2, h3⟩

theorem reportLoop_increasing (s : ProfilerState) (n : Nat) :
    ∀ i : Nat, ((reportLoop s n i).map fun row => row.index).Pairwise (· < ·) := by
  induction n with
  | zero => intro i; simp [reportLoop]
  | succ n ih =>
    intro i
    simp only [reportLoop, List.map_append]
    rw [List.pairwise_append]
    refine ⟨?_, ih (i + 1), ?_⟩
    · unfold reportLines
      split
      · split <;> simp
      · simp
    · intro a ha b hb
      rw [List.mem_map] at ha hb
      obtain ⟨ra, hra, rfl⟩ := ha
      obtain ⟨rb, hrb, rfl⟩ := hb
      have h1 := ((mem_reportLines s i ra).1 hra).1
      have h2 := ((mem_reportLoop s n (i + 1) rb).1 hrb).1.1
      exact Fin.lt_def.2 (by omega)

theorem reportRow_with_children (s : ProfilerState) (i : AnchorIndex) :
    (reportRow s i).with_children.isSome = true ↔
      (s.anchor i).tsc_elapsed_inclusive ≠ (s.anchor i).tsc_elapsed_exclusive := by
  simp only [reportRow]
  split
  · simpa
  · rename_i h
    simpa using not_not.1 h

theorem reportRow_throughput (s : ProfilerState) (i : AnchorIndex) :
    (reportRow s i).throughput.isSome = true ↔ (s.anchor i).bytes_processed ≠ 0 := by
  simp only [reportRow]
  split
  · simpa
  · rename_i h
    simpa using not_not.1 h

/-- C15: selection and order of the report. For every anchor table, the rows of
`print_performance_anchors` come in strictly increasing anchor-index order (so no index has
two rows); an index has a row exactly when it is not 0 and its exclusive total is nonzero;
every row is the line of its anchor, it carries the percentage with children exactly when
the anchor's inclusive total differs from its exclusive total, and a throughput figure
exactly when the anchor's bytes processed are nonzero. -/
theorem report_selection (s : ProfilerState) :
    ((print_performance_anchors s).map fun row => row.index).Pairwise (· < ·)
    ∧ (∀ i : AnchorIndex,
        (∃ row ∈ print_performance_anchors s, row.index = i) ↔
          (i ≠ rootAnchor ∧ (s.anchor i).tsc_elapsed_exclusive ≠ 0))
    ∧ (∀ row ∈ print_performance_anchors s,
        row = reportRow s row.index
        ∧ (row.with_children.isSome = true ↔
            (s.anchor row.index).tsc_elapsed_inclusive
              ≠ (s.anchor row.index).tsc_elapsed_exclusive)
        ∧ (row.throughput.isSome = true ↔ (s.anchor row.index).bytes_processed ≠ 0)) := by
  refine ⟨reportLoop_increasing s _ 1, fun i => ?_, fun row hrow => ?_⟩
  · constructor
    · rintro ⟨row, hrow, rfl⟩
      obtain ⟨⟨h1, _⟩, h2, _⟩ := (mem_reportLoop s _ 1 row).1 hrow
      refine ⟨fun h0 => ?_, h2⟩
      rw [h0] at h1
      exact absurd h1 (by decide)
    · rintro ⟨h0, hx⟩
      refine ⟨reportRow s i, (mem_reportLoop s _ 1 _).2 ⟨⟨?_, ?_⟩, hx, rfl⟩, rfl⟩
      · show 1 ≤ i.val
        rcases Nat.eq_zero_or_pos i.val with hz | hp
        · exact absurd (Fin.ext hz) h0
        · exact hp
      · show i.val < 1 + (MAX_ANCHORS - 1)
        have := i.isLt
        omega
  · obtain ⟨_, _, h3⟩ := (mem_reportLoop s _ 1 row).1 hrow
    have hc := reportRow_with_children s row.index
    have ht := reportRow_throughput s row.index
    rw [← h3] at hc ht
    exact ⟨h3, hc, ht⟩

/-! ## Degenerate measurement -/

theorem runTest_quiet (calls : List TestCall) :
    ∀ t : RepetitionTester, (∀ c ∈ calls, c.isQuiet = true) →
      (runTest calls t).context.iteration_value.CpuElapsed = t.context.iteration_value.CpuElapsed
        ∧ (runTest calls t).context.error_happened = t.context.error_happened := by
  induction calls with
  | nil => intro t _; exact ⟨rfl, rfl⟩
  | cons c cs ih =>
    intro t hq
    obtain ⟨h1, h2⟩ := ih (c.apply t) (fun d hd => hq d (List.mem_cons_of_mem c hd))
    have hc := hq c (List.mem_cons_self c cs)
    have h3 : (c.apply t).context.iteration_value.CpuElapsed = t.context.iteration_value.CpuElapsed
        ∧ (c.apply t).context.error_happened = t.context.error_happened := by
      cases c with
      | begin_time tsc faults => cases hc
      | end_time tsc faults => cases hc
      | bytes_processed bytes => exact ⟨rfl, rfl⟩
      | error message => cases hc
      | get_params => exact ⟨rfl, rfl⟩
    exact ⟨h1.trans h3.1, h2.trans h3.2⟩

theorem convergenceLoop_succ_goto (config : RepetitionTesterTestConfig)
    (inputs : Nat → IterationInput) (fuel k : Nat) (t : RepetitionTester)
    (h : (loopIteration config (inputs k) t).1 = LoopControl.goto_next_test_loop) :
    convergenceLoop config inputs (fuel + 1) k t =
      some (LoopControl.goto_next_test_loop, (loopIteration config (inputs k) t).2, k + 1) := by
  rw [convergenceLoop]
  cases hc : loopIteration config (inputs k) t with
  | mk c t2 =>
    rw [hc] at h
    simp only at h
    subst h
    rfl

/-- C14: degenerate measurement. If in iteration `k` the test function reports no error
and never calls the begin/end timing updates, and the error flag was clear, then the
freshly zeroed iteration vector is left with 0 elapsed cycles, the body of the loop takes
the skip of line 259, the results (total with its iteration count, min and max) are what
they were, the error flag is still clear, and the convergence loop of this repetition ends
there. -/
theorem degenerate_measurement_skips (config : RepetitionTesterTestConfig)
    (inputs : Nat → IterationInput) (fuel k : Nat) (t : RepetitionTester)
    (hquiet : ∀ c ∈ (inputs k).calls, c.isQuiet = true)
    (hclear : t.context.error_happened = false) :
    (invokeTest (inputs k) t).context.iteration_value.CpuElapsed = 0
    ∧ loopIteration config (inputs k) t =
        (LoopControl.goto_next_test_loop, invokeTest (inputs k) t)
    ∧ (loopIteration config (inputs k) t).2.results = t.results
    ∧ (loopIteration config (inputs k) t).2.results.total.TestCount =
        t.results.total.TestCount
    ∧ (loopIteration config (inputs k) t).2.context.error_happened = false
    ∧ convergenceLoop config inputs (fuel + 1) k t =
        some (LoopControl.goto_next_test_loop, invokeTest (inputs k) t, k + 1) := by
  obtain ⟨h1, h2⟩ := runTest_quiet (inputs k).calls
    { t with context := { t.context with iteration_value := RepetitionTesterTestValue.fill 0 } }
    hquiet
  have hz : (invokeTest (inputs k) t).context.iteration_value.CpuElapsed = 0 := h1
  have he : (invokeTest (inputs k) t).context.error_happened = false := h2.trans hclear
  have hloop : loopIteration config (inputs k) t =
      (LoopControl.goto_next_test_loop, invokeTest (inputs k) t) := by
    unfold loopIteration afterTest
    simp only [he, hz, if_true, Bool.false_eq_true, if_false]
  have hres : (invokeTest (inputs k) t).results = t.results :=
    (runTest_frame (inputs k).calls _).2.1
  refine ⟨hz, hloop, ?_, ?_, ?_, ?_⟩
  · rw [hloop]; exact hres
  · rw [hloop]; exact congrArg (fun r => r.total.TestCount) hres
  · rw [hloop]; exact he
  · have hg : (loopIteration config (inputs k) t).1 = LoopControl.goto_next_test_loop := by
      rw [hloop]
    rw [convergenceLoop_succ_goto config inputs fuel k t hg, hloop]

/-- C14 at `quietIteration` as the first iteration of a repetition of `exampleBlank`. -/
theorem degenerate_measurement_skips_witness :
    loopIteration exampleConfig quietIteration (beginRepetition 80 exampleBlank) =
        (LoopControl.goto_next_test_loop, invokeTest quietIteration (beginRepetition 80 exampleBlank))
    ∧ (loopIteration exampleConfig quietIteration (beginRepetition 80 exampleBlank)).2.results =
        (beginRepetition 80 exampleBlank).results
    ∧ (loopIteration exampleConfig quietIteration
        (beginRepetition 80 exampleBlank)).2.context.error_happened = false :=
  have h := degenerate_measurement_skips exampleConfig (fun _ => quietIteration) 0 0
    (beginRepetition 80 exampleBlank) (by decide) rfl
  ⟨h.2.1, h.2.2.1, h.2.2.2.2.1⟩

/-! ## The termination check -/

theorem wsub_ne_zero_of_lt (a b : Nat) (hab : b < a) (ha : a < 2 ^ 64) : wsub a b ≠ 0 := by
  unfold wsub
  omega

/-- C17: the termination check. After every folded iteration `k` (its test invocation
leaves the error flag clear and nonzero elapsed cycles), with `now` the reading taken at the
start of the iteration and `start_time` the time of the last improvement as this iteration
leaves it: the body ends in `break` if and only if
`(now - start_time) mod 2^64 > (max_seconds_to_run * cpu_frequency) mod 2^64`, strictly, and
in the next iteration otherwise; accordingly the loop stops after iteration `k` in the first
case and goes on with iteration `k + 1` in the second. With `max_seconds_to_run = 0` the
body ends in `break` exactly when the iteration sets no new minimum and `now` differs from
the time of the last improvement, in particular when `now` is strictly later. -/
theorem termination_check (config : RepetitionTesterTestConfig)
    (inputs : Nat → IterationInput) (fuel k : Nat) (t : RepetitionTester)
    (herr : (invokeTest (inputs k) t).context.error_happened = false)
    (hnz : (invokeTest (inputs k) t).context.iteration_value.CpuElapsed ≠ 0) :
    ((loopIteration config (inputs k) t).1 = LoopControl.break_loop ↔
        wmul config.max_seconds_to_run t.cpu_frequency <
          wsub (inputs k).current_time (loopIteration config (inputs k) t).2.context.start_time)
    ∧ ((loopIteration config (inputs k) t).1 ≠ LoopControl.break_loop →
        (loopIteration config (inputs k) t).1 = LoopControl.next_iteration)
    ∧ (wmul config.max_seconds_to_run t.cpu_frequency <
          wsub (inputs k).current_time (loopIteration config (inputs k) t).2.context.start_time →
        convergenceLoop config inputs (fuel + 1) k t =
          some (LoopControl.break_loop, (loopIteration config (inputs k) t).2, k + 1))
    ∧ (¬ wmul config.max_seconds_to_run t.cpu_frequency <
          wsub (inputs k).current_time (loopIteration config (inputs k) t).2.context.start_time →
        convergenceLoop config inputs (fuel + 1) k t =
          convergenceLoop config inputs fuel (k + 1) (loopIteration config (inputs k) t).2)
    ∧ (config.max_seconds_to_run = 0 →
        ((loopIteration config (inputs k) t).1 = LoopControl.break_loop ↔
          ¬ (invokeTest (inputs k) t).context.iteration_value.CpuElapsed
              < t.results.min.CpuElapsed
            ∧ wsub (inputs k).current_time t.context.start_time ≠ 0))
    ∧ (config.max_seconds_to_run = 0 →
        ¬ (invokeTest (inputs k) t).context.iteration_value.CpuElapsed
            < t.results.min.CpuElapsed →
        t.context.start_time < (inputs k).current_time → (inputs k).current_time < 2 ^ 64 →
        (loopIteration config (inputs k) t).1 = LoopControl.break_loop) := by
  have hclear : t.context.error_happened = false := by
    cases hc : t.context.error_happened with
    | false => rfl
    | true =>
      have := runTest_error_true (inputs k).calls { t with context := { t.context with
        iteration_value := RepetitionTesterTestValue.fill 0 } } hc
      rw [invokeTest, this] at herr
      cases herr
  rw [invokeTest_eq (inputs k) t hclear] at herr hnz ⊢
  simp only at herr hnz ⊢
  have hfold := loopIteration_fold config (inputs k) t hclear herr hnz
  have hctl := congrArg Prod.fst hfold
  have hst : (loopIteration config (inputs k) t).2.context.start_time =
      if (iterationValue (inputs k).calls).CpuElapsed < t.results.min.CpuElapsed
      then (inputs k).current_time else t.context.start_time := by
    rw [hfold]
  simp only at hctl
  rw [← hst] at hctl
  have hiff : (loopIteration config (inputs k) t).1 = LoopControl.break_loop ↔
      wmul config.max_seconds_to_run t.cpu_frequency <
        wsub (inputs k).current_time
          (loopIteration config (inputs k) t).2.context.start_time := by
    rw [hctl]
    by_cases hlt : wmul config.max_seconds_to_run t.cpu_frequency <
        wsub (inputs k).current_time (loopIteration config (inputs k) t).2.context.start_time
    · rw [if_pos hlt]
      exact ⟨fun _ => hlt, fun _ => rfl⟩
    · rw [if_neg hlt]
      exact ⟨fun h => (by cases h), fun h => absurd h hlt⟩
  have hzero : config.max_seconds_to_run = 0 →
      ((loopIteration config (inputs k) t).1 = LoopControl.break_loop ↔
        ¬ (iterationValue (inputs k).calls).CpuElapsed < t.results.min.CpuElapsed
          ∧ wsub (inputs k).current_time t.context.start_time ≠ 0) := by
    intro h0
    rw [hiff, hst, h0]
    have hT : wmul 0 t.cpu_frequency = 0 := by simp [wmul]
    rw [hT]
    by_cases hmin : (iterationValue (inputs k).calls).CpuElapsed < t.results.min.CpuElapsed
    · simp [hmin, wsub_self]
    · simp [hmin, Nat.pos_iff_ne_zero]
  refine ⟨hiff, ?_, ?_, ?_, hzero, ?_⟩
  · intro hne
    rw [hctl] at hne ⊢
    split
    · rename_i hlt
      rw [if_pos hlt] at hne
      exact absurd rfl hne
    · rfl
  · intro hlt
    exact convergenceLoop_succ_break config inputs fuel k t (hiff.2 hlt)
  · intro hnlt
    apply convergenceLoop_succ_next
    rw [hctl, if_neg hnlt]
  · intro h0 hmin hlater hu64
    exact (hzero h0).2 ⟨hmin, wsub_ne_zero_of_lt _ _ hlater hu64⟩

/-- C17 at iteration 2 of `exampleInputs` after two iterations: no new minimum, age 14
above the threshold 10. -/
theorem termination_check_witness :
    (loopIteration exampleConfig (exampleInputs 2)
        (loopIteration exampleConfig (exampleInputs 1)
          (loopIteration exampleConfig (exampleInputs 0)
            (beginRepetition 95 exampleBlank)).2).2).1 = LoopControl.break_loop ↔
      wmul exampleConfig.max_seconds_to_run 10 <
        wsub (exampleInputs 2).current_time
          (loopIteration exampleConfig (exampleInputs 2)
            (loopIteration exampleConfig (exampleInputs 1)
              (loopIteration exampleConfig (exampleInputs 0)
                (beginRepetition 95 exampleBlank)).2).2).2.context.start_time :=
  (termination_check exampleConfig exampleInputs 0 2
    (loopIteration exampleConfig (exampleInputs 1)
      (loopIteration exampleConfig (exampleInputs 0) (beginRepetition 95 exampleBlank)).2).2
    (by decide) (by decide)).1

/-! ## New minima and the first iteration -/

theorem iterationValue_CpuElapsed_lt (calls : List TestCall) :
    (iterationValue calls).CpuElapsed < 2 ^ 64 :=
  iterationValue_lt calls RepetitionTester.blank (by decide)

/-- C19: the convergence loop never stops on an iteration that set a new minimum: a folded
iteration whose elapsed cycles are below those of `min` resets `start_time` to its own
start reading, the age is 0 and the body ends in the next iteration. Consequently, when
the elapsed cycles of the first iteration of a repetition are below `2^64 - 1`: if that
iteration is folded, `min` and `max` both equal its metric vector (with iteration count 1)
after it, and every repetition that is left through the termination check, and so reaches
the summary, has folded at least two iterations. -/
theorem new_minimum_never_stops (config : RepetitionTesterTestConfig)
    (inputs : Nat → IterationInput) (now : Nat) (t0 : RepetitionTester)
    (hfirst : (iterationValue (inputs 0).calls).CpuElapsed < 2 ^ 64 - 1) :
    (∀ (k : Nat) (t : RepetitionTester),
        (invokeTest (inputs k) t).context.error_happened = false →
        (invokeTest (inputs k) t).context.iteration_value.CpuElapsed ≠ 0 →
        (invokeTest (inputs k) t).context.iteration_value.CpuElapsed
          < t.results.min.CpuElapsed →
        (loopIteration config (inputs k) t).1 = LoopControl.next_iteration
          ∧ (loopIteration config (inputs k) t).2.context.start_time = (inputs k).current_time
          ∧ wsub (inputs k).current_time
              (loopIteration config (inputs k) t).2.context.start_time = 0)
    ∧ (reportsError (inputs 0).calls = false →
        (iterationValue (inputs 0).calls).CpuElapsed ≠ 0 →
        (loopIteration config (inputs 0) (beginRepetition now t0)).2.results.min =
            { iterationValue (inputs 0).calls with TestCount := 1 }
          ∧ (loopIteration config (inputs 0) (beginRepetition now t0)).2.results.max =
            { iterationValue (inputs 0).calls with TestCount := 1 })
    ∧ (∀ (fuel : Nat) (t : RepetitionTester) (n : Nat),
        convergenceLoop config inputs fuel 0 (beginRepetition now t0) =
          some (LoopControl.break_loop, t, n) →
        2 ≤ n) := by
  have hnew : ∀ (k : Nat) (t : RepetitionTester), t.context.error_happened = false →
      reportsError (inputs k).calls = false →
      (iterationValue (inputs k).calls).CpuElapsed ≠ 0 →
      (iterationValue (inputs k).calls).CpuElapsed < t.results.min.CpuElapsed →
      (loopIteration config (inputs k) t).1 = LoopControl.next_iteration
        ∧ (loopIteration config (inputs k) t).2.context.start_time = (inputs k).current_time
        ∧ wsub (inputs k).current_time
            (loopIteration config (inputs k) t).2.context.start_time = 0 := by
    intro k t hclear hne hnz hmin
    have hfold := loopIteration_fold config (inputs k) t hclear hne hnz
    have hst : (loopIteration config (inputs k) t).2.context.start_time =
        (inputs k).current_time := by
      rw [hfold]
      exact if_pos hmin
    refine ⟨?_, hst, ?_⟩
    · rw [hfold]
      simp only [if_pos hmin, wsub_self, Nat.not_lt_zero, if_false]
    · rw [hst, wsub_self]
  have hminit : (beginRepetition now t0).results.min.CpuElapsed = 2 ^ 64 - 1 := rfl
  refine ⟨?_, ?_, ?_⟩
  · intro k t herr hnz hmin
    have hclear : t.context.error_happened = false := by
      cases hc : t.context.error_happened with
      | false => rfl
      | true =>
        have := runTest_error_true (inputs k).calls { t with context := { t.context with
          iteration_value := RepetitionTesterTestValue.fill 0 } } hc
        rw [invokeTest, this] at herr
        cases herr
    rw [invokeTest_eq (inputs k) t hclear] at herr hnz hmin
    exact hnew k t hclear herr hnz hmin
  · intro hne hnz
    rw [loopIteration_fold config (inputs 0) (beginRepetition now t0) rfl hne hnz]
    have hmax : (beginRepetition now t0).results.max.CpuElapsed
        < (iterationValue (inputs 0).calls).CpuElapsed :=
      Nat.pos_of_ne_zero hnz
    have hmin : (iterationValue (inputs 0).calls).CpuElapsed
        < (beginRepetition now t0).results.min.CpuElapsed := by
      rw [hminit]
      exact hfirst
    exact ⟨if_pos hmin, if_pos hmax⟩
  · intro fuel t n h
    have hn := (convergenceLoop_folded config inputs fuel 0 _ t n
      (folded_begin inputs now t0) h).2
    cases fuel with
    | zero => simp [convergenceLoop] at h
    | succ fuel =>
      by_contra hlt
      have hn1 : n = 1 := by omega
      subst hn1
      have hgoto : (loopIteration config (inputs 0) (beginRepetition now t0)).1
          ≠ LoopControl.goto_next_test_loop := by
        intro hg
        rw [convergenceLoop_succ_goto config inputs fuel 0 _ hg] at h
        cases h
      obtain ⟨hne, hnz⟩ :=
        loopIteration_not_goto config (inputs 0) (beginRepetition now t0) rfl hgoto
      have hnext := (hnew 0 (beginRepetition now t0) rfl hne hnz
        (by rw [hminit]; exact hfirst)).1
      rw [convergenceLoop_succ_next config inputs fuel 0 _ hnext] at h
      have hfold : Folded inputs 1 (loopIteration config (inputs 0)
          (beginRepetition now t0)).2 :=
        folded_step config inputs 0 _ (folded_begin inputs now t0) hgoto
      cases fuel with
      | zero => simp [convergenceLoop] at h
      | succ fuel =>
        have := (convergenceLoop_folded config inputs (fuel + 1) 1 _ t 1 hfold h).2
        omega

/-- C19 at the repetition of `exampleBlank` over `exampleInputs`: the first iteration
measures 50 cycles, and the loop is left after three iterations. -/
theorem new_minimum_never_stops_witness :
    (loopIteration exampleConfig (exampleInputs 0) (beginRepetition 95 exampleBlank)).2.results.min
        = { iterationValue (exampleInputs 0).calls with TestCount := 1 }
    ∧ (loopIteration exampleConfig (exampleInputs 0) (beginRepetition 95 exampleBlank)).2.results.max
        = { iterationValue (exampleInputs 0).calls with TestCount := 1 }
    ∧ 2 ≤ 3 :=
  have h := new_minimum_never_stops exampleConfig exampleInputs 95 exampleBlank (by decide)
  ⟨(h.2.1 rfl (by decide)).1, (h.2.1 rfl (by decide)).2,
    h.2.2 10 exampleFinal 3 (by decide)⟩

/-! ## Initialisation and defaults -/

theorem initializeTest_fields (test : RepetitionTesterTest) :
    (initializeTest test).name = test.name
    ∧ (initializeTest test).test = test.test
    ∧ (initializeTest test).print_params = test.print_params
    ∧ (initializeTest test).gen_params =
        (match test.gen_params with
         | none => some RepetitionTester_gen_empty_params
         | some g => some g)
    ∧ (initializeTest test).get_test_config =
        (match test.get_test_config with
         | none => some fun _ => RepetitionTesterTestConfig_default
         | some f => some f) := by
  obtain ⟨name, test_fn, gen, cfg, pr⟩ := test
  cases gen <;> cases cfg <;> exact ⟨rfl, rfl, rfl, rfl, rfl⟩

/-- C16: configuration defaults. `RepetitionTesterTestConfig_default` is 10 seconds, 1
repetition, printing of new minima and parameter caching enabled. For every non-empty list
of benchmarks that all have a name and a test function, `RepetitionTester_initialize`
succeeds, keeps the number and order of the benchmarks, starts at benchmark 0 with every
cache slot null and the given counter frequency, and for every benchmark: name, test
function and printer are unchanged; a missing configuration supplier becomes one that
returns the default, a supplied one is unchanged; a missing generator becomes one that
yields no parameters at every invocation, a supplied one is unchanged. -/
theorem initialize_defaults (tester : Engine) (cpu_frequency : Nat)
    (tests : List RepetitionTesterTest) (hne : tests ≠ [])
    (hvalid : ∀ test ∈ tests, test.name ≠ none ∧ test.test ≠ none) :
    RepetitionTesterTestConfig_default =
        { max_seconds_to_run := 10, repetition_count := 1, print_new_minimums := true,
          cache_params := true }
    ∧ ∃ e : Engine, RepetitionTester_initialize tester cpu_frequency tests = some e
      ∧ e.tests.length = tests.length
      ∧ e.current_test = 0
      ∧ e.tester.cpu_frequency = cpu_frequency
      ∧ (∀ i, e.test_params_cache i = none)
      ∧ ∀ (i : Nat) (test : RepetitionTesterTest), tests[i]? = some test →
          ∃ test1 : RepetitionTesterTest, e.tests[i]? = some test1
            ∧ test1.name = test.name
            ∧ test1.test = test.test
            ∧ test1.print_params = test.print_params
            ∧ (test.get_test_config = none →
                ∃ f, test1.get_test_config = some f ∧ f () = RepetitionTesterTestConfig_default)
            ∧ (test.get_test_config ≠ none → test1.get_test_config = test.get_test_config)
            ∧ (test.gen_params = none →
                ∃ g, test1.gen_params = some g ∧ ∀ n, g n = none)
            ∧ (test.gen_params ≠ none → test1.gen_params = test.gen_params) := by
  refine ⟨rfl, ?_⟩
  have hlen : ¬ tests.length = 0 := fun h => hne (List.length_eq_zero.1 h)
  have hall : tests.all (fun test => test.name.isSome && test.test.isSome) = true := by
    rw [List.all_eq_true]
    intro test ht
    obtain ⟨h1, h2⟩ := hvalid test ht
    simp [Option.isSome_iff_ne_none, h1, h2]
  have hinit : RepetitionTester_initialize tester cpu_frequency tests =
      some { tester with
        tester := { tester.tester with cpu_frequency := cpu_frequency },
        tests := tests.map initializeTest,
        current_test := 0,
        test_params_cache := fun _ => none } := by
    simp only [ RepetitionTester_initialize, hlen, hall, if_true, if_false]
  refine ⟨_, hinit, by simp, rfl, rfl, fun _ => rfl, ?_⟩
  intro i test hi
  refine ⟨initializeTest test, by simp [hi], ?_⟩
  obtain ⟨h1, h2, h3, h4, h5⟩ := initializeTest_fields test
  refine ⟨h1, h2, h3, ?_, ?_, ?_, ?_⟩
  · intro hc
    rw [hc] at h5
    exact ⟨_, h5, rfl⟩
  · intro hc
    cases hcfg : test.get_test_config with
    | none => exact absurd hcfg hc
    | some f => rw [h5, hcfg]
  · intro hg
    rw [hg] at h4
    exact ⟨_, h4, fun _ => rfl⟩
  · intro hg
    cases hgen : test.gen_params with
    | none => exact absurd hgen hg
    | some g => rw [h4, hgen]

/-- C16 at the registration of `plainTest` and `cachedTest`. -/
theorem initialize_defaults_witness :
    RepetitionTesterTestConfig_default =
        { max_seconds_to_run := 10, repetition_count := 1, print_new_minimums := true,
          cache_params := true }
    ∧ ∃ e : Engine, RepetitionTester_initialize Engine.zero 10 [plainTest, cachedTest] = some e
      ∧ e.tests.length = [plainTest, cachedTest].length
      ∧ e.current_test = 0
      ∧ e.tester.cpu_frequency = 10
      ∧ (∀ i, e.test_params_cache i = none)
      ∧ ∀ (i : Nat) (test : RepetitionTesterTest), [plainTest, cachedTest][i]? = some test →
          ∃ test1 : RepetitionTesterTest, e.tests[i]? = some test1
            ∧ test1.name = test.name
            ∧ test1.test = test.test
            ∧ test1.print_params = test.print_params
            ∧ (test.get_test_config = none →
                ∃ f, test1.get_test_config = some f ∧ f () = RepetitionTesterTestConfig_default)
            ∧ (test.get_test_config ≠ none → test1.get_test_config = test.get_test_config)
            ∧ (test.gen_params = none →
                ∃ g, test1.gen_params = some g ∧ ∀ n, g n = none)
            ∧ (test.gen_params ≠ none → test1.gen_params = test.gen_params) :=
  initialize_defaults Engine.zero 10 [plainTest, cachedTest] (by simp) (by
    intro test ht
    simp only [List.mem_cons, List.mem_singleton, List.not_mem_nil, or_false] at ht
    rcases ht with rfl | rfl <;> exact ⟨by simp [plainTest, cachedTest], by simp [plainTest, cachedTest]⟩)

/-! ## Parameter lookup -/

theorem genCount_append (i : Nat) (xs ys : List EngineEvent) :
    genCount i (xs ++ ys) = genCount i xs + genCount i ys := by
  simp [genCount, List.countP_append]

theorem genCount_gen_params (i j : Nat) (result : Params) :
    genCount i [EngineEvent.gen_params j result] = if j = i then 1 else 0 := by
  by_cases h : j = i <;> simp [genCount, List.countP_cons, h]

theorem internal_cached (e : Engine) (test : RepetitionTesterTest)
    (gen : RepetitionTesterTestGenParamsFn)
    (htest : RepetitionTester_get_current_test e = some test)
    (hgen : test.gen_params = some gen) (h : Nat)
    (hslot : e.test_params_cache e.current_test = some h) :
    RepetitionTester_get_params_for_test_internal e true = some (some h, e) := by
  simp [RepetitionTester_get_params_for_test_internal, htest, hgen, hslot]

theorem internal_null (e : Engine) (test : RepetitionTesterTest)
    (gen : RepetitionTesterTestGenParamsFn)
    (htest : RepetitionTester_get_current_test e = some test)
    (hgen : test.gen_params = some gen)
    (hslot : e.test_params_cache e.current_test = none) :
    RepetitionTester_get_params_for_test_internal e true =
      some (gen (genCount e.current_test e.trace),
        { e with
          test_params_cache := Function.update e.test_params_cache e.current_test
            (gen (genCount e.current_test e.trace)),
          trace := e.trace ++ [EngineEvent.gen_params e.current_test
            (gen (genCount e.current_test e.trace))] }) := by
  simp [RepetitionTester_get_params_for_test_internal, htest, hgen, hslot, invokeGenerator]

theorem internal_uncached (e : Engine) (test : RepetitionTesterTest)
    (gen : RepetitionTesterTestGenParamsFn)
    (htest : RepetitionTester_get_current_test e = some test)
    (hgen : test.gen_params = some gen) :
    RepetitionTester_get_params_for_test_internal e false =
      some (gen (genCount e.current_test e.trace),
        { e with
          trace := e.trace ++ [EngineEvent.gen_params e.current_test
            (gen (genCount e.current_test e.trace))] }) := by
  simp [RepetitionTester_get_params_for_test_internal, htest, hgen, invokeGenerator]

/-- What a lookup may change: the slot and the generator count of the current benchmark,
and the trace by generator events only. -/
theorem internal_frame (e : Engine) (use_cached : Bool) (r : Params × Engine)
    (h : RepetitionTester_get_params_for_test_internal e use_cached = some r) :
    r.2.tester = e.tester ∧ r.2.tests = e.tests ∧ r.2.current_test = e.current_test
      ∧ (∀ j, j ≠ e.current_test → r.2.test_params_cache j = e.test_params_cache j)
      ∧ (∀ j, j ≠ e.current_test → genCount j r.2.trace = genCount j e.trace) := by
  cases htest : RepetitionTester_get_current_test e with
  | none => simp [RepetitionTester_get_params_for_test_internal, htest] at h
  | some test =>
    cases hgen : test.gen_params with
    | none => simp [RepetitionTester_get_params_for_test_internal, htest, hgen] at h
    | some gen =>
      cases use_cached with
      | false =>
        rw [internal_uncached e test gen htest hgen] at h
        cases h
        refine ⟨rfl, rfl, rfl, fun _ _ => rfl, fun j hj => ?_⟩
        simp only [genCount_append, genCount_gen_params, if_neg (Ne.symm hj), Nat.add_zero]
      | true =>
        cases hslot : e.test_params_cache e.current_test with
        | some x =>
          rw [internal_cached e test gen htest hgen x hslot] at h
          cases h
          exact ⟨rfl, rfl, rfl, fun _ _ => rfl, fun _ _ => rfl⟩
        | none =>
          rw [internal_null e test gen htest hgen hslot] at h
          cases h
          refine ⟨rfl, rfl, rfl, fun j hj => ?_, fun j hj => ?_⟩
          · exact Function.update_noteq hj _ _
          · simp only [genCount_append, genCount_gen_params, if_neg (Ne.symm hj), Nat.add_zero]

/-- C20: cached parameter lookup is idempotent. For the current benchmark with generator
`gen`, with caching enabled: when the slot holds a non-null handle `h`, a lookup, internal
or through `RepetitionTester_get_params_for_test`, returns `h` and leaves the whole
engine, trace included, as it was, so the generator is not invoked; when the slot is null
the lookup invokes the generator, stores and returns its result, so that once the result
is a non-null `h` the next lookup returns `h` from the slot, whereas a null result leaves
the slot null with one more invocation counted, and the next lookup invokes the generator
again; and no lookup, cached or not, changes the slot of any other benchmark. -/
theorem cached_lookup_idempotent (e : Engine) (test : RepetitionTesterTest)
    (gen : RepetitionTesterTestGenParamsFn)
    (htest : RepetitionTester_get_current_test e = some test)
    (hgen : test.gen_params = some gen) :
    (∀ h : Nat, e.test_params_cache e.current_test = some h →
        RepetitionTester_get_params_for_test_internal e true = some (some h, e))
    ∧ (∀ (h : Nat) (config : RepetitionTesterTestConfig),
        RepetitionTester_get_current_config e = some config → config.cache_params = true →
        e.test_params_cache e.current_test = some h →
        RepetitionTester_get_params_for_test e = some (some h, e))
    ∧ (e.test_params_cache e.current_test = none →
        ∃ e1 : Engine,
          RepetitionTester_get_params_for_test_internal e true =
            some (gen (genCount e.current_test e.trace), e1)
          ∧ e1.test_params_cache e.current_test = gen (genCount e.current_test e.trace)
          ∧ genCount e.current_test e1.trace = genCount e.current_test e.trace + 1
          ∧ (∀ h : Nat, gen (genCount e.current_test e.trace) = some h →
              RepetitionTester_get_params_for_test_internal e1 true = some (some h, e1))
          ∧ (gen (genCount e.current_test e.trace) = none →
              ∃ e2 : Engine,
                RepetitionTester_get_params_for_test_internal e1 true =
                  some (gen (genCount e.current_test e.trace + 1), e2)
                ∧ genCount e.current_test e2.trace = genCount e.current_test e.trace + 2))
    ∧ (∀ (use_cached : Bool) (r : Params × Engine),
        RepetitionTester_get_params_for_test_internal e use_cached = some r →
        ∀ j, j ≠ e.current_test → r.2.test_params_cache j = e.test_params_cache j) := by
  refine ⟨fun h hslot => internal_cached e test gen htest hgen h hslot, ?_, ?_, ?_⟩
  · intro h config hcfg hcache hslot
    simp only [RepetitionTester_get_params_for_test, hcfg, hcache]
    exact internal_cached e test gen htest hgen h hslot
  · intro hslot
    have hnull := internal_null e test gen htest hgen hslot
    generalize hres : gen (genCount e.current_test e.trace) = res at hnull ⊢
    generalize he1 : ({ e with
        test_params_cache := Function.update e.test_params_cache e.current_test res,
        trace := e.trace ++ [EngineEvent.gen_params e.current_test res] } : Engine) = e1
      at hnull
    have hcur : e1.current_test = e.current_test := by rw [← he1]
    have htest1 : RepetitionTester_get_current_test e1 = some test := by
      rw [← he1]
      exact htest
    have hslot1 : e1.test_params_cache e.current_test = res := by
      rw [← he1]
      simp
    have hcount1 : genCount e.current_test e1.trace = genCount e.current_test e.trace + 1 := by
      rw [← he1]
      simp only [genCount_append, genCount_gen_params, if_true]
    refine ⟨e1, hnull, hslot1, hcount1, ?_, ?_⟩
    · intro h hh
      exact internal_cached e1 test gen htest1 hgen h (by rw [hcur, hslot1, hh])
    · intro hnone
      have h2 := internal_null e1 test gen htest1 hgen (by rw [hcur, hslot1, hnone])
      rw [hcur, hcount1] at h2
      refine ⟨_, h2, ?_⟩
      simp only [genCount_append, genCount_gen_params, if_true, hcount1]
  · intro use_cached r h
    exact (internal_frame e use_cached r h).2.2.2.1

/-- C20 at `cachedTest`, whose generator returns handle 7, with its slot still null. -/
theorem cached_lookup_idempotent_witness :
    ∃ e1 : Engine,
      RepetitionTester_get_params_for_test_internal (exampleEngine [cachedTest]) true =
        some (some 7, e1)
      ∧ e1.test_params_cache 0 = some 7
      ∧ genCount 0 e1.trace = 1
      ∧ RepetitionTester_get_params_for_test_internal e1 true = some (some 7, e1) :=
  have h := (cached_lookup_idempotent (exampleEngine [cachedTest]) (initializeTest cachedTest)
    (fun _ => some 7) rfl rfl).2.2.1 rfl
  h.elim fun e1 h1 => ⟨e1, h1.1, h1.2.1, h1.2.2.1, h1.2.2.2.1 7 rfl⟩

/-! ## Configuration inconsistency -/

/-- A lookup adds to the trace at most invocations of the generator of the current
benchmark. -/
theorem internal_trace (e : Engine) (use_cached : Bool) (r : Params × Engine)
    (h : RepetitionTester_get_params_for_test_internal e use_cached = some r) :
    ∃ gens : List EngineEvent, r.2.trace = e.trace ++ gens
      ∧ ∀ ev ∈ gens, ∃ res, ev = EngineEvent.gen_params e.current_test res := by
  cases htest : RepetitionTester_get_current_test e with
  | none => simp [RepetitionTester_get_params_for_test_internal, htest] at h
  | some test =>
    cases hgen : test.gen_params with
    | none => simp [RepetitionTester_get_params_for_test_internal, htest, hgen] at h
    | some gen =>
      cases use_cached with
      | false =>
        rw [internal_uncached e test gen htest hgen] at h
        cases h
        exact ⟨[_], rfl, fun ev hev => ⟨_, List.mem_singleton.1 hev⟩⟩
      | true =>
        cases hslot : e.test_params_cache e.current_test with
        | some x =>
          rw [internal_cached e test gen htest hgen x hslot] at h
          cases h
          exact ⟨[], (List.append_nil _).symm, fun ev hev => absurd hev (List.not_mem_nil ev)⟩
        | none =>
          rw [internal_null e test gen htest hgen hslot] at h
          cases h
          exact ⟨[_], rfl, fun ev hev => ⟨_, List.mem_singleton.1 hev⟩⟩

/-- C13: configuration inconsistency. Whenever the current benchmark has a parameter printer
and the parameter lookup at the start of repetition `r` yields null, the body of the
repetition loop ends at once with the `continue` of line 221: the results are untouched,
the error flag is set and the message of line 220 is reported for the benchmark, and apart
from invocations of its generator nothing else was done to the outside, so neither the
test function nor the printer was invoked; the repetition loop goes on with repetition
`r + 1`, and after the last repetition it ends normally, so that the engine goes on with
the next benchmark. -/
theorem configuration_inconsistency (platform : Platform) (fuel : Nat)
    (config : RepetitionTesterTestConfig) (r : Nat) (e e1 : Engine)
    (test : RepetitionTesterTest)
    (htest : RepetitionTester_get_current_test e = some test)
    (hprint : test.print_params ≠ none)
    (hparams : RepetitionTester_get_params_for_test_internal e config.cache_params =
      some (none, e1)) :
    Engine.repetition platform fuel config r e =
        some (RepetitionControl.next_repetition, e1.error printerWithoutParams)
    ∧ (e1.error printerWithoutParams).tester.results = e.tester.results
    ∧ (e1.error printerWithoutParams).tester.context.error_happened = true
    ∧ (∃ gens : List EngineEvent,
        (e1.error printerWithoutParams).trace =
          e.trace ++ gens ++ [EngineEvent.error e.current_test printerWithoutParams]
        ∧ ∀ ev ∈ gens, ∃ res, ev = EngineEvent.gen_params e.current_test res)
    ∧ (∀ remaining : Nat,
        Engine.repetitions platform fuel config (remaining + 1) r e =
          Engine.repetitions platform fuel config remaining (r + 1)
            (e1.error printerWithoutParams))
    ∧ Engine.repetitions platform fuel config 1 r e = some (e1.error printerWithoutParams) := by
  have hsome : test.print_params.isSome = true := Option.isSome_iff_ne_none.2 hprint
  have hrep : Engine.repetition platform fuel config r e =
      some (RepetitionControl.next_repetition, e1.error printerWithoutParams) := by
    simp only [Engine.repetition, htest, hparams, hsome, Option.isNone_none, Bool.and_self,
      if_true]
  obtain ⟨h1, _, h3, _, _⟩ := internal_frame e config.cache_params _ hparams
  obtain ⟨gens, hg1, hg2⟩ := internal_trace e config.cache_params _ hparams
  have hreps : ∀ remaining : Nat,
      Engine.repetitions platform fuel config (remaining + 1) r e =
        Engine.repetitions platform fuel config remaining (r + 1)
          (e1.error printerWithoutParams) := by
    intro remaining
    rw [Engine.repetitions, hrep]
  refine ⟨hrep, ?_, rfl, ⟨gens, ?_, hg2⟩, hreps, ?_⟩
  · show e1.tester.results = e.tester.results
    exact congrArg RepetitionTester.results h1
  · show e1.trace ++ [EngineEvent.error e1.current_test printerWithoutParams] = _
    simp only at hg1 h3
    rw [hg1, h3]
  · rw [hreps 0]
    rfl

/-- C13 at `printingTest`, which has a printer and the default generator. -/
theorem configuration_inconsistency_witness :
    Engine.repetition examplePlatform 10 twiceConfig 0 (exampleEngine [printingTest]) =
        some (RepetitionControl.next_repetition,
          ({ exampleEngine [printingTest] with
              test_params_cache := Function.update (fun _ => none) 0 none,
              trace := [EngineEvent.gen_params 0 none] } : Engine).error printerWithoutParams)
    ∧ (({ exampleEngine [printingTest] with
              test_params_cache := Function.update (fun _ => none) 0 none,
              trace := [EngineEvent.gen_params 0 none] } : Engine).error
            printerWithoutParams).trace =
        [EngineEvent.gen_params 0 none, EngineEvent.error 0 printerWithoutParams] :=
  ⟨(configuration_inconsistency examplePlatform 10 twiceConfig 0 (exampleEngine [printingTest])
      ({ exampleEngine [printingTest] with
          test_params_cache := Function.update (fun _ => none) 0 none,
          trace := [EngineEvent.gen_params 0 none] } : Engine)
      (initializeTest printingTest) rfl (by simp [initializeTest, printingTest, steadyTest,
        plainTest]) rfl).1,
    rfl⟩

/-! ## The engine and the context -/

theorem get_params_frame (e : Engine) (r : Params × Engine)
    (h : RepetitionTester_get_params_for_test e = some r) :
    r.2.tester = e.tester ∧ r.2.tests = e.tests ∧ r.2.current_test = e.current_test
      ∧ (∀ j, j ≠ e.current_test → r.2.test_params_cache j = e.test_params_cache j)
      ∧ (∀ j, j ≠ e.current_test → genCount j r.2.trace = genCount j e.trace) := by
  unfold RepetitionTester_get_params_for_test at h
  cases hc : RepetitionTester_get_current_config e with
  | none => simp [hc] at h
  | some config =>
    simp only [hc] at h
    exact internal_frame e config.cache_params r h

theorem perform_frame (c : TestCall) (e e1 : Engine) (h : c.perform e = some e1) :
    e1.tester = c.apply e.tester ∧ e1.tests = e.tests ∧ e1.current_test = e.current_test := by
  cases c with
  | begin_time tsc faults => cases h; exact ⟨rfl, rfl, rfl⟩
  | end_time tsc faults => cases h; exact ⟨rfl, rfl, rfl⟩
  | bytes_processed bytes => cases h; exact ⟨rfl, rfl, rfl⟩
  | error message => cases h; exact ⟨rfl, rfl, rfl⟩
  | get_params =>
    simp only [TestCall.perform] at h
    cases hl : RepetitionTester_get_params_for_test e with
    | none => simp [hl] at h
    | some r =>
      simp only [hl, Option.some.injEq] at h
      subst h
      obtain ⟨h1, h2, h3, _, _⟩ := get_params_frame e r hl
      exact ⟨h1, h2, h3⟩

theorem performCalls_frame (calls : List TestCall) :
    ∀ e e1 : Engine, performCalls calls e = some e1 →
      e1.tester = runTest calls e.tester ∧ e1.tests = e.tests
        ∧ e1.current_test = e.current_test := by
  induction calls with
  | nil =>
    intro e e1 h
    cases h
    exact ⟨rfl, rfl, rfl⟩
  | cons c cs ih =>
    intro e e1 h
    simp only [performCalls] at h
    cases hp : c.perform e with
    | none => simp [hp] at h
    | some e2 =>
      simp only [hp] at h
      obtain ⟨h1, h2, h3⟩ := ih e2 e1 h
      obtain ⟨g1, g2, g3⟩ := perform_frame c e e2 hp
      refine ⟨?_, h2.trans g2, h3.trans g3⟩
      rw [h1, g1]
      rfl

/-- On the context and the results, an iteration of the engine is `loopIteration`. -/
theorem iteration_tester (platform : Platform) (config : RepetitionTesterTestConfig)
    (test : RepetitionTesterTestFn) (r k : Nat) (e : Engine) (out : LoopControl × Engine)
    (h : Engine.iteration platform config test r k e = some out) :
    (out.1, out.2.tester) =
        loopIteration config
          { current_time := platform.iteration_reading e.current_test r k, calls := test r k }
          e.tester
      ∧ out.2.tests = e.tests ∧ out.2.current_test = e.current_test := by
  unfold Engine.iteration at h
  simp only at h
  cases hp : performCalls (test r k)
      { tester := { e.tester with context := { e.tester.context with
          iteration_value := RepetitionTesterTestValue.fill 0 } },
        tests := e.tests, current_test := e.current_test,
        test_params_cache := e.test_params_cache,
        trace := e.trace ++ [EngineEvent.test e.current_test r k] } with
  | none => simp [hp] at h
  | some e3 =>
    simp only [hp] at h
    obtain ⟨h1, h2, h3⟩ := performCalls_frame _ _ _ hp
    have hloop : loopIteration config
        { current_time := platform.iteration_reading e.current_test r k, calls := test r k }
        e.tester = afterTest config (platform.iteration_reading e.current_test r k) e3.tester := by
      rw [h1]
      rfl
    rw [hloop]
    cases hc : (afterTest config (platform.iteration_reading e.current_test r k) e3.tester).1 with
    | next_iteration =>
      simp only [hc, Option.some.injEq] at h
      subst h
      exact ⟨Prod.ext hc.symm rfl, h2, h3⟩
    | break_loop =>
      simp only [hc, Option.some.injEq] at h
      subst h
      exact ⟨Prod.ext hc.symm rfl, h2, h3⟩
    | goto_next_test_loop =>
      simp only [hc] at h
      split at h
      · simp only [Option.some.injEq] at h
        subst h
        exact ⟨Prod.ext hc.symm rfl, h2, h3⟩
      · simp only [Option.some.injEq] at h
        subst h
        exact ⟨Prod.ext hc.symm rfl, h2, h3⟩

theorem invokeTest_error (input : IterationInput) (t : RepetitionTester)
    (h : reportsError input.calls = true) :
    (invokeTest input t).context.error_happened = true := by
  cases hc : t.context.error_happened with
  | true => exact runTest_error_true input.calls _ hc
  | false =>
    have := runTest_error_congr input.calls
      { t with context := { t.context with iteration_value := RepetitionTesterTestValue.fill 0 } }
      RepetitionTester.blank hc
    exact this.trans h

theorem loopIteration_error (config : RepetitionTesterTestConfig) (input : IterationInput)
    (t : RepetitionTester) (h : reportsError input.calls = true) :
    (loopIteration config input t).1 = LoopControl.goto_next_test_loop
      ∧ (loopIteration config input t).2.context.error_happened = true := by
  unfold loopIteration afterTest
  simp only [invokeTest_error input t h, if_true]
  exact ⟨trivial, rfl⟩

/-! ## Failure semantics -/

/-- C12, as stated, fails for `failingTest` followed by `steadyTest`: benchmark 0 is
configured with two repetitions and its test function reports an error in the first
iteration of repetition 0; the run then goes straight to benchmark 1, and repetition 1 of
benchmark 0 is never started. -/
theorem failure_semantics_counterexample :
    RepetitionTester_get_current_config (exampleEngine [failingTest, steadyTest]) =
      some twiceConfig
    ∧ twiceConfig.repetition_count = 2
    ∧ (RepetitionTester_run examplePlatform 10 (exampleEngine [failingTest, steadyTest])).map
        (fun e => e.trace) =
      some [EngineEvent.gen_params 0 none, EngineEvent.banner 0 0, EngineEvent.test 0 0 0,
        EngineEvent.error 0 "boom", EngineEvent.error 0 "Aborting due to error",
        EngineEvent.gen_params 1 none, EngineEvent.banner 1 0, EngineEvent.test 1 0 0,
        EngineEvent.test 1 0 1, EngineEvent.results 1 0,
        EngineEvent.gen_params 1 none, EngineEvent.banner 1 1, EngineEvent.test 1 1 0,
        EngineEvent.test 1 1 1, EngineEvent.results 1 1] := by
  refine ⟨rfl, rfl, ?_⟩
  decide

/-- C12, amended: failure semantics. An iteration in which the test function reports an
error ends in `goto next_test_loop` with the error flag set. When benchmark `i` has reached
repetition `r` with `remaining + 1` repetitions to go, its parameters are resolved without
a configuration error, and the convergence loop of repetition `r` is left through
`goto next_test_loop` in state `e2`, then the body of the repetition loop is left for the
label `next_test_loop` without printing a summary, the repetition loop ends in `e2`
whatever number of repetitions remains, so no further repetition of benchmark `i` is run,
and the engine proceeds to benchmark `i + 1` from `e2`. -/
theorem error_abandons_benchmark (platform : Platform) (fuel n i r remaining : Nat)
    (config : RepetitionTesterTestConfig) (e0 e e1 e2 : Engine) (test : RepetitionTesterTest)
    (test_fn : RepetitionTesterTestFn) (params : Params)
    (hconfig : RepetitionTester_get_current_config { e0 with current_test := i } = some config)
    (hreach : Engine.repetitions platform fuel config config.repetition_count 0
        { e0 with current_test := i } =
      Engine.repetitions platform fuel config (remaining + 1) r e)
    (htest : RepetitionTester_get_current_test e = some test)
    (hfn : test.test = some test_fn)
    (hparams : RepetitionTester_get_params_for_test_internal e config.cache_params =
      some (params, e1))
    (hok : (test.print_params.isSome && params.isNone) = false)
    (hloop : Engine.convergenceLoop platform config test_fn r fuel 0
        (Engine.beginRepetition platform test params r e1) =
      some (LoopControl.goto_next_test_loop, e2)) :
    (∀ (k : Nat) (e3 : Engine) (out : LoopControl × Engine),
        reportsError (test_fn r k) = true →
        Engine.iteration platform config test_fn r k e3 = some out →
        out.1 = LoopControl.goto_next_test_loop
          ∧ out.2.tester.context.error_happened = true)
    ∧ Engine.repetition platform fuel config r e = some (RepetitionControl.next_test_loop, e2)
    ∧ Engine.repetitions platform fuel config (remaining + 1) r e = some e2
    ∧ Engine.benchmark platform fuel i e0 = some e2
    ∧ Engine.benchmarks platform fuel (n + 1) i e0 =
        Engine.benchmarks platform fuel n (i + 1) e2 := by
  have hrep : Engine.repetition platform fuel config r e =
      some (RepetitionControl.next_test_loop, e2) := by
    simp only [Engine.repetition, htest, hparams, hok, hfn, hloop, Bool.false_eq_true, if_false]
  have hreps : Engine.repetitions platform fuel config (remaining + 1) r e = some e2 := by
    rw [Engine.repetitions, hrep]
  have hbench : Engine.benchmark platform fuel i e0 = some e2 := by
    simp only [Engine.benchmark, hconfig]
    rw [hreach, hreps]
  refine ⟨?_, hrep, hreps, hbench, ?_⟩
  · intro k e3 out herr hit
    obtain ⟨h1, _, _⟩ := iteration_tester platform config test_fn r k e3 out hit
    obtain ⟨g1, g2⟩ := loopIteration_error config
      { current_time := platform.iteration_reading e3.current_test r k, calls := test_fn r k }
      e3.tester herr
    rw [← h1] at g1 g2
    exact ⟨g1, g2⟩
  · rw [Engine.benchmarks, hbench]

/-- C12, amended, at `failingTest` followed by `steadyTest`: the error in the first
iteration of repetition 0 ends benchmark 0 with one of its two repetitions left. -/
theorem error_abandons_benchmark_witness :
    Engine.repetitions examplePlatform 10 twiceConfig 2 0
        (exampleEngine [failingTest, steadyTest]) = some failingEnd
    ∧ Engine.benchmark examplePlatform 10 0 (exampleEngine [failingTest, steadyTest]) =
        some failingEnd
    ∧ Engine.benchmarks examplePlatform 10 2 0 (exampleEngine [failingTest, steadyTest]) =
        Engine.benchmarks examplePlatform 10 1 1 failingEnd :=
  have h := error_abandons_benchmark examplePlatform 10 1 0 0 1 twiceConfig
    (exampleEngine [failingTest, steadyTest]) (exampleEngine [failingTest, steadyTest])
    failingLookup failingEnd (initializeTest failingTest) (fun _ _ => [TestCall.error "boom"])
    none rfl rfl rfl rfl rfl rfl rfl
  ⟨h.2.2.1, h.2.2.2.1, h.2.2.2.2⟩

/-! ## Generator invocations over a run -/

theorem keep_refl (i : Nat) (e : Engine) : Keep i e e := ⟨rfl, rfl, rfl⟩

theorem keep_trans (i : Nat) (e e1 e2 : Engine) (h1 : Keep i e e1) (h2 : Keep i e1 e2) :
    Keep i e e2 :=
  ⟨h2.1.trans h1.1, h2.2.1.trans h1.2.1, h2.2.2.trans h1.2.2⟩

theorem config_congr (e e1 : Engine) (ht : e1.tests = e.tests)
    (hc : e1.current_test = e.current_test) :
    RepetitionTester_get_current_config e1 = RepetitionTester_get_current_config e := by
  simp only [RepetitionTester_get_current_config, RepetitionTester_get_current_test, ht, hc]

theorem settled_of_keep (i : Nat) (e e1 : Engine) (hk : Keep i e e1)
    (hc : e1.current_test = e.current_test) (hs : Settled i e) : Settled i e1 := by
  intro hcur
  obtain ⟨⟨h, hh⟩, hcfg⟩ := hs (hc ▸ hcur)
  refine ⟨⟨h, hk.1.trans hh⟩, fun config hcon => hcfg config ?_⟩
  rw [← config_congr e e1 hk.2.2 hc]
  exact hcon

theorem genCount_other (i : Nat) (ev : EngineEvent)
    (h : ∀ res, ev ≠ EngineEvent.gen_params i res) : genCount i [ev] = 0 := by
  cases ev with
  | gen_params j res =>
    have hj : j ≠ i := fun hji => h res (by rw [hji])
    simp [genCount, hj]
  | error j m => rfl
  | banner j r => rfl
  | print_params j p => rfl
  | test j r k => rfl
  | skipped j => rfl
  | results j r => rfl

theorem error_keep (i : Nat) (e : Engine) (message : String) : Keep i e (e.error message) := by
  refine ⟨rfl, ?_, rfl⟩
  show genCount i (e.trace ++ [EngineEvent.error e.current_test message]) = _
  rw [genCount_append, genCount_other i _ (fun _ h => by cases h), Nat.add_zero]

/-- A lookup, cached or not, changes nothing for a benchmark that is settled. -/
theorem internal_keep (i : Nat) (e : Engine) (use_cached : Bool) (r : Params × Engine)
    (hs : Settled i e) (huse : e.current_test = i → use_cached = true)
    (h : RepetitionTester_get_params_for_test_internal e use_cached = some r) :
    Keep i e r.2 ∧ r.2.current_test = e.current_test := by
  obtain ⟨_, h2, h3, h4, h5⟩ := internal_frame e use_cached r h
  by_cases hcur : e.current_test = i
  · obtain ⟨⟨x, hx⟩, _⟩ := hs hcur
    rw [huse hcur] at h
    cases htest : RepetitionTester_get_current_test e with
    | none => simp [RepetitionTester_get_params_for_test_internal, htest] at h
    | some test =>
      cases hgen : test.gen_params with
      | none => simp [RepetitionTester_get_params_for_test_internal, htest, hgen] at h
      | some gen =>
        rw [internal_cached e test gen htest hgen x (by rw [hcur]; exact hx)] at h
        cases h
        exact ⟨keep_refl i e, rfl⟩
  · have hne : i ≠ e.current_test := fun hh => hcur hh.symm
    exact ⟨⟨h4 i hne, h5 i hne, h2⟩, h3⟩

theorem get_params_keep (i : Nat) (e : Engine) (r : Params × Engine) (hs : Settled i e)
    (h : RepetitionTester_get_params_for_test e = some r) :
    Keep i e r.2 ∧ r.2.current_test = e.current_test := by
  unfold RepetitionTester_get_params_for_test at h
  cases hc : RepetitionTester_get_current_config e with
  | none => simp [hc] at h
  | some config =>
    simp only [hc] at h
    exact internal_keep i e config.cache_params r hs (fun hcur => (hs hcur).2 config hc) h

theorem perform_keep (i : Nat) (c : TestCall) (e e1 : Engine) (hs : Settled i e)
    (h : c.perform e = some e1) : Keep i e e1 ∧ e1.current_test = e.current_test := by
  cases c with
  | begin_time tsc faults => cases h; exact ⟨keep_refl i _, rfl⟩
  | end_time tsc faults => cases h; exact ⟨keep_refl i _, rfl⟩
  | bytes_processed bytes => cases h; exact ⟨keep_refl i _, rfl⟩
  | error message => cases h; exact ⟨error_keep i e message, rfl⟩
  | get_params =>
    simp only [TestCall.perform] at h
    cases hl : RepetitionTester_get_params_for_test e with
    | none => simp [hl] at h
    | some r =>
      simp only [hl, Option.some.injEq] at h
      subst h
      exact get_params_keep i e r hs hl

theorem performCalls_keep (i : Nat) (calls : List TestCall) :
    ∀ e e1 : Engine, Settled i e → performCalls calls e = some e1 →
      Keep i e e1 ∧ e1.current_test = e.current_test := by
  induction calls with
  | nil =>
    intro e e1 _ h
    cases h
    exact ⟨keep_refl i e, rfl⟩
  | cons c cs ih =>
    intro e e1 hs h
    simp only [performCalls] at h
    cases hp : c.perform e with
    | none => simp [hp] at h
    | some e2 =>
      simp only [hp] at h
      obtain ⟨k1, c1⟩ := perform_keep i c e e2 hs hp
      obtain ⟨k2, c2⟩ := ih e2 e1 (settled_of_keep i e e2 k1 c1 hs) h
      exact ⟨keep_trans i e e2 e1 k1 k2, c2.trans c1⟩

theorem append_keep (i : Nat) (e e1 : Engine) (evs : List EngineEvent)
    (hc : e1.test_params_cache = e.test_params_cache) (ht : e1.tests = e.tests)
    (htr : e1.trace = e.trace ++ evs)
    (hev : ∀ ev ∈ evs, ∀ res, ev ≠ EngineEvent.gen_params i res) : Keep i e e1 := by
  refine ⟨by rw [hc], ?_, ht⟩
  rw [htr, genCount_append]
  have hz : genCount i evs = 0 := by
    unfold genCount
    rw [List.countP_eq_zero]
    intro ev hmem
    cases ev with
    | gen_params j res =>
      have hj : j ≠ i := fun hji => hev _ hmem res (by rw [hji])
      simp [hj]
    | error j m => simp
    | banner j r => simp
    | print_params j p => simp
    | test j r k => simp
    | skipped j => simp
    | results j r => simp
  rw [hz, Nat.add_zero]

theorem enter_keep (i : Nat) (e : Engine) (t : RepetitionTester) (ev : EngineEvent)
    (hev : ∀ res, ev ≠ EngineEvent.gen_params i res) :
    Keep i e { e with tester := t, trace := e.trace ++ [ev] } :=
  append_keep i e _ [ev] rfl rfl rfl (fun ev1 hmem res heq => by
    rw [List.mem_singleton] at hmem
    rw [hmem] at heq
    exact hev res heq)

theorem iteration_keep (i : Nat) (platform : Platform) (config : RepetitionTesterTestConfig)
    (test : RepetitionTesterTestFn) (r k : Nat) (e : Engine) (out : LoopControl × Engine)
    (hs : Settled i e) (h : Engine.iteration platform config test r k e = some out) :
    Keep i e out.2 ∧ out.2.current_test = e.current_test := by
  unfold Engine.iteration at h
  simp only at h
  cases hp : performCalls (test r k)
      { tester := { e.tester with context := { e.tester.context with
          iteration_value := RepetitionTesterTestValue.fill 0 } },
        tests := e.tests, current_test := e.current_test,
        test_params_cache := e.test_params_cache,
        trace := e.trace ++ [EngineEvent.test e.current_test r k] } with
  | none => simp [hp] at h
  | some e3 =>
    simp only [hp] at h
    have k2 := enter_keep i e { e.tester with context := { e.tester.context with
      iteration_value := RepetitionTesterTestValue.fill 0 } }
      (EngineEvent.test e.current_test r k) (fun _ heq => by cases heq)
    obtain ⟨k3, c3⟩ := performCalls_keep i (test r k) _ e3
      (settled_of_keep i e _ k2 rfl hs) hp
    have c2 : e3.current_test = e.current_test := c3
    have k13 := keep_trans i e _ e3 k2 k3
    have hfin : ∀ evs : List EngineEvent,
        (∀ ev ∈ evs, ∀ res, ev ≠ EngineEvent.gen_params i res) →
        Keep i e
          { tester := (afterTest config (platform.iteration_reading e.current_test r k)
              e3.tester).2,
            tests := e3.tests, current_test := e3.current_test,
            test_params_cache := e3.test_params_cache, trace := e3.trace ++ evs } := by
      intro evs hevs
      exact keep_trans i e e3 _ k13 (append_keep i e3 _ evs rfl rfl rfl hevs)
    cases hc : (afterTest config (platform.iteration_reading e.current_test r k) e3.tester).1 with
    | next_iteration =>
      simp only [hc, Option.some.injEq] at h
      subst h
      have := hfin [] (fun ev hev => absurd hev (List.not_mem_nil ev))
      rw [List.append_nil] at this
      exact ⟨this, c2⟩
    | break_loop =>
      simp only [hc, Option.some.injEq] at h
      subst h
      have := hfin [] (fun ev hev => absurd hev (List.not_mem_nil ev))
      rw [List.append_nil] at this
      exact ⟨this, c2⟩
    | goto_next_test_loop =>
      simp only [hc] at h
      split at h
      · simp only [Option.some.injEq] at h
        subst h
        exact ⟨hfin _ (fun ev hev res heq => by
          rw [List.mem_singleton] at hev
          rw [hev] at heq
          cases heq), c2⟩
      · simp only [Option.some.injEq] at h
        subst h
        exact ⟨hfin _ (fun ev hev res heq => by
          rw [List.mem_singleton] at hev
          rw [hev] at heq
          cases heq), c2⟩

theorem engineLoop_keep (i : Nat) (platform : Platform) (config : RepetitionTesterTestConfig)
    (test : RepetitionTesterTestFn) (r fuel : Nat) :
    ∀ (k : Nat) (e : Engine) (out : LoopControl × Engine), Settled i e →
      Engine.convergenceLoop platform config test r fuel k e = some out →
      Keep i e out.2 ∧ out.2.current_test = e.current_test := by
  induction fuel with
  | zero =>
    intro k e out _ h
    simp [Engine.convergenceLoop] at h
  | succ fuel ih =>
    intro k e out hs h
    rw [Engine.convergenceLoop] at h
    cases hit : Engine.iteration platform config test r k e with
    | none => simp [hit] at h
    | some res =>
      obtain ⟨c, e1⟩ := res
      obtain ⟨k1, c1⟩ := iteration_keep i platform config test r k e (c, e1) hs hit
      cases c with
      | next_iteration =>
        simp only [hit] at h
        obtain ⟨k2, c2⟩ := ih (k + 1) e1 out (settled_of_keep i e e1 k1 c1 hs) h
        exact ⟨keep_trans i e e1 out.2 k1 k2, c2.trans c1⟩
      | break_loop =>
        simp only [hit, Option.some.injEq] at h
        subst h
        exact ⟨k1, c1⟩
      | goto_next_test_loop =>
        simp only [hit, Option.some.injEq] at h
        subst h
        exact ⟨k1, c1⟩

theorem engineBegin_keep (i : Nat) (platform : Platform) (test : RepetitionTesterTest)
    (params : Params) (r : Nat) (e : Engine) :
    Keep i e (Engine.beginRepetition platform test params r e) := by
  unfold Engine.beginRepetition
  refine append_keep i e _ _ rfl rfl (List.append_assoc _ _ _) ?_
  intro ev hmem res heq
  rw [List.mem_append, List.mem_singleton] at hmem
  rcases hmem with hb | hp
  · rw [hb] at heq
    cases heq
  · cases hpr : test.print_params with
    | none =>
      rw [hpr] at hp
      exact absurd hp (List.not_mem_nil ev)
    | some f =>
      rw [hpr, List.mem_singleton] at hp
      rw [hp] at heq
      cases heq

/-- After the lookup at its start, a repetition changes nothing for a settled benchmark. -/
theorem repetition_after_lookup (i : Nat) (platform : Platform) (fuel : Nat)
    (config : RepetitionTesterTestConfig) (r : Nat) (e e1 : Engine) (params : Params)
    (out : RepetitionControl × Engine)
    (hparams : RepetitionTester_get_params_for_test_internal e config.cache_params =
      some (params, e1))
    (hs : Settled i e1) (h : Engine.repetition platform fuel config r e = some out) :
    Keep i e1 out.2 ∧ out.2.current_test = e1.current_test := by
  unfold Engine.repetition at h
  cases htest : RepetitionTester_get_current_test e with
  | none => simp [htest] at h
  | some test =>
    simp only [htest, hparams] at h
    split at h
    · simp only [Option.some.injEq] at h
      subst h
      exact ⟨error_keep i e1 _, rfl⟩
    · have kb := engineBegin_keep i platform test params r e1
      have cb : (Engine.beginRepetition platform test params r e1).current_test
          = e1.current_test := rfl
      cases hfn : test.test with
      | none => simp [hfn] at h
      | some test_fn =>
        simp only [hfn] at h
        cases hloop : Engine.convergenceLoop platform config test_fn r fuel 0
            (Engine.beginRepetition platform test params r e1) with
        | none => simp [hloop] at h
        | some res =>
          obtain ⟨c, e3⟩ := res
          obtain ⟨k3, c3⟩ := engineLoop_keep i platform config test_fn r fuel 0 _ (c, e3)
            (settled_of_keep i e1 _ kb cb hs) hloop
          have k13 := keep_trans i e1 _ e3 kb k3
          cases c with
          | break_loop =>
            simp only [hloop, Option.some.injEq] at h
            subst h
            refine ⟨keep_trans i e1 e3 _ k13 (append_keep i e3 _
              [EngineEvent.results e3.current_test r] rfl rfl rfl ?_), c3.trans cb⟩
            intro ev hmem res heq
            rw [List.mem_singleton] at hmem
            rw [hmem] at heq
            cases heq
          | next_iteration =>
            simp only [hloop, Option.some.injEq] at h
            subst h
            exact ⟨k13, c3.trans cb⟩
          | goto_next_test_loop =>
            simp only [hloop, Option.some.injEq] at h
            subst h
            exact ⟨k13, c3.trans cb⟩

theorem repetition_keep (i : Nat) (platform : Platform) (fuel : Nat)
    (config : RepetitionTesterTestConfig) (r : Nat) (e : Engine)
    (out : RepetitionControl × Engine)
    (hcfg : RepetitionTester_get_current_config e = some config) (hs : Settled i e)
    (h : Engine.repetition platform fuel config r e = some out) :
    Keep i e out.2 ∧ out.2.current_test = e.current_test := by
  cases hparams : RepetitionTester_get_params_for_test_internal e config.cache_params with
  | none =>
    unfold Engine.repetition at h
    cases htest : RepetitionTester_get_current_test e with
    | none => simp [htest] at h
    | some test => simp [htest, hparams] at h
  | some res =>
    obtain ⟨params, e1⟩ := res
    obtain ⟨k1, c1⟩ := internal_keep i e config.cache_params (params, e1) hs
      (fun hcur => (hs hcur).2 config hcfg) hparams
    obtain ⟨k2, c2⟩ := repetition_after_lookup i platform fuel config r e e1 params out
      hparams (settled_of_keep i e e1 k1 c1 hs) h
    exact ⟨keep_trans i e e1 out.2 k1 k2, c2.trans c1⟩

theorem repetitions_keep (i : Nat) (platform : Platform) (fuel : Nat)
    (config : RepetitionTesterTestConfig) (remaining : Nat) :
    ∀ (r : Nat) (e e1 : Engine), RepetitionTester_get_current_config e = some config →
      Settled i e → Engine.repetitions platform fuel config remaining r e = some e1 →
      Keep i e e1 := by
  induction remaining with
  | zero =>
    intro r e e1 _ _ h
    simp only [Engine.repetitions, Option.some.injEq] at h
    subst h
    exact keep_refl i e
  | succ remaining ih =>
    intro r e e1 hcfg hs h
    rw [Engine.repetitions] at h
    cases hrep : Engine.repetition platform fuel config r e with
    | none => simp [hrep] at h
    | some res =>
      obtain ⟨c, e2⟩ := res
      obtain ⟨k2, c2⟩ := repetition_keep i platform fuel config r e (c, e2) hcfg hs hrep
      cases c with
      | next_repetition =>
        simp only [hrep] at h
        have hcfg2 : RepetitionTester_get_current_config e2 = some config := by
          rw [config_congr e e2 k2.2.2 c2]
          exact hcfg
        exact keep_trans i e e2 e1 k2
          (ih (r + 1) e2 e1 hcfg2 (settled_of_keep i e e2 k2 c2 hs) h)
      | next_test_loop =>
        simp only [hrep, Option.some.injEq] at h
        subst h
        exact k2

/-- A benchmark other than `i` changes nothing for benchmark `i`. -/
theorem benchmark_keep (i j : Nat) (platform : Platform) (fuel : Nat) (e e1 : Engine)
    (hij : j ≠ i) (h : Engine.benchmark platform fuel j e = some e1) : Keep i e e1 := by
  unfold Engine.benchmark at h
  simp only at h
  cases hcfg : RepetitionTester_get_current_config { e with current_test := j } with
  | none => simp [hcfg] at h
  | some config =>
    simp only [hcfg] at h
    have hs : Settled i { e with current_test := j } := fun hcur => absurd hcur hij
    have hk : Keep i e { e with current_test := j } := ⟨rfl, rfl, rfl⟩
    exact keep_trans i e { e with current_test := j } e1 hk
      (repetitions_keep i platform fuel config config.repetition_count 0
        { e with current_test := j } e1 hcfg hs h)

theorem benchmarks_keep (i : Nat) (platform : Platform) (fuel : Nat) (remaining : Nat) :
    ∀ (j : Nat) (e e1 : Engine), i < j →
      Engine.benchmarks platform fuel remaining j e = some e1 → Keep i e e1 := by
  induction remaining with
  | zero =>
    intro j e e1 _ h
    simp only [Engine.benchmarks, Option.some.injEq] at h
    subst h
    exact keep_refl i e
  | succ remaining ih =>
    intro j e e1 hij h
    rw [Engine.benchmarks] at h
    cases hb : Engine.benchmark platform fuel j e with
    | none => simp [hb] at h
    | some e2 =>
      simp only [hb] at h
      exact keep_trans i e e2 e1 (benchmark_keep i j platform fuel e e2 (by omega) hb)
        (ih (j + 1) e2 e1 (by omega) h)

/-- The benchmark `i` itself: with caching enabled, at least one repetition and a first
generator result `h`, an empty slot is filled by the lookup of its first repetition, and
the generator is invoked exactly once. -/
theorem benchmark_first (i : Nat) (platform : Platform) (fuel : Nat) (e e1 : Engine)
    (test : RepetitionTesterTest) (gen : RepetitionTesterTestGenParamsFn)
    (cfg : RepetitionTesterTestConfigFn) (h : Nat)
    (hti : e.tests[i]? = some test) (hgen : test.gen_params = some gen)
    (hcfg : test.get_test_config = some cfg) (hcache : (cfg ()).cache_params = true)
    (hcount : (cfg ()).repetition_count ≠ 0) (hfirst : gen 0 = some h)
    (hslot : e.test_params_cache i = none) (hzero : genCount i e.trace = 0)
    (hrun : Engine.benchmark platform fuel i e = some e1) :
    e1.test_params_cache i = some h ∧ genCount i e1.trace = 1 ∧ e1.tests = e.tests := by
  unfold Engine.benchmark at hrun
  simp only at hrun
  have htest0 : RepetitionTester_get_current_test { e with current_test := i } = some test :=
    hti
  have hcfg0 : RepetitionTester_get_current_config { e with current_test := i }
      = some (cfg ()) := by
    simp only [RepetitionTester_get_current_config, htest0, hcfg]
  obtain ⟨m, hm⟩ := Nat.exists_eq_succ_of_ne_zero hcount
  simp only [hcfg0] at hrun
  rw [hm, Engine.repetitions] at hrun
  have hnull := internal_null { e with current_test := i } test gen htest0 hgen hslot
  simp only [hzero, hfirst] at hnull
  obtain ⟨e2, he2⟩ : ∃ e2 : Engine,
      ({ tester := e.tester, tests := e.tests, current_test := i,
         test_params_cache := Function.update e.test_params_cache i (some h),
         trace := e.trace ++ [EngineEvent.gen_params i (some h)] } : Engine) = e2 := ⟨_, rfl⟩
  rw [he2] at hnull
  have hcur2 : e2.current_test = i := by rw [← he2]
  have htests2 : e2.tests = e.tests := by rw [← he2]
  have hslot2 : e2.test_params_cache i = some h := by
    rw [← he2]
    simp
  have hcount2 : genCount i e2.trace = 1 := by
    rw [← he2]
    show genCount i (e.trace ++ [EngineEvent.gen_params i (some h)]) = 1
    rw [genCount_append, genCount_gen_params, if_pos rfl, hzero]
  generalize he0 : ({ e with current_test := i } : Engine) = e0 at hrun hnull htest0 hcfg0
  have hcur0 : e0.current_test = i := by rw [← he0]
  have htests0 : e0.tests = e.tests := by rw [← he0]
  have hcfg2 : RepetitionTester_get_current_config e2 = some (cfg ()) := by
    rw [config_congr e0 e2 (htests2.trans htests0.symm) (hcur2.trans hcur0.symm)]
    exact hcfg0
  have hs2 : Settled i e2 := fun _ =>
    ⟨⟨h, hslot2⟩, fun config hc => by
      rw [hcfg2] at hc
      cases hc
      exact hcache⟩
  cases hrep : Engine.repetition platform fuel (cfg ()) 0 e0 with
  | none => simp [hrep] at hrun
  | some res =>
    obtain ⟨c, e3⟩ := res
    obtain ⟨k3, c3⟩ := repetition_after_lookup i platform fuel (cfg ()) 0 e0 e2 (some h)
      (c, e3) (by rw [hcache]; exact hnull) hs2 hrep
    cases c with
    | next_repetition =>
      simp only [hrep] at hrun
      have hcfg3 : RepetitionTester_get_current_config e3 = some (cfg ()) := by
        rw [config_congr e2 e3 k3.2.2 c3]
        exact hcfg2
      have k4 := repetitions_keep i platform fuel (cfg ()) m 1 e3 e1 hcfg3
        (settled_of_keep i e2 e3 k3 c3 hs2) hrun
      have k24 := keep_trans i e2 e3 e1 k3 k4
      exact ⟨k24.1.trans hslot2, k24.2.1.trans hcount2, k24.2.2.trans htests2⟩
    | next_test_loop =>
      simp only [hrep, Option.some.injEq] at hrun
      subst hrun
      exact ⟨k3.1.trans hslot2, k3.2.1.trans hcount2, k3.2.2.trans htests2⟩

theorem benchmarks_first (i : Nat) (platform : Platform) (fuel : Nat)
    (test : RepetitionTesterTest) (gen : RepetitionTesterTestGenParamsFn)
    (cfg : RepetitionTesterTestConfigFn) (h : Nat) (hgen : test.gen_params = some gen)
    (hcfg : test.get_test_config = some cfg) (hcache : (cfg ()).cache_params = true)
    (hcount : (cfg ()).repetition_count ≠ 0) (hfirst : gen 0 = some h) (remaining : Nat) :
    ∀ (j : Nat) (e e1 : Engine), j ≤ i → i < j + remaining → e.tests[i]? = some test →
      e.test_params_cache i = none → genCount i e.trace = 0 →
      Engine.benchmarks platform fuel remaining j e = some e1 →
      e1.test_params_cache i = some h ∧ genCount i e1.trace = 1 := by
  induction remaining with
  | zero => intro j e e1 h1 h2; omega
  | succ remaining ih =>
    intro j e e1 hji hlt hti hslot hzero hrun
    rw [Engine.benchmarks] at hrun
    cases hb : Engine.benchmark platform fuel j e with
    | none => simp [hb] at hrun
    | some e2 =>
      simp only [hb] at hrun
      by_cases hj : j = i
      · subst hj
        obtain ⟨g1, g2, _⟩ := benchmark_first j platform fuel e e2 test gen cfg h hti hgen hcfg
          hcache hcount hfirst hslot hzero hb
        have k := benchmarks_keep j platform fuel remaining (j + 1) e2 e1 (by omega) hrun
        exact ⟨k.1.trans g1, k.2.1.trans g2⟩
      · have k := benchmark_keep i j platform fuel e e2 hj hb
        exact ih (j + 1) e2 e1 (by omega) (by omega) (by rw [k.2.2]; exact hti)
          (k.1.trans hslot) (k.2.1.trans hzero) hrun

theorem lookupCount_cons (c : TestCall) (cs : List TestCall) :
    lookupCount (c :: cs) = lookupCount cs + (if c = TestCall.get_params then 1 else 0) := by
  unfold lookupCount
  rw [List.count_cons]
  by_cases h : c = TestCall.get_params
  · simp [h]
  · have h1 : ¬ TestCall.get_params = c := fun hh => h hh.symm
    simp [h, h1]

/-- With caching disabled, a call of a test function invokes the generator exactly when it
is a parameter lookup. -/
theorem perform_uncached (c : TestCall) (e e1 : Engine) (config : RepetitionTesterTestConfig)
    (hcfg : RepetitionTester_get_current_config e = some config)
    (hoff : config.cache_params = false) (h : c.perform e = some e1) :
    genCount e.current_test e1.trace =
        genCount e.current_test e.trace + (if c = TestCall.get_params then 1 else 0)
      ∧ e1.tests = e.tests ∧ e1.current_test = e.current_test := by
  cases c with
  | begin_time tsc faults => cases h; exact ⟨rfl, rfl, rfl⟩
  | end_time tsc faults => cases h; exact ⟨rfl, rfl, rfl⟩
  | bytes_processed bytes => cases h; exact ⟨rfl, rfl, rfl⟩
  | error message =>
    cases h
    exact ⟨(error_keep e.current_test e message).2.1, rfl, rfl⟩
  | get_params =>
    simp only [TestCall.perform, RepetitionTester_get_params_for_test, hcfg, hoff] at h
    cases htest : RepetitionTester_get_current_test e with
    | none => simp [RepetitionTester_get_params_for_test_internal, htest] at h
    | some test =>
      cases hgen : test.gen_params with
      | none => simp [RepetitionTester_get_params_for_test_internal, htest, hgen] at h
      | some gen =>
        rw [internal_uncached e test gen htest hgen] at h
        simp only [Option.some.injEq] at h
        subst h
        refine ⟨?_, rfl, rfl⟩
        simp only [genCount_append, genCount_gen_params, if_true]

theorem performCalls_uncached (config : RepetitionTesterTestConfig)
    (hoff : config.cache_params = false) (calls : List TestCall) :
    ∀ e e1 : Engine, RepetitionTester_get_current_config e = some config →
      performCalls calls e = some e1 →
      genCount e.current_test e1.trace = genCount e.current_test e.trace + lookupCount calls
        ∧ e1.tests = e.tests ∧ e1.current_test = e.current_test := by
  induction calls with
  | nil =>
    intro e e1 _ h
    cases h
    exact ⟨rfl, rfl, rfl⟩
  | cons c cs ih =>
    intro e e1 hcfg h
    simp only [performCalls] at h
    cases hp : c.perform e with
    | none => simp [hp] at h
    | some e2 =>
      simp only [hp] at h
      obtain ⟨g1, g2, g3⟩ := perform_uncached c e e2 config hcfg hoff hp
      have hcfg2 : RepetitionTester_get_current_config e2 = some config := by
        rw [config_congr e e2 g2 g3]
        exact hcfg
      obtain ⟨h1, h2, h3⟩ := ih e2 e1 hcfg2 h
      rw [g3] at h1
      refine ⟨?_, h2.trans g2, h3.trans g3⟩
      rw [h1, g1, lookupCount_cons]
      omega

/-- With caching disabled, an iteration invokes the generator once per lookup its test
function makes. -/
theorem iteration_uncached (platform : Platform) (config cfg0 : RepetitionTesterTestConfig)
    (test : RepetitionTesterTestFn) (r k : Nat) (e : Engine) (out : LoopControl × Engine)
    (hcfg : RepetitionTester_get_current_config e = some cfg0)
    (hoff : cfg0.cache_params = false)
    (h : Engine.iteration platform config test r k e = some out) :
    genCount e.current_test out.2.trace =
      genCount e.current_test e.trace + lookupCount (test r k) := by
  unfold Engine.iteration at h
  simp only at h
  cases hp : performCalls (test r k)
      { tester := { e.tester with context := { e.tester.context with
          iteration_value := RepetitionTesterTestValue.fill 0 } },
        tests := e.tests, current_test := e.current_test,
        test_params_cache := e.test_params_cache,
        trace := e.trace ++ [EngineEvent.test e.current_test r k] } with
  | none => simp [hp] at h
  | some e3 =>
    simp only [hp] at h
    have k2 := enter_keep e.current_test e { e.tester with context := { e.tester.context with
      iteration_value := RepetitionTesterTestValue.fill 0 } }
      (EngineEvent.test e.current_test r k) (fun _ heq => by cases heq)
    have hstep := fun hc => performCalls_uncached cfg0 hoff (test r k) _ e3 hc hp
    obtain ⟨g1, _, _⟩ := hstep hcfg
    have g3 : genCount e.current_test e3.trace =
        genCount e.current_test e.trace + lookupCount (test r k) := by
      rw [← k2.2.1]
      exact g1
    have hfin : ∀ evs : List EngineEvent,
        (∀ ev ∈ evs, ∀ res, ev ≠ EngineEvent.gen_params e.current_test res) →
        genCount e.current_test (e3.trace ++ evs) =
          genCount e.current_test e.trace + lookupCount (test r k) := by
      intro evs hevs
      rw [← g3]
      exact (append_keep e.current_test e3 { e3 with trace := e3.trace ++ evs } evs rfl rfl rfl
        hevs).2.1
    cases hc : (afterTest config (platform.iteration_reading e.current_test r k) e3.tester).1 with
    | next_iteration =>
      simp only [hc, Option.some.injEq] at h
      subst h
      exact g3
    | break_loop =>
      simp only [hc, Option.some.injEq] at h
      subst h
      exact g3
    | goto_next_test_loop =>
      simp only [hc] at h
      split at h
      · simp only [Option.some.injEq] at h
        subst h
        exact hfin _ (fun ev hev res heq => by
          rw [List.mem_singleton] at hev
          rw [hev] at heq
          cases heq)
      · simp only [Option.some.injEq] at h
        subst h
        exact hfin _ (fun ev hev res heq => by
          rw [List.mem_singleton] at hev
          rw [hev] at heq
          cases heq)

theorem engineLoop_uncached (platform : Platform) (config cfg0 : RepetitionTesterTestConfig)
    (test : RepetitionTesterTestFn) (r : Nat) (hoff : cfg0.cache_params = false)
    (hno : ∀ k, lookupCount (test r k) = 0) (fuel : Nat) :
    ∀ (k : Nat) (e : Engine) (out : LoopControl × Engine),
      RepetitionTester_get_current_config e = some cfg0 →
      Engine.convergenceLoop platform config test r fuel k e = some out →
      genCount e.current_test out.2.trace = genCount e.current_test e.trace
        ∧ out.2.current_test = e.current_test := by
  induction fuel with
  | zero =>
    intro k e out _ h
    simp [Engine.convergenceLoop] at h
  | succ fuel ih =>
    intro k e out hcfg h
    rw [Engine.convergenceLoop] at h
    cases hit : Engine.iteration platform config test r k e with
    | none => simp [hit] at h
    | some res =>
      obtain ⟨c, e1⟩ := res
      have g1 := iteration_uncached platform config cfg0 test r k e (c, e1) hcfg hoff hit
      rw [hno k, Nat.add_zero] at g1
      obtain ⟨_, t1, c1⟩ := iteration_tester platform config test r k e (c, e1) hit
      cases c with
      | next_iteration =>
        simp only [hit] at h
        have hcfg1 : RepetitionTester_get_current_config e1 = some cfg0 := by
          rw [config_congr e e1 t1 c1]
          exact hcfg
        obtain ⟨g2, c2⟩ := ih (k + 1) e1 out hcfg1 h
        have hc1 : e1.current_test = e.current_test := c1
        rw [hc1] at g2
        exact ⟨g2.trans g1, c2.trans c1⟩
      | break_loop =>
        simp only [hit, Option.some.injEq] at h
        subst h
        exact ⟨g1, c1⟩
      | goto_next_test_loop =>
        simp only [hit, Option.some.injEq] at h
        subst h
        exact ⟨g1, c1⟩

/-- With caching disabled and a test function that never looks its parameters up, a
repetition invokes the generator exactly once, however many iterations it runs. -/
theorem repetition_uncached (platform : Platform) (fuel : Nat)
    (config : RepetitionTesterTestConfig) (r : Nat) (e : Engine) (test : RepetitionTesterTest)
    (test_fn : RepetitionTesterTestFn) (out : RepetitionControl × Engine)
    (hcfg : RepetitionTester_get_current_config e = some config)
    (hoff : config.cache_params = false)
    (htest : RepetitionTester_get_current_test e = some test)
    (hfn : test.test = some test_fn) (hno : ∀ k, lookupCount (test_fn r k) = 0)
    (h : Engine.repetition platform fuel config r e = some out) :
    genCount e.current_test out.2.trace = genCount e.current_test e.trace + 1 := by
  unfold Engine.repetition at h
  simp only [htest, hoff] at h
  cases hgen : test.gen_params with
  | none => simp [RepetitionTester_get_params_for_test_internal, htest, hgen] at h
  | some gen =>
    rw [internal_uncached e test gen htest hgen] at h
    simp only at h
    obtain ⟨e1, he1⟩ : ∃ e1 : Engine,
        ({ e with trace := e.trace ++ [EngineEvent.gen_params e.current_test
          (gen (genCount e.current_test e.trace))] } : Engine) = e1 := ⟨_, rfl⟩
    rw [he1] at h
    have hcur1 : e1.current_test = e.current_test := by rw [← he1]
    have hcount1 : genCount e.current_test e1.trace = genCount e.current_test e.trace + 1 := by
      rw [← he1]
      simp only [genCount_append, genCount_gen_params, if_true]
    have hcfg1 : RepetitionTester_get_current_config e1 = some config := by
      rw [config_congr e e1 (by rw [← he1]) hcur1]
      exact hcfg
    split at h
    · simp only [Option.some.injEq] at h
      subst h
      exact ((error_keep e.current_test e1 _).2.1).trans hcount1
    · have kb := engineBegin_keep e.current_test platform test
        (gen (genCount e.current_test e.trace)) r e1
      simp only [hfn] at h
      cases hloop : Engine.convergenceLoop platform config test_fn r fuel 0
          (Engine.beginRepetition platform test (gen (genCount e.current_test e.trace)) r e1) with
      | none => simp [hloop] at h
      | some res =>
        obtain ⟨c, e3⟩ := res
        have hcfgb : RepetitionTester_get_current_config
            (Engine.beginRepetition platform test (gen (genCount e.current_test e.trace)) r e1)
            = some config := hcfg1
        obtain ⟨g3, c3⟩ := engineLoop_uncached platform config config test_fn r hoff hno fuel 0
          _ (c, e3) hcfgb hloop
        have hcurb : (Engine.beginRepetition platform test
            (gen (genCount e.current_test e.trace)) r e1).current_test = e.current_test := hcur1
        rw [hcurb] at g3
        have g13 : genCount e.current_test e3.trace = genCount e.current_test e.trace + 1 :=
          (g3.trans kb.2.1).trans hcount1
        cases c with
        | break_loop =>
          simp only [hloop, Option.some.injEq] at h
          subst h
          refine Eq.trans ?_ g13
          exact (append_keep e.current_test e3
            { e3 with trace := e3.trace ++ [EngineEvent.results e3.current_test r] }
            [EngineEvent.results e3.current_test r]
            rfl rfl rfl (fun ev hmem res heq => by
              rw [List.mem_singleton] at hmem
              rw [hmem] at heq
              cases heq)).2.1
        | next_iteration =>
          simp only [hloop, Option.some.injEq] at h
          subst h
          exact g13
        | goto_next_test_loop =>
          simp only [hloop, Option.some.injEq] at h
          subst h
          exact g13

/-! ## Parameter caching over a run -/

/-- C11, as stated, fails in both halves. With caching enabled, `steadyTest` (two
repetitions, the default generator, which returns null) has its generator invoked twice in
one run, once at the start of each repetition. With caching disabled, `uncachedTest` runs
two iterations in its one repetition and its generator is invoked once, not once per
iteration. -/
theorem parameter_caching_counterexample :
    (RepetitionTester_get_current_config (exampleEngine [steadyTest])).map
        (fun config => config.cache_params) = some true
    ∧ (RepetitionTester_run examplePlatform 10 (exampleEngine [steadyTest])).map
        (fun e => e.trace) =
      some [EngineEvent.gen_params 0 none, EngineEvent.banner 0 0, EngineEvent.test 0 0 0,
        EngineEvent.test 0 0 1, EngineEvent.results 0 0,
        EngineEvent.gen_params 0 none, EngineEvent.banner 0 1, EngineEvent.test 0 1 0,
        EngineEvent.test 0 1 1, EngineEvent.results 0 1]
    ∧ (RepetitionTester_get_current_config (exampleEngine [uncachedTest])).map
        (fun config => config.cache_params) = some false
    ∧ (RepetitionTester_run examplePlatform 10 (exampleEngine [uncachedTest])).map
        (fun e => e.trace) =
      some [EngineEvent.gen_params 0 none, EngineEvent.banner 0 0, EngineEvent.test 0 0 0,
        EngineEvent.test 0 0 1, EngineEvent.results 0 0] := by
  refine ⟨rfl, ?_, rfl, ?_⟩ <;> decide

/-- C11, amended: parameter caching. Over a whole `RepetitionTester_run` that starts with the
slot of benchmark `i` null and no invocation of its generator yet, if benchmark `i` has
caching enabled, at least one repetition and a generator whose first result is a non-null
handle `h`, then its generator is invoked exactly once and the slot ends holding `h`,
whatever the repetition and iteration counts and however often the test functions look
parameters up. With caching disabled the generator is invoked once per lookup: the lookup
of the engine at the start of a repetition invokes it once, an iteration invokes it once
for every lookup its test function makes in that iteration and so not at all when it makes
none, and a repetition whose test function never looks parameters up invokes it exactly
once however many iterations it runs. -/
theorem generator_invocations (platform : Platform) (fuel i : Nat) (e e1 : Engine)
    (test : RepetitionTesterTest) (gen : RepetitionTesterTestGenParamsFn)
    (cfg : RepetitionTesterTestConfigFn) (h : Nat)
    (hti : e.tests[i]? = some test) (hgen : test.gen_params = some gen)
    (hcfg : test.get_test_config = some cfg) (hcache : (cfg ()).cache_params = true)
    (hcount : (cfg ()).repetition_count ≠ 0) (hfirst : gen 0 = some h)
    (hslot : e.test_params_cache i = none) (hzero : genCount i e.trace = 0)
    (hrun : RepetitionTester_run platform fuel e = some e1) :
    genCount i e1.trace = 1
    ∧ e1.test_params_cache i = some h
    ∧ (∀ (e2 e3 : Engine) (config : RepetitionTesterTestConfig) (params : Params),
        config.cache_params = false →
        RepetitionTester_get_params_for_test_internal e2 config.cache_params =
          some (params, e3) →
        genCount e2.current_test e3.trace = genCount e2.current_test e2.trace + 1)
    ∧ (∀ (config cfg0 : RepetitionTesterTestConfig) (test_fn : RepetitionTesterTestFn)
        (r k : Nat) (e2 : Engine) (out : LoopControl × Engine),
        RepetitionTester_get_current_config e2 = some cfg0 → cfg0.cache_params = false →
        Engine.iteration platform config test_fn r k e2 = some out →
        genCount e2.current_test out.2.trace =
          genCount e2.current_test e2.trace + lookupCount (test_fn r k))
    ∧ (∀ (config : RepetitionTesterTestConfig) (test2 : RepetitionTesterTest)
        (test_fn : RepetitionTesterTestFn) (r : Nat) (e2 : Engine)
        (out : RepetitionControl × Engine),
        RepetitionTester_get_current_config e2 = some config → config.cache_params = false →
        RepetitionTester_get_current_test e2 = some test2 → test2.test = some test_fn →
        (∀ k, lookupCount (test_fn r k) = 0) →
        Engine.repetition platform fuel config r e2 = some out →
        genCount e2.current_test out.2.trace = genCount e2.current_test e2.trace + 1) := by
  have hlen : i < e.tests.length := by
    rcases Nat.lt_or_ge i e.tests.length with hlt | hge
    · exact hlt
    · rw [List.getElem?_eq_none hge] at hti
      cases hti
  obtain ⟨g1, g2⟩ := benchmarks_first i platform fuel test gen cfg h hgen hcfg hcache hcount
    hfirst e.tests.length 0 e e1 (Nat.zero_le i) (by omega) hti hslot hzero hrun
  refine ⟨g2, g1, ?_, ?_, ?_⟩
  · intro e2 e3 config params hoff hlook
    rw [hoff] at hlook
    cases htest : RepetitionTester_get_current_test e2 with
    | none => simp [RepetitionTester_get_params_for_test_internal, htest] at hlook
    | some test2 =>
      cases hgen2 : test2.gen_params with
      | none => simp [RepetitionTester_get_params_for_test_internal, htest, hgen2] at hlook
      | some gen2 =>
        rw [internal_uncached e2 test2 gen2 htest hgen2] at hlook
        simp only [Option.some.injEq, Prod.mk.injEq] at hlook
        rw [← hlook.2]
        simp only [genCount_append, genCount_gen_params, if_true]
  · intro config cfg0 test_fn r k e2 out hc hoff hit
    exact iteration_uncached platform config cfg0 test_fn r k e2 out hc hoff hit
  · intro config test2 test_fn r e2 out hc hoff htest hfn hno hrep
    exact repetition_uncached platform fuel config r e2 test2 test_fn out hc hoff htest hfn hno
      hrep

/-- C11, amended, at a run of `cachedTest`: two repetitions of two iterations each, with a
lookup by the test function in every iteration, and one invocation of the generator. -/
theorem generator_invocations_witness :
    (RepetitionTester_run examplePlatform 10 (exampleEngine [cachedTest])).map
        (fun e => e.trace) =
      some [EngineEvent.gen_params 0 (some 7), EngineEvent.banner 0 0, EngineEvent.test 0 0 0,
        EngineEvent.test 0 0 1, EngineEvent.results 0 0, EngineEvent.banner 0 1,
        EngineEvent.test 0 1 0, EngineEvent.test 0 1 1, EngineEvent.results 0 1]
    ∧ (RepetitionTester_run examplePlatform 10 (exampleEngine [cachedTest])).map
        (fun e => (genCount 0 e.trace, e.test_params_cache 0)) = some (1, some 7) := by
  refine ⟨by decide, ?_⟩
  have hs : (RepetitionTester_run examplePlatform 10 (exampleEngine [cachedTest])).isSome
      = true := by decide
  obtain ⟨e1, hrun⟩ := Option.isSome_iff_exists.1 hs
  have h := generator_invocations examplePlatform 10 0 (exampleEngine [cachedTest]) e1
    (initializeTest cachedTest) (fun _ => some 7) (fun _ => twiceConfig) 7
    rfl rfl rfl rfl (by decide) rfl rfl rfl hrun
  rw [hrun, Option.map_some', h.1, h.2.1]

end BenchUtils
